import Mathlib

/-!
# docker-volume-backup: a shallow embedding of the backup and restore paths

Go strings are modelled by Lean strings (the valid UTF-8 ones), Go `error`
values by `Option String` (`none` is `nil`, `some msg` carries `err.Error()`).
Library functions the repository calls (`strings`, `regexp`, `os`, the codecs)
are written out next to the code that uses them.
-/

/-- A Go `error`: `none` is `nil`, `some msg` is an error whose text is `msg`. -/
abbrev GoError := Option String

/-! ## package strings -/

namespace strings

/-- Go `strings.HasPrefix(s, prefix)`. -/
def HasPrefix (s pre : String) : Bool :=
  pre.data.isPrefixOf s.data

/-- Go `strings.HasSuffix(s, suffix)`. -/
def HasSuffix (s suffix : String) : Bool :=
  suffix.data.isSuffixOf s.data

/-- Go `strings.TrimPrefix(s, prefix)`: `s` without the leading `prefix`, or `s` itself. -/
def TrimPrefix (s pre : String) : String :=
  if HasPrefix s pre then ⟨s.data.drop pre.data.length⟩ else s

/-- Substring test on character lists: does `sub` occur in `s` at some position. -/
def containsList (sub : List Char) : List Char → Bool
  | [] => sub.isEmpty
  | c :: cs => sub.isPrefixOf (c :: cs) || containsList sub cs

/-- Go `strings.Contains(s, substr)`. -/
def Contains (s substr : String) : Bool :=
  containsList substr.data s.data

/-- Go `strings.Index` on character lists: the part of `s` before the first occurrence of
`sep` and the part after it, when there is one. -/
def cutList (sep : List Char) : List Char → Option (List Char × List Char)
  | [] => if sep.isEmpty then some ([], []) else none
  | c :: cs =>
    if sep.isPrefixOf (c :: cs) then some ([], (c :: cs).drop sep.length)
    else match cutList sep cs with
      | some (before, after) => some (c :: before, after)
      | none => none

/-- The loop of Go `strings.genSplit` for a non-empty separator: at most `k` further cuts,
then the rest of the string as the last piece. -/
def splitLoop (sep : List Char) : Nat → List Char → List (List Char)
  | 0, s => [s]
  | k + 1, s =>
    match cutList sep s with
    | none => [s]
    | some (before, after) => before :: splitLoop sep k after

/-- Go `strings.SplitN(s, sep, n)` for a non-empty `sep` and `n > 0` (the only use in the
repository is `sep = "/"`, `n = 2`); `n = 0` gives no pieces. -/
def SplitN (s sep : String) (n : Nat) : List String :=
  match n with
  | 0 => []
  | k + 1 => (splitLoop sep.data k s.data).map String.mk

end strings

/-! ## package regexp, as far as `ValidateVolumeName` uses it -/

/-- Regular expressions over characters, with predicate character classes. -/
inductive Regex where
  | nothing : Regex
  | eps : Regex
  | cls (p : Char → Bool) : Regex
  | alt (a b : Regex) : Regex
  | seq (a b : Regex) : Regex
  | star (a : Regex) : Regex

namespace Regex

/-- Does the expression match the empty string. -/
def nullable : Regex → Bool
  | nothing => false
  | eps => true
  | cls _ => false
  | alt a b => a.nullable || b.nullable
  | seq a b => a.nullable && b.nullable
  | star _ => true

/-- Brzozowski derivative: what remains to be matched after reading `c`. -/
def deriv : Regex → Char → Regex
  | nothing, _ => nothing
  | eps, _ => nothing
  | cls p, c => if p c then eps else nothing
  | alt a b, c => alt (a.deriv c) (b.deriv c)
  | seq a b, c =>
    if a.nullable then alt (seq (a.deriv c) b) (b.deriv c) else seq (a.deriv c) b
  | star a, c => seq (a.deriv c) (star a)

/-- Whole-string match (the expression anchored with `^` and `$`). -/
def fullMatch (r : Regex) : List Char → Bool
  | [] => r.nullable
  | c :: cs => fullMatch (r.deriv c) cs

/-- The strings an expression denotes. -/
inductive Lang : Regex → List Char → Prop
  | eps : Lang eps []
  | cls (p : Char → Bool) (c : Char) : p c = true → Lang (cls p) [c]
  | altL (a b : Regex) (s : List Char) : Lang a s → Lang (alt a b) s
  | altR (a b : Regex) (s : List Char) : Lang b s → Lang (alt a b) s
  | seq (a b : Regex) (s t : List Char) : Lang a s → Lang b t → Lang (seq a b) (s ++ t)
  | starNil (a : Regex) : Lang (star a) []
  | starCons (a : Regex) (c : Char) (s t : List Char) :
      Lang a (c :: s) → Lang (star a) t → Lang (star a) (c :: s ++ t)

end Regex

/-- Character range `lo-hi` of a bracket expression. -/
def inRange (lo hi c : Char) : Bool :=
  decide (lo.toNat ≤ c.toNat) && decide (c.toNat ≤ hi.toNat)

/-- The class `[a-zA-Z0-9]`. -/
def isAlnum (c : Char) : Bool :=
  inRange 'a' 'z' c || inRange 'A' 'Z' c || inRange '0' '9' c

/-- The class `[a-zA-Z0-9_.-]`. -/
def isNameChar (c : Char) : Bool :=
  isAlnum c || c == '_' || c == '.' || c == '-'

namespace docker

/-- The compiled pattern `^[a-zA-Z0-9][a-zA-Z0-9_.-]*$` of `ValidateVolumeName`; the two
anchors are carried by `Regex.fullMatch`. -/
def volumeNamePattern : Regex :=
  Regex.seq (Regex.cls isAlnum) (Regex.star (Regex.cls isNameChar))

/-- Go `regexp.MatchString(pattern, s)` for the constant, well-formed pattern above: the
match result and a nil compile error. -/
def MatchString (pattern : Regex) (s : String) : Bool × GoError :=
  (pattern.fullMatch s.data, none)

/-- Embedding of `ValidateVolumeName` of internal/docker/volume.go. -/
def ValidateVolumeName (volume : String) : GoError :=
  if volume = "" then
    some "volume name cannot be empty"
  else
    match MatchString volumeNamePattern volume with
    | (_, some err) => some err
    | (matched, none) =>
      if !matched then
        some ("invalid volume name '" ++ volume ++
          "': must start with alphanumeric and contain only a-z, A-Z, 0-9, -, _, .")
      else
        none

end docker

/-! ## package s3: remote paths -/

namespace s3

/-- Embedding of `parseS3Path` of internal/s3/s3.go: bucket, key and error. -/
def parseS3Path (s3Path : String) : String × String × GoError :=
  if !strings.HasPrefix s3Path "s3://" then
    ("", "", some "invalid S3 path format, must start with s3://")
  else
    let path := strings.TrimPrefix s3Path "s3://"
    let parts := strings.SplitN path "/" 2
    if parts.length ≠ 2 ∨ parts.getD 0 "" = "" ∨ parts.getD 1 "" = "" then
      ("", "", some "invalid S3 path format, expected s3://bucket/key")
    else
      (parts.getD 0 "", parts.getD 1 "", none)

/-- Embedding of `ValidatePath` of internal/s3/s3.go. -/
def ValidatePath (path : String) : GoError :=
  if !strings.HasPrefix path "s3://" then
    some "S3 path must start with s3://"
  else
    let parts := strings.SplitN (strings.TrimPrefix path "s3://") "/" 2
    if parts.length < 2 ∨ parts.getD 0 "" = "" ∨ parts.getD 1 "" = "" then
      some "invalid S3 path format: expected s3://bucket/key"
    else
      none

end s3

/-! ## Byte streams and the codec libraries -/

/-- A byte sequence. -/
abbrev Bytes := List UInt8

/-- What an `io.Reader` yields when it is drained: the bytes it hands out, and then either
`io.EOF` (`err = none`) or a read error. -/
structure ByteStream where
  data : Bytes
  err : GoError
deriving DecidableEq, Repr

/-- The compression libraries the repository links against (`compress/gzip` and
`github.com/klauspost/compress/zstd`), taken as parameters. `gzipNewReader r` is
`gzip.NewReader(r)`: it reads the gzip header and fails on a malformed one, and on success
stands for the decoded stream; `zstdNewReader` likewise for `zstd.NewReader`. `gzipEncode`
and `zstdEncode` give the bytes a `gzip.Writer` / `zstd.Encoder` has emitted once the given
chunks were written to it and it was closed. -/
structure CodecLib where
  gzipNewReader : ByteStream → Except String ByteStream
  zstdNewReader : ByteStream → Except String ByteStream
  gzipEncode : List Bytes → Bytes
  zstdEncode : List Bytes → Bytes

namespace rw

/-- Embedding of `CreateReader` of internal/rw/reader.go: the decoded stream behind the
returned `io.ReadCloser`, or the error. -/
def CreateReader (lib : CodecLib) (r : ByteStream) (filename : String) :
    Except String ByteStream :=
  if strings.HasSuffix filename ".gz" || strings.HasSuffix filename ".tar.gz" then
    match lib.gzipNewReader r with
    | .error err => .error ("failed to create gzip reader: " ++ err)
    | .ok gzr => .ok gzr
  else if strings.HasSuffix filename ".zst" || strings.HasSuffix filename ".tar.zst" then
    match lib.zstdNewReader r with
    | .error err => .error ("failed to create zstd reader: " ++ err)
    | .ok zr => .ok zr
  else
    -- No compression
    .ok r

/-- The concrete type behind the `io.WriteCloser` that `CreateWriter` returns. -/
inductive WriterKind where
  | nopWriteCloser
  | gzipWriter
  | zstdEncoder
deriving DecidableEq, Repr

/-- An `io.WriteCloser` wrapped around a sink `w`. For `nopWriteCloser`, `sink` is what has
reached `w` so far. A compressing writer decides by itself when bytes reach `w` between its
first `Write` and its `Close` (a `gzip.Writer` emits its header at the first `Write`); the
model does not follow that: `pending` are the chunks the writer has accepted, and `sink`
holds the whole frame once the writer is closed and, before that, only what `w` held when
the stream was created. -/
structure WriteCloser where
  kind : WriterKind
  sink : Bytes
  pending : List Bytes
deriving DecidableEq, Repr

/-- Embedding of `CreateWriter` of internal/rw/writer.go, for a sink holding `w`: the stream
(`none` is a nil `io.WriteCloser`), the error, and the content of the sink after the call.
`gzip.NewWriter` and `zstd.NewWriter` write nothing until the first `Write`, and
`zstd.NewWriter` called without options returns a nil error. -/
def CreateWriter (w : Bytes) (compressionType : String) :
    Option WriteCloser × GoError × Bytes :=
  if compressionType = "none" then
    (some ⟨.nopWriteCloser, w, []⟩, none, w)
  else if compressionType = "gz" then
    (some ⟨.gzipWriter, w, []⟩, none, w)
  else if compressionType = "zstd" then
    (some ⟨.zstdEncoder, w, []⟩, none, w)
  else
    (none, some ("unsupported compression type: " ++ compressionType), w)

/-- Method `Write(p)` of the stream: `nopWriteCloser` hands `p` to the sink at once (its
embedded `io.Writer`), a compressing writer takes `p` in; what it may already emit is
accounted for at `Close`. -/
def WriteCloser.Write (wc : WriteCloser) (p : Bytes) : WriteCloser :=
  match wc.kind with
  | .nopWriteCloser => { wc with sink := wc.sink ++ p }
  | .gzipWriter => { wc with pending := wc.pending ++ [p] }
  | .zstdEncoder => { wc with pending := wc.pending ++ [p] }

/-- Method `Close()` of the stream: `nopWriteCloser.Close` does nothing, a compressing writer
flushes its frame to the sink. The sink itself is not closed. -/
def WriteCloser.Close (lib : CodecLib) (wc : WriteCloser) : WriteCloser :=
  match wc.kind with
  | .nopWriteCloser => wc
  | .gzipWriter => { wc with sink := wc.sink ++ lib.gzipEncode wc.pending, pending := [] }
  | .zstdEncoder => { wc with sink := wc.sink ++ lib.zstdEncode wc.pending, pending := [] }

/-- Writing a sequence of chunks, one `Write` per chunk. -/
def WriteCloser.WriteAll (wc : WriteCloser) (chunks : List Bytes) : WriteCloser :=
  chunks.foldl WriteCloser.Write wc

end rw

/-- A toy codec library for evaluating the model: "gzip" frames the data behind the two
magic bytes 0x1f 0x8b, "zstd" behind the byte 0x28. -/
def demoLib : CodecLib where
  gzipNewReader := fun r =>
    match r.data with
    | 0x1f :: 0x8b :: rest => .ok ⟨rest, r.err⟩
    | _ => .error "gzip: invalid header"
  zstdNewReader := fun r =>
    match r.data with
    | 0x28 :: rest => .ok ⟨rest, r.err⟩
    | _ => .ok ⟨[], some "magic number mismatch"⟩
  gzipEncode := fun chunks => 0x1f :: 0x8b :: chunks.flatten
  zstdEncode := fun chunks => 0x28 :: chunks.flatten

/-! ## The host: commands, files, the object store, the tar library -/

/-- A `tar.Header`, the fields that identify an entry and say how it is copied. -/
structure TarHeader where
  name : String
  typeflag : Char
  size : Nat
  mode : Nat
  linkname : String
deriving DecidableEq, Repr

/-- One entry as a `tar.Reader` presents it: the header `Next` returns, and what reading the
entry's content then yields. -/
structure TarEntry where
  header : TarHeader
  body : ByteStream
deriving DecidableEq, Repr

/-- Everything a `tar.Reader` yields over its lifetime: the entries, then `io.EOF`
(`ending = none`) or the error with which `Next` fails. -/
structure TarSource where
  entries : List TarEntry
  ending : GoError
deriving DecidableEq, Repr

/-- The operations the program asks of its host. -/
inductive Op where
  /-- Go `exec.Command(argv...)` run to completion (`Run`, `Output`, `CombinedOutput`). -/
  | run (argv : List String)
  /-- The exclusive file creation inside `os.CreateTemp`: path prefix and suffix of the name,
  the host picks the random middle part. -/
  | createTemp (pre suf : String)
  /-- Go `(*os.File).Close`. -/
  | close (path : String)
  /-- Go `os.Remove`. -/
  | remove (path : String)
  /-- Go `os.Create`. -/
  | create (path : String)
  /-- Go `os.Stat`. -/
  | stat (path : String)
  /-- Go `os.Open`; the reply carries what reading the file yields. -/
  | openFile (path : String)
  /-- Go `progressbar.DefaultBytes(total, ...)`. -/
  | newBar (total : Int)
  /-- Go `bar.Finish()`. -/
  | finishBar
  /-- Go `s3.NewClient`: region default and `config.LoadDefaultConfig`. -/
  | s3NewClient
  /-- Go `manager.Downloader.Download` of `bucket`/`key` into the open local file. -/
  | s3Download (bucket key localFile : String)
  /-- Go `cmd.StdinPipe()` of the command `argv`. -/
  | stdinPipe (argv : List String)
  /-- Go `cmd.Start()`. -/
  | start (argv : List String)
  /-- Go `tarWriter.WriteHeader(header)`: into the pipe of `docker cp` on restore, into the
  archive on backup. -/
  | writeHeader (header : TarHeader)
  /-- Entry content written through `tarWriter.Write` by `io.Copy`. -/
  | write (data : Bytes)
  /-- Go `tarWriter.Close()`. -/
  | closeTar
  /-- Go `stdin.Close()`. -/
  | closePipe
  /-- Go `cmd.Wait()`. -/
  | wait (argv : List String)
  /-- Go `cmd.StdoutPipe()` of the command `argv`. -/
  | stdoutPipe (argv : List String)
  /-- Method `Close()` of a compressing writer (`gzip.Writer`, `zstd.Encoder`): the footer. -/
  | closeWriter
  /-- Go `manager.Uploader.Upload` of the open local file to `bucket`/`key`. -/
  | s3Upload (bucket key localFile : String)
deriving DecidableEq, Repr

/-- What the host answers: the error of the operation, and its result where it has one. -/
structure Reply where
  /-- The error; `none` is success (exit status 0 for a command). -/
  err : GoError := none
  /-- Captured output of a command; the random part of a temporary file name. -/
  output : String := ""
  /-- File size reported by `os.Stat`. -/
  size : Int := 0
  /-- What reading an opened file yields. -/
  content : ByteStream := ⟨[], none⟩
deriving DecidableEq, Repr

/-- One operation together with the host's answer. -/
structure Call where
  op : Op
  reply : Reply
deriving DecidableEq, Repr

/-- The program's environment: the host with its state space `W`, the temporary directory
(`os.TempDir()`), and the libraries. `tarReader r` is what `tar.NewReader(r)` yields. -/
structure Env (W : Type) where
  host : Op → W → Reply × W
  tempDir : String
  lib : CodecLib
  tarReader : ByteStream → TarSource

/-- State threaded through the program: the host's state and the calls made so far. -/
structure St (W : Type) where
  world : W
  log : List Call

/-- Perform one host operation and record it. -/
def perform {W : Type} (env : Env W) (op : Op) (s : St W) : Reply × St W :=
  let res := env.host op s.world
  (res.1, ⟨res.2, s.log ++ [⟨op, res.1⟩]⟩)

/-- The calls made between state `s` and a later state `t`. -/
def callsSince {W : Type} (s t : St W) : List Call :=
  t.log.drop s.log.length

/-- A deferred call: `cleanup` runs when the function returns and cannot change the (unnamed)
result. -/
def deferred {W : Type} (cleanup : St W → St W) (res : GoError × St W) : GoError × St W :=
  (res.1, cleanup res.2)

namespace strings

/-- Go `unicode.IsSpace`. -/
def isSpace (c : Char) : Bool :=
  c == '\t' || c == '\n' || c == Char.ofNat 0x0B || c == Char.ofNat 0x0C || c == '\r' ||
  c == ' ' || c == Char.ofNat 0x85 || c == Char.ofNat 0xA0 || c == Char.ofNat 0x1680 ||
  (decide (0x2000 ≤ c.toNat) && decide (c.toNat ≤ 0x200A)) ||
  c == Char.ofNat 0x2028 || c == Char.ofNat 0x2029 || c == Char.ofNat 0x202F ||
  c == Char.ofNat 0x205F || c == Char.ofNat 0x3000

/-- Go `strings.TrimSpace`. -/
def TrimSpace (s : String) : String :=
  ⟨((s.data.dropWhile isSpace).reverse.dropWhile isSpace).reverse⟩

end strings

namespace os

/-- Go `os.prefixAndSuffix`: a pattern with a path separator is refused; otherwise the
pattern is split at its last `*`. -/
def prefixAndSuffix (pattern : String) : String × String × GoError :=
  if pattern.data.any (fun c => c == '/') then
    ("", "", some "pattern contains path separator")
  else
    match strings.cutList ['*'] pattern.data.reverse with
    | some (sufRev, preRev) => (⟨preRev.reverse⟩, ⟨sufRev.reverse⟩, none)
    | none => (pattern, "", none)

/-- Go `os.CreateTemp(dir, pattern)`: the name of the created file, or the error. The file
is `dir/prefix + random + suffix`; the retries on a name collision happen inside the host's
`createTemp` operation. -/
def CreateTemp {W : Type} (env : Env W) (dir pattern : String) (s : St W) :
    (String × GoError) × St W :=
  let dir := if dir = "" then env.tempDir else dir
  match prefixAndSuffix pattern with
  | (_, _, some err) => (("", some ("createtemp " ++ pattern ++ ": " ++ err)), s)
  | (pre, suf, none) =>
    let pre := if strings.HasSuffix dir "/" then dir ++ pre else dir ++ "/" ++ pre
    let res := perform env (.createTemp pre suf) s
    match res.1.err with
    | some err => (("", some err), res.2)
    | none => ((pre ++ res.1.output ++ suf, none), res.2)

end os

namespace docker

/-- Embedding of `VolumeExists` of internal/docker/volume.go. -/
def VolumeExists {W : Type} (env : Env W) (volume : String) (s : St W) :
    (Bool × GoError) × St W :=
  let res := perform env (.run ["docker", "volume", "inspect", volume]) s
  match res.1.err with
  | some _ =>
    -- Volume doesn't exist
    ((false, none), res.2)
  | none => ((true, none), res.2)

/-- Embedding of `CreateVolume` of internal/docker/volume.go. -/
def CreateVolume {W : Type} (env : Env W) (volume : String) (s : St W) : GoError × St W :=
  let res := perform env (.run ["docker", "volume", "create", volume]) s
  match res.1.err with
  | some err => (some ("failed to create volume: " ++ err ++ ", output: " ++ res.1.output), res.2)
  | none => (none, res.2)

/-- The command line `ClearVolume` runs. -/
def clearVolumeArgs (volume : String) : List String :=
  ["docker", "run", "--rm", "-v", volume ++ ":/data", "alpine", "sh", "-c",
    "rm -rf /data/* /data/..?* /data/.[!.]* 2>/dev/null || true"]

/-- Embedding of `ClearVolume` of internal/docker/volume.go. -/
def ClearVolume {W : Type} (env : Env W) (volume : String) (s : St W) : GoError × St W :=
  let res := perform env (.run (clearVolumeArgs volume)) s
  match res.1.err with
  | some err => (some ("failed to clear volume: " ++ err ++ ", output: " ++ res.1.output), res.2)
  | none => (none, res.2)

/-- Embedding of `CreateContainerWithVolume` of internal/docker/container.go. -/
def CreateContainerWithVolume {W : Type} (env : Env W) (volume : String) (s : St W) :
    (String × GoError) × St W :=
  let res := perform env (.run ["docker", "create", "-v", volume ++ ":/data", "alpine", "true"]) s
  match res.1.err with
  | some err => (("", some ("failed to create container: " ++ err)), res.2)
  | none => ((strings.TrimSpace res.1.output, none), res.2)

/-- Embedding of `RemoveContainer` of internal/docker/container.go. -/
def RemoveContainer {W : Type} (env : Env W) (containerID : String) (s : St W) :
    GoError × St W :=
  let res := perform env (.run ["docker", "rm", containerID]) s
  (res.1.err, res.2)

end docker

namespace s3

/-- Embedding of `DownloadFile` of internal/s3/s3.go. -/
def DownloadFile {W : Type} (env : Env W) (s3Path localFile : String) (s : St W) :
    GoError × St W :=
  -- Parse S3 path
  match parseS3Path s3Path with
  | (_, _, some err) => (some err, s)
  | (bucket, key, none) =>
    -- Create local file
    let res1 := perform env (.create localFile) s
    match res1.1.err with
    | some err => (some ("failed to create file " ++ localFile ++ ": " ++ err), res1.2)
    | none =>
      deferred (fun t => (perform env (.close localFile) t).2) <|
        -- Create S3 client
        let res2 := perform env .s3NewClient res1.2
        match res2.1.err with
        | some err => (some err, res2.2)
        | none =>
          -- Download file
          let res3 := perform env (.s3Download bucket key localFile) res2.2
          match res3.1.err with
          | some err => (some ("failed to download from S3: " ++ err), res3.2)
          | none => (none, res3.2)

end s3

/-! ## package operation: restore -/

/-- Go `tar.TypeReg`, the type flag of a regular file. -/
def tar.TypeReg : Char := '0'

namespace operation

/-- Embedding of `ValidateFilePath` of internal/operation/filesystem.go. -/
def ValidateFilePath (path : String) : GoError :=
  if path = "" then
    some "file path cannot be empty"
  else if strings.Contains path ".." then
    -- Check for path traversal attempts
    some ("path traversal not allowed in '" ++ path ++ "'")
  else
    none

/-- Embedding of `GetFileSize` of internal/operation/filesystem.go. -/
def GetFileSize {W : Type} (env : Env W) (path : String) (s : St W) : (Int × GoError) × St W :=
  let res := perform env (.stat path) s
  match res.1.err with
  | some err => ((0, some err), res.2)
  | none => ((res.1.size, none), res.2)

/-- The `Restore` struct of internal/operation/restore.go. -/
structure Restore where
  volume : String
  showProgress : Bool
deriving DecidableEq, Repr

/-- Embedding of `NewRestore` of internal/operation/restore.go. -/
def NewRestore (volume : String) (showProgress : Bool) : Option Restore × GoError :=
  -- Validate inputs
  match docker.ValidateVolumeName volume with
  | some err => (none, some err)
  | none => (some ⟨volume, showProgress⟩, none)

/-- The call `io.Copy(tarWriter, tarReader)` for the current entry: the content the reader yields is
written to the pipe; a write error ends the copy, otherwise the reader's own error (if any)
is the result. -/
def copyEntry {W : Type} (env : Env W) (body : ByteStream) (s : St W) : GoError × St W :=
  let res := perform env (.write body.data) s
  match res.1.err with
  | some err => (some err, res.2)
  | none => (body.err, res.2)

/-- The `for` loop of `runRestore` (restore.go lines 191-209) over what the tar reader still
has to yield. `none` means the loop ended with `break`; `some err` is the error with which
the loop returns from `runRestore`. -/
def restoreLoop {W : Type} (env : Env W) (ending : GoError) :
    List TarEntry → St W → GoError × St W
  | [], s =>
    match ending with
    | none => (none, s)
    | some err => (some ("failed to read tar header: " ++ err), s)
  | entry :: rest, s =>
    let res := perform env (.writeHeader entry.header) s
    match res.1.err with
    | some err => (some ("failed to write tar header: " ++ err), res.2)
    | none =>
      if entry.header.typeflag = tar.TypeReg then
        match copyEntry env entry.body res.2 with
        | (some err, s2) => (some ("failed to write file data: " ++ err), s2)
        | (none, s2) => restoreLoop env ending rest s2
      else
        restoreLoop env ending rest res.2

/-- The command line of the `docker cp` that feeds the volume. -/
def restoreCpArgs (containerID : String) : List String :=
  ["docker", "cp", "-", containerID ++ ":/data/"]

/-- The part of `runRestore` from the creation of the temporary container on (restore.go
lines 171-218). -/
def runRestoreInContainer {W : Type} (env : Env W) (r : Restore) (tarReader : TarSource)
    (s : St W) : GoError × St W :=
  -- Create a temporary container to access the volume
  match docker.CreateContainerWithVolume env r.volume s with
  | ((_, some err), s1) => (some ("failed to create temp container: " ++ err), s1)
  | ((containerID, none), s1) =>
    deferred (fun t => (docker.RemoveContainer env containerID t).2) <|
      -- Use docker cp to write the tar stream to the volume
      let res2 := perform env (.stdinPipe (restoreCpArgs containerID)) s1
      match res2.1.err with
      | some err => (some ("failed to create stdin pipe: " ++ err), res2.2)
      | none =>
        let res3 := perform env (.start (restoreCpArgs containerID)) res2.2
        match res3.1.err with
        | some err => (some ("failed to start docker cp: " ++ err), res3.2)
        | none =>
          -- Write tar stream to docker cp
          match restoreLoop env tarReader.ending tarReader.entries res3.2 with
          | (some err, s4) => (some err, s4)
          | (none, s4) =>
            let res5 := perform env .closeTar s4
            let res6 := perform env .closePipe res5.2
            let res7 := perform env (.wait (restoreCpArgs containerID)) res6.2
            match res7.1.err with
            | some err => (some ("docker cp failed: " ++ err), res7.2)
            | none => (none, res7.2)

/-- The part of `runRestore` from the opening of the backup file on (restore.go lines
148-218). The progress reader only counts the bytes that pass; what is read is the file's
content. -/
def runRestoreFromFile {W : Type} (env : Env W) (r : Restore) (src : String) (s : St W) :
    GoError × St W :=
  -- Open backup file
  let res := perform env (.openFile src) s
  match res.1.err with
  | some err => (some ("failed to open backup file: " ++ err), res.2)
  | none =>
    deferred (fun t => (perform env (.close src) t).2) <|
      -- Create reader with decompression
      match rw.CreateReader env.lib res.1.content src with
      | .error err => (some ("failed to create decompressed reader: " ++ err), res.2)
      | .ok reader =>
        -- Create tar reader
        runRestoreInContainer env r (env.tarReader reader) res.2

/-- Embedding of `runRestore` of internal/operation/restore.go. -/
def runRestore {W : Type} (env : Env W) (r : Restore) (src : String) (s : St W) :
    GoError × St W :=
  -- Get file size for progress bar
  if r.showProgress then
    let sz := GetFileSize env src s
    let bar := perform env (.newBar (if sz.1.1 > 0 then sz.1.1 else -1)) sz.2
    deferred (fun t => (perform env .finishBar t).2) <|
      runRestoreFromFile env r src bar.2
  else
    runRestoreFromFile env r src s

/-- The error of a restore into an existing volume without the overwrite flag. -/
def alreadyExistsError (volume : String) : String :=
  "volume '" ++ volume ++
    "' already exists. Use --overwrite flag to clear and restore, or delete the volume first"

/-- Embedding of `RestoreFromFile` of internal/operation/restore.go. -/
def RestoreFromFile {W : Type} (env : Env W) (r : Restore) (src : String) (overwrite : Bool)
    (s : St W) : GoError × St W :=
  match ValidateFilePath src with
  | some err => (some err, s)
  | none =>
    -- Check if volume exists
    match docker.VolumeExists env r.volume s with
    | ((_, some err), s1) => (some err, s1)
    | ((volExists, none), s1) =>
      let adm : GoError × St W :=
        if volExists then
          -- Volume exists - check if overwrite flag is set
          if !overwrite then
            (some (alreadyExistsError r.volume), s1)
          else
            -- Clear the existing volume before restore
            docker.ClearVolume env r.volume s1
        else
          -- Create new volume
          docker.CreateVolume env r.volume s1
      match adm with
      | (some err, s2) => (some err, s2)
      | (none, s2) => runRestore env r src s2

/-- The extension `RestoreFromS3` gives its temporary file (restore.go lines 94-99). -/
def restoreTempExt (path : String) : String :=
  if strings.HasSuffix path ".tar.zst" || strings.HasSuffix path ".zst" then
    ".tar.zst"
  else if strings.HasSuffix path ".tar" then
    ".tar"
  else
    ".tar.gz" -- default

/-- The part of `RestoreFromS3` after the admission of the volume: temporary file, download,
restore (restore.go lines 92-121). -/
def restoreDownloaded {W : Type} (env : Env W) (r : Restore) (path : String) (s : St W) :
    GoError × St W :=
  -- Create temporary file for download with proper permissions
  let ext := restoreTempExt path
  match os.CreateTemp env "" ("docker-volume-restore-" ++ r.volume ++ "-*" ++ ext) s with
  | ((_, some err), s1) => (some ("failed to create temporary file: " ++ err), s1)
  | ((tmpFilePath, none), s1) =>
    let s2 := (perform env (.close tmpFilePath) s1).2
    deferred (fun t => (perform env (.remove tmpFilePath) t).2) <|
      -- Download from S3
      match s3.DownloadFile env path tmpFilePath s2 with
      | (some err, s3) => (some err, s3)
      | (none, s3) =>
        -- Restore from local file
        match runRestore env r tmpFilePath s3 with
        | (some err, s4) => (some ("failed to restore from downloaded backup: " ++ err), s4)
        | (none, s4) => (none, s4)

/-- Embedding of `RestoreFromS3` of internal/operation/restore.go. -/
def RestoreFromS3 {W : Type} (env : Env W) (r : Restore) (path : String) (overwrite : Bool)
    (s : St W) : GoError × St W :=
  match s3.ValidatePath path with
  | some err => (some err, s)
  | none =>
    -- Check if volume exists
    match docker.VolumeExists env r.volume s with
    | ((_, some err), s1) => (some err, s1)
    | ((volExists, none), s1) =>
      let adm : GoError × St W :=
        if volExists then
          -- Volume exists - check if overwrite flag is set
          if !overwrite then
            (some (alreadyExistsError r.volume), s1)
          else
            -- Clear the existing volume before restore
            docker.ClearVolume env r.volume s1
        else
          -- Create new volume
          docker.CreateVolume env r.volume s1
      match adm with
      | (some err, s2) => (some err, s2)
      | (none, s2) => restoreDownloaded env r path s2

end operation

/-! ## package operation: backup -/

namespace fmt

/-- Go `fmt.Sscanf(s, "%d", &size)` on a string without leading white space, for an `int64`:
an optional sign, then the longest run of decimal digits, which must not be empty; what
follows the digits is left unread. `strconv.ParseInt` in base 10 then refuses a value
outside 64 bits. `none` is a scan error. -/
def scanInt (s : String) : Option Int :=
  let signed : Bool × List Char :=
    match s.data with
    | '-' :: rest => (true, rest)
    | '+' :: rest => (false, rest)
    | cs => (false, cs)
  let tok := signed.2.takeWhile (fun c => c.isDigit)
  if tok.isEmpty then
    none
  else
    let n : Nat := tok.foldl (fun acc c => 10 * acc + (c.toNat - '0'.toNat)) 0
    if signed.1 then
      if n ≤ 2 ^ 63 then some (-(n : Int)) else none
    else
      if n < 2 ^ 63 then some (n : Int) else none

end fmt

namespace docker

/-- The command line `GetVolumeSize` runs. -/
def volumeSizeArgs (volume : String) : List String :=
  ["docker", "run", "--rm", "-v", volume ++ ":/data:ro", "alpine", "sh", "-c",
    "du -sb /data | cut -f1"]

/-- Embedding of `GetVolumeSize` of internal/docker/volume.go. -/
def GetVolumeSize {W : Type} (env : Env W) (volume : String) (s : St W) :
    (Int × GoError) × St W :=
  let res := perform env (.run (volumeSizeArgs volume)) s
  match res.1.err with
  | some _ =>
    -- If we can't get size, return 0 (progress will be indeterminate)
    ((0, none), res.2)
  | none =>
    match fmt.scanInt (strings.TrimSpace res.1.output) with
    | none => ((0, none), res.2)
    | some size => ((size, none), res.2)

/-- Embedding of `EnsureVolumeExists` of internal/docker/volume.go. -/
def EnsureVolumeExists {W : Type} (env : Env W) (volume : String) (s : St W) :
    GoError × St W :=
  match VolumeExists env volume s with
  | ((_, some err), s1) => (some err, s1)
  | ((volExists, none), s1) =>
    if !volExists then
      CreateVolume env volume s1
    else
      (none, s1)

end docker

namespace s3

/-- Embedding of `UploadFile` of internal/s3/s3.go. -/
def UploadFile {W : Type} (env : Env W) (localFile s3Path : String) (s : St W) :
    GoError × St W :=
  -- Parse S3 path
  match parseS3Path s3Path with
  | (_, _, some err) => (some err, s)
  | (bucket, key, none) =>
    -- Open local file
    let res1 := perform env (.openFile localFile) s
    match res1.1.err with
    | some err => (some ("failed to open file " ++ localFile ++ ": " ++ err), res1.2)
    | none =>
      deferred (fun t => (perform env (.close localFile) t).2) <|
        -- Create S3 client
        let res2 := perform env .s3NewClient res1.2
        match res2.1.err with
        | some err => (some err, res2.2)
        | none =>
          -- Upload file
          let res3 := perform env (.s3Upload bucket key localFile) res2.2
          match res3.1.err with
          | some err => (some ("failed to upload to S3: " ++ err), res3.2)
          | none => (none, res3.2)

end s3

namespace operation

/-- The `Backup` struct of internal/operation/backup.go. -/
structure Backup where
  volume : String
  compression : String
  showProgress : Bool
deriving DecidableEq, Repr

/-- Embedding of `NewBackup` of internal/operation/backup.go. -/
def NewBackup {W : Type} (env : Env W) (volume compression : String) (showProgress : Bool)
    (s : St W) : (Option Backup × GoError) × St W :=
  match docker.ValidateVolumeName volume with
  | some err => ((none, some err), s)
  | none =>
    match docker.VolumeExists env volume s with
    | ((_, some err), s1) => ((none, some err), s1)
    | ((volExists, none), s1) =>
      if !volExists then
        ((none, some ("volume '" ++ volume ++ "' does not exist")), s1)
      else
        ((some ⟨volume, compression, showProgress⟩, none), s1)

/-- The `for` loop of `runBackup` (backup.go lines 150-168) over what the tar reader on the
output of `docker cp` still has to yield. `none` means the loop ended with `break`;
`some err` is the error with which the loop returns from `runBackup`. -/
def backupLoop {W : Type} (env : Env W) (ending : GoError) :
    List TarEntry → St W → GoError × St W
  | [], s =>
    match ending with
    | none => (none, s)
    | some err => (some ("failed to read tar header: " ++ err), s)
  | entry :: rest, s =>
    let res := perform env (.writeHeader entry.header) s
    match res.1.err with
    | some err => (some ("failed to write tar header: " ++ err), res.2)
    | none =>
      if entry.header.typeflag = tar.TypeReg then
        match copyEntry env entry.body res.2 with
        | (some err, s2) => (some ("failed to write file data: " ++ err), s2)
        | (none, s2) => backupLoop env ending rest s2
      else
        backupLoop env ending rest res.2

/-- The command line of the `docker cp` that streams the volume out. -/
def backupCpArgs (containerID : String) : List String :=
  ["docker", "cp", containerID ++ ":/data/.", "-"]

/-- The part of `runBackup` from the creation of the temporary container on (backup.go lines
129-174). The reply to `cmd.Start()` carries what the process writes to its standard
output. -/
def runBackupInContainer {W : Type} (env : Env W) (b : Backup) (s : St W) : GoError × St W :=
  -- Create a temporary container to access the volume
  match docker.CreateContainerWithVolume env b.volume s with
  | ((_, some err), s1) => (some ("failed to create temp container: " ++ err), s1)
  | ((containerID, none), s1) =>
    deferred (fun t => (docker.RemoveContainer env containerID t).2) <|
      -- Use docker cp to stream the volume data
      let res2 := perform env (.stdoutPipe (backupCpArgs containerID)) s1
      match res2.1.err with
      | some err => (some ("failed to create stdout pipe: " ++ err), res2.2)
      | none =>
        let res3 := perform env (.start (backupCpArgs containerID)) res2.2
        match res3.1.err with
        | some err => (some ("failed to start docker cp: " ++ err), res3.2)
        | none =>
          -- Copy the tar stream from docker cp to our compressed tar
          let tarReader := env.tarReader res3.1.content
          match backupLoop env tarReader.ending tarReader.entries res3.2 with
          | (some err, s4) => (some err, s4)
          | (none, s4) =>
            let res5 := perform env (.wait (backupCpArgs containerID)) s4
            match res5.1.err with
            | some err => (some ("docker cp failed: " ++ err), res5.2)
            | none => (none, res5.2)

/-- The deferred `writer.Close()` of `runBackup`: `nopWriteCloser.Close` does nothing, a
compressing writer writes its footer. -/
def closeWriter {W : Type} (env : Env W) (writer : Option rw.WriteCloser) (t : St W) : St W :=
  match writer with
  | some ⟨.gzipWriter, _, _⟩ => (perform env .closeWriter t).2
  | some ⟨.zstdEncoder, _, _⟩ => (perform env .closeWriter t).2
  | _ => t

/-- The part of `runBackup` from the creation of the output file on (backup.go lines
105-174). The progress writer only counts the bytes that pass. -/
def runBackupToFile {W : Type} (env : Env W) (b : Backup) (dest : String) (s : St W) :
    GoError × St W :=
  -- Create output file
  let res := perform env (.create dest) s
  match res.1.err with
  | some err => (some ("failed to create backup file: " ++ err), res.2)
  | none =>
    deferred (fun t => (perform env (.close dest) t).2) <|
      -- Create writer with compression
      match rw.CreateWriter [] b.compression with
      | (_, some err, _) => (some ("failed to create compressed writer: " ++ err), res.2)
      | (writer, none, _) =>
        deferred (closeWriter env writer) <|
          -- Create tar writer
          deferred (fun t => (perform env .closeTar t).2) <|
            runBackupInContainer env b res.2

/-- Embedding of `runBackup` of internal/operation/backup.go. -/
def runBackup {W : Type} (env : Env W) (b : Backup) (dest : String) (s : St W) :
    GoError × St W :=
  -- Get volume size for progress bar
  if b.showProgress then
    let sz := docker.GetVolumeSize env b.volume s
    let bar := perform env (.newBar (if sz.1.1 > 0 then sz.1.1 else -1)) sz.2
    deferred (fun t => (perform env .finishBar t).2) <|
      runBackupToFile env b dest bar.2
  else
    runBackupToFile env b dest s

/-- Embedding of `BackupToFile` of internal/operation/backup.go. -/
def BackupToFile {W : Type} (env : Env W) (b : Backup) (dest : String) (s : St W) :
    GoError × St W :=
  match ValidateFilePath dest with
  | some err => (some err, s)
  | none => runBackup env b dest s

/-- Embedding of `BackupToS3` of internal/operation/backup.go. -/
def BackupToS3 {W : Type} (env : Env W) (b : Backup) (s3Path : String) (s : St W) :
    GoError × St W :=
  match s3.ValidatePath s3Path with
  | some err => (some err, s)
  | none =>
    -- Create temporary file for backup
    match os.CreateTemp env "" ("docker-volume-backup-" ++ b.volume ++ "-*.tar.gz") s with
    | ((_, some err), s1) => (some ("failed to create temporary file: " ++ err), s1)
    | ((tmpFilePath, none), s1) =>
      let s2 := (perform env (.close tmpFilePath) s1).2
      deferred (fun t => (perform env (.remove tmpFilePath) t).2) <|
        -- First backup to local file
        match runBackup env b tmpFilePath s2 with
        | (some err, t3) => (some ("failed to create temporary backup: " ++ err), t3)
        | (none, t3) =>
          -- Then upload to S3
          match s3.UploadFile env tmpFilePath s3Path t3 with
          | (some err, t4) => (some err, t4)
          | (none, t4) => (none, t4)

end operation

/-! ## package main -/

namespace cmd

/-- The `backup` case of `main` (cmd/main.go lines 54-66) for the arguments `volume` and
`dest`: `checkErr` ends the program with the error it is given. -/
def mainBackup {W : Type} (env : Env W) (volume dest compress : String) (progress : Bool)
    (s : St W) : GoError × St W :=
  match operation.NewBackup env volume compress progress s with
  | ((_, some err), s1) => (some err, s1)
  | ((none, none), s1) => (none, s1)
  | ((some op, none), s1) =>
    if strings.HasPrefix dest "s3://" then
      operation.BackupToS3 env op dest s1
    else
      operation.BackupToFile env op dest s1

/-- The `restore` case of `main` (cmd/main.go lines 68-82) for the arguments `src` and
`volume`. -/
def mainRestore {W : Type} (env : Env W) (src volume : String) (progress overwrite : Bool)
    (s : St W) : GoError × St W :=
  match operation.NewRestore volume progress with
  | (_, some err) => (some err, s)
  | (none, none) => (none, s)
  | (some op, none) =>
    if strings.HasPrefix src "s3://" then
      operation.RestoreFromS3 env op src overwrite s
    else
      operation.RestoreFromFile env op src overwrite s

end cmd

/-! ## The Restore Admission Decision as the specification words it -/

namespace spec

/-- Specification 4.5: the three outcomes of the Restore Admission Decision. -/
inductive Admission where
  | createThenProceed
  | abort
  | clearThenProceed
deriving DecidableEq, Repr

/-- Specification 4.5: the outcome as a function of (volume exists, overwrite flag). -/
def admissionDecision (volExists overwrite : Bool) : Admission :=
  match volExists, overwrite with
  | false, _ => .createThenProceed
  | true, false => .abort
  | true, true => .clearThenProceed

/-- Carrying an outcome out: create the volume and proceed, abort with the "already exists"
error, or clear the volume and proceed; a failing creation or clearing ends the restore with
its error. -/
def admissionThen {W : Type} (env : Env W) (volume : String) (d : Admission)
    (proceed : St W → GoError × St W) (s : St W) : GoError × St W :=
  match d with
  | .createThenProceed =>
    match docker.CreateVolume env volume s with
    | (some err, s1) => (some err, s1)
    | (none, s1) => proceed s1
  | .abort => (some (operation.alreadyExistsError volume), s)
  | .clearThenProceed =>
    match docker.ClearVolume env volume s with
    | (some err, s1) => (some err, s1)
    | (none, s1) => proceed s1

end spec

/-! ## A small host for evaluating the model -/

/-- State of the demonstration host: the volumes with the names of the files in them, and
whether the object store answers. -/
structure DemoWorld where
  volumes : List (String × List String)
  storeUp : Bool
deriving DecidableEq, Repr

/-- The demonstration host: `docker volume inspect` succeeds on the volumes that exist,
`docker volume create` adds an empty volume, the command of `ClearVolume` empties the volume
it names, downloads succeed while the object store is up, and everything else succeeds
without changing the state. -/
def demoHost : Op → DemoWorld → Reply × DemoWorld
  | .run ["docker", "volume", "inspect", v], w =>
    if w.volumes.any (fun p => p.1 == v) then ({}, w)
    else ({ err := some "exit status 1" }, w)
  | .run ["docker", "volume", "create", v], w =>
    ({ output := v }, { w with volumes := w.volumes ++ [(v, [])] })
  | .run ["docker", "create", _, _, _, _], w => ({ output := "c0ffee\n" }, w)
  | .run argv, w =>
    ({}, { w with volumes := w.volumes.map (fun p =>
      if argv = docker.clearVolumeArgs p.1 then (p.1, []) else p) })
  | .createTemp _ _, w => ({ output := "123456" }, w)
  | .s3Download _ _ _, w =>
    if w.storeUp then ({}, w) else ({ err := some "connection refused" }, w)
  | .openFile _, w => ({ content := ⟨[0x1f, 0x8b, 104, 105], none⟩ }, w)
  | _, w => ({}, w)

/-- The demonstration environment; its tar library presents a stream as an archive of one
regular file holding the stream's bytes. -/
def demoEnv : Env DemoWorld where
  host := demoHost
  tempDir := "/tmp"
  lib := demoLib
  tarReader := fun r => ⟨[⟨⟨"hello.txt", tar.TypeReg, r.data.length, 420, ""⟩, r⟩], none⟩

/-- A start state of the demonstration host. -/
def demoStart (volumes : List (String × List String)) (storeUp : Bool) : St DemoWorld :=
  ⟨⟨volumes, storeUp⟩, []⟩

/-! ## Vocabulary for statements about the calls of a restore -/

/-- The operations `runRestore` performs. -/
def Op.ofRunRestore : Op → Bool
  | .stat _ => true
  | .newBar _ => true
  | .finishBar => true
  | .openFile _ => true
  | .close _ => true
  | .run ["docker", "create", "-v", _, "alpine", "true"] => true
  | .run ["docker", "rm", _] => true
  | .stdinPipe _ => true
  | .start _ => true
  | .writeHeader _ => true
  | .write _ => true
  | .closeTar => true
  | .closePipe => true
  | .wait _ => true
  | _ => false

/-- The operations `s3.DownloadFile` performs. -/
def Op.ofDownload : Op → Bool
  | .create _ => true
  | .close _ => true
  | .s3NewClient => true
  | .s3Download _ _ _ => true
  | _ => false

/-- The operations of `RestoreFromS3` after the admission of the volume, for a temporary
file with the extension `ext`: the temporary file is created with that suffix, closed and
removed, the download runs, and `runRestore` runs. -/
def Op.ofRestoreDownloaded (ext : String) : Op → Bool
  | .createTemp _ suf => suf == ext
  | .remove _ => true
  | op => op.ofDownload || op.ofRunRestore

/-- The operations through which a restore reaches into the volume: creating the temporary
container, the `docker cp` process and its pipe, and the headers and content written. -/
def Op.reachesVolume : Op → Bool
  | .run ["docker", "create", "-v", _, "alpine", "true"] => true
  | .stdinPipe _ => true
  | .start _ => true
  | .writeHeader _ => true
  | .write _ => true
  | _ => false

/-- State `t` continues state `s` by calls whose operations all satisfy `P`. -/
def Extends {W : Type} (P : Op → Prop) (s t : St W) : Prop :=
  ∃ calls, t.log = s.log ++ calls ∧ ∀ c ∈ calls, P c.op

/-- The operations with which `RestoreFromS3` stages the download: the temporary file and
the transfer from the object store. -/
def Op.ofStaging : Op → Bool
  | .createTemp _ _ => true
  | .remove _ => true
  | op => op.ofDownload

/-- Is the call a successful run of the command `argv`. -/
def Call.ranOk (c : Call) (argv : List String) : Prop :=
  c.op = .run argv ∧ c.reply.err = none

/-- In the calls `cs`, every operation of the staging or of the transcode (temporary file,
download, `runRestore`) comes after a successful `docker volume create` or a successful
clearing of the volume. -/
def AdmittedFirst (volume : String) (cs : List Call) : Prop :=
  ∀ pre c post, cs = pre ++ c :: post → (c.op.ofStaging || c.op.ofRunRestore) = true →
    ∃ k ∈ pre, k.ranOk ["docker", "volume", "create", volume] ∨
      k.ranOk (docker.clearVolumeArgs volume)

/-- In the calls `cs`, every operation that reaches into the volume comes after a call of the
command of `ClearVolume` that succeeded. -/
def ClearedFirst (volume : String) (cs : List Call) : Prop :=
  ∀ pre c post, cs = pre ++ c :: post → c.op.reachesVolume = true →
    ∃ k ∈ pre, k.op = .run (docker.clearVolumeArgs volume) ∧ k.reply.err = none

/-! ## Path segments as the specification words them -/

namespace spec

/-- The separator-delimited segments of a path (separator `/`). -/
def segments : List Char → List (List Char)
  | [] => [[]]
  | c :: cs =>
    if c = '/' then
      [] :: segments cs
    else
      match segments cs with
      | seg :: rest => (c :: seg) :: rest
      | [] => [[c]]

/-- Specification 4.6: a destination path is acceptable when it is non-empty and none of its
segments is the parent-traversal segment `..`. -/
def acceptsDestination (path : String) : Prop :=
  path ≠ "" ∧ ∀ seg ∈ segments path.data, seg ≠ ['.', '.']

instance (path : String) : Decidable (acceptsDestination path) := by
  unfold acceptsDestination
  exact inferInstance

end spec

/-! ## Hosts on which chosen operations fail -/

/-- The host `host` with the error `msg` put on the reply to every operation that `bad`
selects; the effect of the operation on the state stays that of `host`. -/
def failOn {W : Type} (bad : Op → Bool) (msg : String) (host : Op → W → Reply × W) :
    Op → W → Reply × W :=
  fun op w =>
    if bad op then ({ (host op w).1 with err := some msg }, (host op w).2) else host op w

/-! ## Vocabulary for statements about the transcode -/

namespace spec

/-- Specification 4.4: what an order- and content-preserving transcode hands to the sink for
the entries of the source: entry by entry the header and, for a regular file only, after the
header the content the source yields. -/
def transcoded (entries : List TarEntry) : List Op :=
  entries.flatMap (fun e =>
    .writeHeader e.header ::
      (if e.header.typeflag = tar.TypeReg then [.write e.body.data] else []))

end spec

/-- The operations that hand a header or content to the sink. -/
def Op.isSinkWrite : Op → Bool
  | .writeHeader _ => true
  | .write _ => true
  | _ => false

/-- The operations the calls `cs` consist of. -/
def opsOf (cs : List Call) : List Op :=
  cs.map Call.op

/-- The operations that run a command to completion. -/
def Op.isRun : Op → Bool
  | .run _ => true
  | _ => false

/-- The operation `cmd.Wait()`. -/
def Op.isWait : Op → Bool
  | .wait _ => true
  | _ => false

/-- What the calls `mid` made between the creation and the removal of the temporary container
say about the result `e` of the run, for the tar source `src` that is transcoded. -/
def InContainerTrace (src : TarSource) (e : GoError) (mid : List Call) : Prop :=
  (∀ c ∈ mid, c.op.isRun = false) ∧
  (opsOf mid).filter Op.isSinkWrite <+: spec.transcoded src.entries ∧
  (e = none → src.ending = none ∧
    (opsOf mid).filter Op.isSinkWrite = spec.transcoded src.entries ∧
    ∃ c ∈ mid, c.op.isWait = true ∧ c.reply.err = none) ∧
  (∀ c ∈ mid, c.op.isWait = true →
    e = c.reply.err.map (fun err => "docker cp failed: " ++ err)) ∧
  (∀ err, src.ending = some err →
    (∀ entry ∈ src.entries, entry.header.typeflag = tar.TypeReg → entry.body.err = none) →
    (∀ c ∈ mid, c.reply.err = none) →
    e = some ("failed to read tar header: " ++ err) ∧
    (opsOf mid).filter Op.isSinkWrite = spec.transcoded src.entries)

/-! ## Vocabulary for statements about the temporary container -/

/-- The operations around the container run that cannot be taken for the creation of the
container of `volume`, for the removal of a container or for `cmd.Wait()`. -/
def Op.besideContainer (volume : String) (op : Op) : Prop :=
  op.isWait = false ∧ op ≠ .run ["docker", "create", "-v", volume ++ ":/data", "alpine", "true"] ∧
    ∀ containerID, op ≠ .run ["docker", "rm", containerID]

/-- What the calls `cs` of a run with the temporary container of `volume` say about its
result `e`: `cmd.Wait()` alone decides the result once it is reached, a run without error has
waited successfully, and a container that was created is removed exactly once. -/
def ContainerTrace (volume : String) (e : GoError) (cs : List Call) : Prop :=
  (∀ c ∈ cs, c.op.isWait = true →
    e = c.reply.err.map (fun err => "docker cp failed: " ++ err)) ∧
  (e = none → ∃ c ∈ cs, c.op.isWait = true ∧ c.reply.err = none) ∧
  (∀ c ∈ cs, c.op = .run ["docker", "create", "-v", volume ++ ":/data", "alpine", "true"] →
    c.reply.err = none →
    cs.countP (fun k => decide (k.op = .run ["docker", "rm", strings.TrimSpace c.reply.output]))
      = 1)

/-- The run from state `s` with outcome `res` has a trace as `ContainerTrace` describes. -/
def TracedRun {W : Type} (volume : String) (s : St W) (res : GoError × St W) : Prop :=
  ∃ cs, res.2.log = s.log ++ cs ∧ ContainerTrace volume res.1 cs

/-- The environment `env` on another host. -/
def Env.withHost {W : Type} (env : Env W) (host : Op → W → Reply × W) : Env W :=
  { env with host := host }

/-- The hosts `host` and `other` answer alike to every operation that is not the removal of
a container. -/
def AgreeButRemoveContainer {W : Type} (host other : Op → W → Reply × W) : Prop :=
  ∀ op w, (∀ containerID, op ≠ .run ["docker", "rm", containerID]) → other op w = host op w

/-! ## Vocabulary for statements about the end of the transcode and the staging file -/

/-- Specification 4.4 as a property of a transcode loop `loop`, run from any state on the
entries a tar source yields and on what ends them: the sink is handed a beginning of the
transcoded sequence and nothing else; all of it when the loop ends without error, and also
whenever no reading of a content fails and the sink accepts every call, in which case the
loop ends without error at the end of the stream; and a content handed over is the very
content of a regular file of the source, of the size its header states when the reader
yields that many bytes. -/
def spec.Transcodes {W : Type} (loop : GoError → List TarEntry → St W → GoError × St W) : Prop :=
  ∀ (ending : GoError) (entries : List TarEntry) (s : St W),
    opsOf (callsSince s (loop ending entries s).2) <+: spec.transcoded entries ∧
    ((loop ending entries s).1 = none →
      opsOf (callsSince s (loop ending entries s).2) = spec.transcoded entries) ∧
    ((∀ e ∈ entries, e.header.typeflag = tar.TypeReg → e.body.err = none) →
      (∀ c ∈ callsSince s (loop ending entries s).2, c.reply.err = none) →
      opsOf (callsSince s (loop ending entries s).2) = spec.transcoded entries ∧
      (ending = none → (loop ending entries s).1 = none)) ∧
    ((∀ e ∈ entries, e.header.typeflag = tar.TypeReg → e.body.data.length = e.header.size) →
      ∀ d, Op.write d ∈ opsOf (callsSince s (loop ending entries s).2) →
        ∃ e ∈ entries, e.header.typeflag = tar.TypeReg ∧ d = e.body.data ∧
          d.length = e.header.size)

/-- The header an operation hands to the sink, if it is a `WriteHeader`. -/
def Op.headerWritten : Op → Option TarHeader
  | .writeHeader header => some header
  | _ => none

/-- Specification 4.4 on the end of the transcode of the source `src`, for a run with the
result `e` and the calls `calls`: the run is without error only if the source ended with the
end of the stream; the headers and contents handed to the sink are a beginning of the
transcoded sequence; and when reading a header fails with `err` (every content read and
every call but the removal of the container having succeeded) the result is that error,
wrapped, and the sink has been handed the entries before it and nothing more. -/
def spec.AbortsOnReadError (src : TarSource) (e : GoError) (calls : List Call) : Prop :=
  (e = none → src.ending = none) ∧
  (opsOf calls).filter Op.isSinkWrite <+: spec.transcoded src.entries ∧
  (∀ err, src.ending = some err →
    (∀ entry ∈ src.entries, entry.header.typeflag = tar.TypeReg → entry.body.err = none) →
    (∀ c ∈ calls, (∀ containerID, c.op ≠ .run ["docker", "rm", containerID]) →
      c.reply.err = none) →
    e = some ("failed to read tar header: " ++ err) ∧
    (opsOf calls).filter Op.isSinkWrite = spec.transcoded src.entries)

/-- The operations that finalise the archive: closing the tar writer, the compressor, the
output file, and the stdin pipe of `docker cp`. -/
def Op.isFinalisation : Op → Bool
  | .closeTar => true
  | .closeWriter => true
  | .close _ => true
  | .closePipe => true
  | _ => false

/-- The removal of a container, `docker rm <id>`. -/
def Op.isRemoveContainer : Op → Bool
  | .run [a, b, _] => a == "docker" && b == "rm"
  | _ => false

/-- The operations on a temporary file: its creation and its removal. -/
def Op.isTempFileOp : Op → Bool
  | .createTemp _ _ => true
  | .remove _ => true
  | _ => false

/-- Every temporary file that the calls `cs` create is removed by exactly one of them. -/
def StagingTrace (cs : List Call) : Prop :=
  ∀ c ∈ cs, ∀ pre suf, c.op = .createTemp pre suf → c.reply.err = none →
    cs.countP (fun k => decide (k.op = .remove (pre ++ c.reply.output ++ suf))) = 1

/-- The run from state `s` with outcome `res` has a trace as `StagingTrace` describes. -/
def StagedRun {W : Type} (s : St W) (res : GoError × St W) : Prop :=
  ∃ cs, res.2.log = s.log ++ cs ∧ StagingTrace cs

/-! ## package rw: progress -/

namespace progressbar

/-- A `progressbar.ProgressBar` as far as progress.go uses it: the arguments of the calls of
`Add`, in the order of the calls. -/
structure ProgressBar where
  added : List Int
deriving DecidableEq, Repr

/-- Go `bar.Add(num)`; progress.go does not read the error `Add` returns. -/
def ProgressBar.Add (bar : ProgressBar) (num : Int) : ProgressBar :=
  ⟨bar.added ++ [num]⟩

/-- The bytes reported to the bar so far. -/
def ProgressBar.total (bar : ProgressBar) : Int :=
  bar.added.sum

end progressbar

namespace rw

/-- A Go `io.Writer` with the state `σ`: `write st p` is what `Write(p)` returns in the state
`st`, the count `n` and the error, and the state it leaves. -/
structure Writer (σ : Type) where
  state : σ
  write : σ → Bytes → (Int × GoError) × σ

/-- Method `Write(p)` of an `io.Writer`. -/
def Writer.Write {σ : Type} (w : Writer σ) (p : Bytes) : (Int × GoError) × Writer σ :=
  let res := w.write w.state p
  (res.1, { w with state := res.2 })

/-- A Go `io.Reader` with the state `σ`: `read st p` is what `Read(p)` returns in the state
`st`, the count `n` and the error, then the buffer `p` as the call leaves it and the state
it leaves. -/
structure Reader (σ : Type) where
  state : σ
  read : σ → Bytes → (Int × GoError) × Bytes × σ

/-- Method `Read(p)` of an `io.Reader`, with the buffer as the call leaves it. -/
def Reader.Read {σ : Type} (r : Reader σ) (p : Bytes) :
    (Int × GoError) × Bytes × Reader σ :=
  let res := r.read r.state p
  (res.1, res.2.1, { r with state := res.2.2 })

/-- The `ProgressWriter` struct of internal/rw/progress.go; `bar = none` is the nil
pointer. -/
structure ProgressWriter (σ : Type) where
  writer : Writer σ
  bar : Option progressbar.ProgressBar

/-- Embedding of `NewProgressWriter` of internal/rw/progress.go. -/
def NewProgressWriter {σ : Type} (writer : Writer σ) (bar : Option progressbar.ProgressBar) :
    ProgressWriter σ :=
  { writer := writer, bar := bar }

/-- Embedding of `(*ProgressWriter).Write` of internal/rw/progress.go. -/
def ProgressWriter.Write {σ : Type} (pw : ProgressWriter σ) (p : Bytes) :
    (Int × GoError) × ProgressWriter σ :=
  let res := pw.writer.Write p
  let bar :=
    match pw.bar with
    | some bar => some (bar.Add res.1.1)
    | none => none
  (res.1, { writer := res.2, bar := bar })

/-- The `ProgressReader` struct of internal/rw/progress.go; `bar = none` is the nil
pointer. -/
structure ProgressReader (σ : Type) where
  reader : Reader σ
  bar : Option progressbar.ProgressBar

/-- Embedding of `NewProgressReader` of internal/rw/progress.go. -/
def NewProgressReader {σ : Type} (reader : Reader σ) (bar : Option progressbar.ProgressBar) :
    ProgressReader σ :=
  { reader := reader, bar := bar }

/-- Embedding of `(*ProgressReader).Read` of internal/rw/progress.go. -/
def ProgressReader.Read {σ : Type} (pr : ProgressReader σ) (p : Bytes) :
    (Int × GoError) × Bytes × ProgressReader σ :=
  let res := pr.reader.Read p
  let bar :=
    match pr.bar with
    | some bar => some (bar.Add res.1.1)
    | none => none
  (res.1, res.2.1, { reader := res.2.2, bar := bar })

/-- A sequence of `Write` calls on a writer, one per element of `ps`: what the calls return,
and the writer afterwards. -/
def Writer.writeCalls {σ : Type} (w : Writer σ) : List Bytes → List (Int × GoError) × Writer σ
  | [] => ([], w)
  | p :: ps =>
    let res := w.Write p
    let rest := writeCalls res.2 ps
    (res.1 :: rest.1, rest.2)

/-- A sequence of `Write` calls on a `ProgressWriter`. -/
def ProgressWriter.writeCalls {σ : Type} (pw : ProgressWriter σ) :
    List Bytes → List (Int × GoError) × ProgressWriter σ
  | [] => ([], pw)
  | p :: ps =>
    let res := pw.Write p
    let rest := writeCalls res.2 ps
    (res.1 :: rest.1, rest.2)

/-- A sequence of `Read` calls on a reader, one per buffer of `ps`: what the calls return with
the buffers as they leave them, and the reader afterwards. -/
def Reader.readCalls {σ : Type} (r : Reader σ) :
    List Bytes → List ((Int × GoError) × Bytes) × Reader σ
  | [] => ([], r)
  | p :: ps =>
    let res := r.Read p
    let rest := readCalls res.2.2 ps
    ((res.1, res.2.1) :: rest.1, rest.2)

/-- A sequence of `Read` calls on a `ProgressReader`. -/
def ProgressReader.readCalls {σ : Type} (pr : ProgressReader σ) :
    List Bytes → List ((Int × GoError) × Bytes) × ProgressReader σ
  | [] => ([], pr)
  | p :: ps =>
    let res := pr.Read p
    let rest := readCalls res.2.2 ps
    ((res.1, res.2.1) :: rest.1, rest.2)

end rw

/-! ## Vocabulary for statements about stream errors and the exit of `docker cp` -/

/-- The first failure of the source in a transcode whose sink accepts everything: entry by
entry, a failed reading of the content of a regular file ends the transcode with that error
wrapped by `io.Copy`'s caller, and after the last entry a failed reading of the next header
ends it with that error wrapped; `none` when the source has no failure. -/
def spec.firstSourceError : List TarEntry → GoError → GoError
  | [], ending => ending.map (fun err => "failed to read tar header: " ++ err)
  | entry :: rest, ending =>
    if entry.header.typeflag = tar.TypeReg then
      match entry.body.err with
      | some err => some ("failed to write file data: " ++ err)
      | none => spec.firstSourceError rest ending
    else
      spec.firstSourceError rest ending

/-- What the calls `mid` made between the creation and the removal of the temporary container
say about the result `e` of the run, as to stream errors and the exit of `docker cp`. -/
def StreamTrace (src : TarSource) (e : GoError) (mid : List Call) : Prop :=
  (∀ c ∈ mid, c.op.isRun = false) ∧
  (∀ c ∈ mid, ∀ header err, c.op = .writeHeader header → c.reply.err = some err →
    e = some ("failed to write tar header: " ++ err)) ∧
  (∀ c ∈ mid, ∀ data err, c.op = .write data → c.reply.err = some err →
    e = some ("failed to write file data: " ++ err)) ∧
  (∀ c ∈ mid, c.op.isWait = true →
    (∀ k ∈ mid, k.op.isSinkWrite = true → k.reply.err = none) ∧
    spec.firstSourceError src.entries src.ending = none ∧
    e = c.reply.err.map (fun err => "docker cp failed: " ++ err)) ∧
  ((∀ c ∈ mid, c.op.isWait = false → c.reply.err = none) →
    (∀ m, spec.firstSourceError src.entries src.ending = some m →
      e = some m ∧ ∀ c ∈ mid, c.op.isWait = false) ∧
    (spec.firstSourceError src.entries src.ending = none →
      ∃ c ∈ mid, c.op.isWait = true))

/-- Specification 4.4 on the order of the errors, for a run with the result `e` and the calls
`calls`: a failed writing of a header or of a content is the result of the run, wrapped; and
`cmd.Wait()` is called only when every header and content handed to the sink was accepted,
its error being then the result. -/
def spec.StreamErrorFirst (e : GoError) (calls : List Call) : Prop :=
  (∀ c ∈ calls, ∀ header err, c.op = .writeHeader header → c.reply.err = some err →
    e = some ("failed to write tar header: " ++ err)) ∧
  (∀ c ∈ calls, ∀ data err, c.op = .write data → c.reply.err = some err →
    e = some ("failed to write file data: " ++ err)) ∧
  (∀ c ∈ calls, c.op.isWait = true →
    (∀ k ∈ calls, k.op.isSinkWrite = true → k.reply.err = none) ∧
    e = c.reply.err.map (fun err => "docker cp failed: " ++ err))

/-- Specification 4.4 on the order of the errors, as to the source `src`: `cmd.Wait()` is
called only when the source has no failure; and when every call but `cmd.Wait()` and the
removal of the container succeeds, a failure of the source is the result of the run and
`cmd.Wait()` is not called, while for a source without failure `cmd.Wait()` is called. -/
def spec.SourceErrorFirst (src : TarSource) (e : GoError) (calls : List Call) : Prop :=
  (∀ c ∈ calls, c.op.isWait = true → spec.firstSourceError src.entries src.ending = none) ∧
  ((∀ c ∈ calls, c.op.isWait = false →
      (∀ containerID, c.op ≠ .run ["docker", "rm", containerID]) → c.reply.err = none) →
    (∀ m, spec.firstSourceError src.entries src.ending = some m →
      e = some m ∧ ∀ c ∈ calls, c.op.isWait = false) ∧
    (spec.firstSourceError src.entries src.ending = none → ∃ c ∈ calls, c.op.isWait = true))

/-- The run from state `s` with outcome `res` has calls of which `Φ` holds. -/
def RunWith {W : Type} (Φ : GoError → List Call → Prop) (s : St W) (res : GoError × St W) :
    Prop :=
  ∃ cs, res.2.log = s.log ++ cs ∧ Φ res.1 cs

/-- A property `Φ` of result and calls that calls with operations of `B` around the run do not
disturb, and that holds of a failed run that made only such calls. -/
structure Framing (Φ : GoError → List Call → Prop) (B : Op → Prop) : Prop where
  frame : ∀ e pre cs post, (∀ c ∈ pre, B c.op) → (∀ c ∈ post, B c.op) → Φ e cs →
    Φ e (pre ++ cs ++ post)
  failed : ∀ (e : String) cs, (∀ c ∈ cs, B c.op) → Φ (some e) cs

/-! ## Hosts on which clearing removes nothing, creating fails, or a volume goes away -/

/-- State of a host with the one volume `data`: the names of the entries in it. -/
structure StickyWorld where
  files : List String
deriving DecidableEq, Repr

/-- A host whose volume `data` holds entries that `rm` cannot remove (immutable files, say).
The shell line of `ClearVolume` ends in `2>/dev/null || true`, so the command exits with
status 0 all the same and the volume keeps its content; a header written into the pipe of
`docker cp` puts the named entry into the volume; everything else succeeds. -/
def stickyHost : Op → StickyWorld → Reply × StickyWorld
  | .run ["docker", "volume", "inspect", v], w =>
    if v = "data" then ({}, w) else ({ err := some "exit status 1" }, w)
  | .run ["docker", "create", _, _, _, _], w => ({ output := "c0ffee\n" }, w)
  | .createTemp _ _, w => ({ output := "123456" }, w)
  | .openFile _, w => ({ content := ⟨[0x1f, 0x8b, 104, 105], none⟩ }, w)
  | .writeHeader h, w => ({}, ⟨w.files ++ [h.name]⟩)
  | _, w => ({}, w)

/-- The demonstration environment on the host with the entries that cannot be removed. -/
def stickyEnv : Env StickyWorld where
  host := stickyHost
  tempDir := "/tmp"
  lib := demoLib
  tarReader := demoEnv.tarReader

/-- A volume store that refuses every creation: `docker volume create` exits with status 1
and leaves the store as it was; everything else is as on the demonstration host. -/
def noCreateHost : Op → DemoWorld → Reply × DemoWorld
  | .run ["docker", "volume", "create", _], w => ({ err := some "exit status 1" }, w)
  | op, w => demoHost op w

/-- A volume store that loses a volume once it has been inspected, as when the volume is
removed from outside between two calls: a successful `docker volume inspect` takes the
volume off the list; everything else is as on the demonstration host. -/
def vanishingHost : Op → DemoWorld → Reply × DemoWorld
  | .run ["docker", "volume", "inspect", v], w =>
    if w.volumes.any (fun p => p.1 == v) then
      ({}, { w with volumes := w.volumes.filter (fun p => p.1 != v) })
    else ({ err := some "exit status 1" }, w)
  | op, w => demoHost op w

/-! ## Regular expression matching is sound and complete -/

namespace Regex

theorem nullable_iff (r : Regex) : r.nullable = true ↔ Lang r [] := by
  induction r with
  | nothing => simp [nullable]; intro h; cases h
  | eps => simp [nullable]; exact Lang.eps
  | cls p => simp [nullable]; intro h; cases h
  | alt a b iha ihb =>
    simp only [nullable, Bool.or_eq_true, iha, ihb]
    constructor
    · rintro (h | h)
      · exact Lang.altL _ _ _ h
      · exact Lang.altR _ _ _ h
    · intro h
      cases h with
      | altL _ _ _ h => exact Or.inl h
      | altR _ _ _ h => exact Or.inr h
  | seq a b iha ihb =>
    simp only [nullable, Bool.and_eq_true, iha, ihb]
    constructor
    · rintro ⟨h1, h2⟩
      exact Lang.seq a b [] [] h1 h2
    · intro h
      generalize hs : ([] : List Char) = u at h
      cases h with
      | seq _ _ s t h1 h2 =>
        have hst := List.append_eq_nil.mp hs.symm
        obtain ⟨rfl, rfl⟩ := hst
        exact ⟨h1, h2⟩
  | star a _ => simp [nullable]; exact Lang.starNil a

theorem lang_seq_cons {a b : Regex} {c : Char} {u : List Char} (h : Lang (seq a b) (c :: u)) :
    (∃ s t, u = s ++ t ∧ Lang a (c :: s) ∧ Lang b t) ∨ (Lang a [] ∧ Lang b (c :: u)) := by
  generalize hw : c :: u = w at h
  cases h with
  | seq _ _ s t h1 h2 =>
    cases s with
    | nil =>
      simp only [List.nil_append] at hw
      subst hw
      exact Or.inr ⟨h1, h2⟩
    | cons x s =>
      simp only [List.cons_append, List.cons.injEq] at hw
      obtain ⟨rfl, rfl⟩ := hw
      exact Or.inl ⟨s, t, rfl, h1, h2⟩

theorem lang_star_cons {a : Regex} {c : Char} {u : List Char} (h : Lang (star a) (c :: u)) :
    ∃ s t, u = s ++ t ∧ Lang a (c :: s) ∧ Lang (star a) t := by
  generalize hw : c :: u = w at h
  cases h with
  | starNil => cases hw
  | starCons _ x s t h1 h2 =>
    simp only [List.cons_append, List.cons.injEq] at hw
    obtain ⟨rfl, rfl⟩ := hw
    exact ⟨s, t, rfl, h1, h2⟩

theorem deriv_iff (r : Regex) (c : Char) : ∀ s, Lang (r.deriv c) s ↔ Lang r (c :: s) := by
  induction r with
  | nothing => intro s; simp only [deriv]; constructor <;> intro h <;> cases h
  | eps => intro s; simp only [deriv]; constructor <;> intro h <;> cases h
  | cls p =>
    intro s
    simp only [deriv]
    constructor
    · intro h
      by_cases hp : p c = true
      · rw [if_pos hp] at h
        cases h
        exact Lang.cls p c hp
      · rw [if_neg hp] at h
        cases h
    · intro h
      cases h with
      | cls _ _ hp =>
        rw [if_pos hp]
        exact Lang.eps
  | alt a b iha ihb =>
    intro s
    simp only [deriv]
    constructor
    · intro h
      cases h with
      | altL _ _ _ h => exact Lang.altL _ _ _ ((iha s).mp h)
      | altR _ _ _ h => exact Lang.altR _ _ _ ((ihb s).mp h)
    · intro h
      cases h with
      | altL _ _ _ h => exact Lang.altL _ _ _ ((iha s).mpr h)
      | altR _ _ _ h => exact Lang.altR _ _ _ ((ihb s).mpr h)
  | seq a b iha ihb =>
    intro s
    simp only [deriv]
    by_cases hn : a.nullable = true
    · rw [if_pos hn]
      constructor
      · intro h
        cases h with
        | altL _ _ _ h =>
          cases h with
          | seq _ _ u t h1 h2 =>
            exact Lang.seq a b (c :: u) t ((iha u).mp h1) h2
        | altR _ _ _ h =>
          exact Lang.seq a b [] (c :: s) ((nullable_iff a).mp hn) ((ihb s).mp h)
      · intro h
        rcases lang_seq_cons h with ⟨u, t, rfl, h1, h2⟩ | ⟨_, h2⟩
        · exact Lang.altL _ _ _ (Lang.seq _ _ u t ((iha u).mpr h1) h2)
        · exact Lang.altR _ _ _ ((ihb s).mpr h2)
    · rw [if_neg hn]
      constructor
      · intro h
        cases h with
        | seq _ _ u t h1 h2 =>
          exact Lang.seq a b (c :: u) t ((iha u).mp h1) h2
      · intro h
        rcases lang_seq_cons h with ⟨u, t, rfl, h1, h2⟩ | ⟨h1, _⟩
        · exact Lang.seq _ _ u t ((iha u).mpr h1) h2
        · exact absurd ((nullable_iff a).mpr h1) hn
  | star a iha =>
    intro s
    simp only [deriv]
    constructor
    · intro h
      cases h with
      | seq _ _ u t h1 h2 =>
        exact Lang.starCons a c u t ((iha u).mp h1) h2
    · intro h
      obtain ⟨u, t, rfl, h1, h2⟩ := lang_star_cons h
      exact Lang.seq _ _ u t ((iha u).mpr h1) h2

theorem fullMatch_iff (r : Regex) (s : List Char) : r.fullMatch s = true ↔ Lang r s := by
  induction s generalizing r with
  | nil => simpa [fullMatch] using nullable_iff r
  | cons c cs ih =>
    simp only [fullMatch]
    rw [ih (r.deriv c), deriv_iff]

theorem lang_star_cls (p : Char → Bool) (s : List Char) :
    Lang (star (cls p)) s ↔ ∀ c ∈ s, p c = true := by
  induction s with
  | nil => simp; exact Lang.starNil _
  | cons c cs ih =>
    constructor
    · intro h
      obtain ⟨u, t, hu, h1, h2⟩ := lang_star_cons h
      generalize hw : c :: u = w at h1
      cases h1 with
      | cls _ x hp =>
        simp only [List.cons.injEq] at hw
        obtain ⟨rfl, rfl⟩ := hw
        simp only [List.nil_append] at hu
        subst hu
        intro y hy
        rcases List.mem_cons.mp hy with rfl | hy
        · exact hp
        · exact (ih.mp h2) y hy
    · intro h
      have h1 : Lang (cls p) [c] := Lang.cls p c (h c (List.mem_cons_self _ _))
      have h2 : Lang (star (cls p)) cs := ih.mpr (fun y hy => h y (List.mem_cons_of_mem _ hy))
      exact Lang.starCons (cls p) c [] cs h1 h2

theorem fullMatch_cls_star (p q : Char → Bool) (s : List Char) :
    (seq (cls p) (star (cls q))).fullMatch s = true ↔
      ∃ c t, s = c :: t ∧ p c = true ∧ ∀ x ∈ t, q x = true := by
  rw [fullMatch_iff]
  constructor
  · intro h
    cases h with
    | seq _ _ u t h1 h2 =>
      cases h1 with
      | cls _ c hp => exact ⟨c, t, rfl, hp, (lang_star_cls q t).mp h2⟩
  · rintro ⟨c, t, rfl, hp, hq⟩
    exact Lang.seq _ _ [c] t (Lang.cls p c hp) ((lang_star_cls q t).mpr hq)

end Regex

/-! ## Volume names -/

theorem isAlnum_eq (c : Char) : isAlnum c = c.isAlphanum := by
  simp only [isAlnum, inRange, Char.isAlphanum, Char.isAlpha, Char.isUpper, Char.isLower,
    Char.isDigit, Char.toNat, UInt32.le_def, UInt32.toNat, ge_iff_le, BitVec.le_def]
  rw [Bool.eq_iff_iff]
  simp only [Bool.or_eq_true, Bool.and_eq_true, decide_eq_true_eq]
  have e1 : (UInt32.toBitVec 97).toNat = 97 := rfl
  have e2 : (UInt32.toBitVec 122).toNat = 122 := rfl
  have e3 : (UInt32.toBitVec 65).toNat = 65 := rfl
  have e4 : (UInt32.toBitVec 90).toNat = 90 := rfl
  have e5 : (UInt32.toBitVec 48).toNat = 48 := rfl
  have e6 : (UInt32.toBitVec 57).toNat = 57 := rfl
  have f1 : ('a' : Char).val.toBitVec.toNat = 97 := rfl
  have f2 : ('z' : Char).val.toBitVec.toNat = 122 := rfl
  have f3 : ('A' : Char).val.toBitVec.toNat = 65 := rfl
  have f4 : ('Z' : Char).val.toBitVec.toNat = 90 := rfl
  have f5 : ('0' : Char).val.toBitVec.toNat = 48 := rfl
  have f6 : ('9' : Char).val.toBitVec.toNat = 57 := rfl
  simp only [e1, e2, e3, e4, e5, e6, f1, f2, f3, f4, f5, f6]
  tauto

theorem isNameChar_iff (c : Char) :
    isNameChar c = true ↔ (c.isAlphanum = true ∨ c = '_' ∨ c = '.' ∨ c = '-') := by
  simp only [isNameChar, Bool.or_eq_true, beq_iff_eq, isAlnum_eq]
  tauto

theorem validateVolumeName_none_iff (v : String) :
    docker.ValidateVolumeName v = none ↔
      ∃ c t, v.data = c :: t ∧ isAlnum c = true ∧ ∀ x ∈ t, isNameChar x = true := by
  unfold docker.ValidateVolumeName docker.MatchString docker.volumeNamePattern
  by_cases hv : v = ""
  · subst hv
    simp
  · rw [if_neg hv]
    rw [← Regex.fullMatch_cls_star]
    cases h : (Regex.seq (Regex.cls isAlnum) (Regex.star (Regex.cls isNameChar))).fullMatch v.data
      <;> simp

theorem validateVolumeName_rejects_of_mem (v : String) (c : Char) (hc : c ∈ v.data)
    (hbad : isNameChar c = false) : docker.ValidateVolumeName v ≠ none := by
  intro h
  obtain ⟨x, t, hv, hx, ht⟩ := (validateVolumeName_none_iff v).mp h
  rw [hv] at hc
  rcases List.mem_cons.mp hc with rfl | hc
  · have : isNameChar c = true := by simp [isNameChar, hx]
    simp [this] at hbad
  · simp [ht c hc] at hbad

/-- C5: `ValidateVolumeName v` returns nil exactly when `v` is non-empty, starts with an ASCII
letter or digit and continues with ASCII letters, digits, `_`, `.` or `-` only; so the empty
string, every string with a `/`, a backslash, white space or a shell metacharacter in it, and
every string starting with `-` or `.` is rejected. -/
theorem C5_ValidateVolumeName_accepts_iff :
    (∀ v : String, docker.ValidateVolumeName v = none ↔
        ∃ c t, v.data = c :: t ∧ c.isAlphanum = true ∧
          ∀ x ∈ t, (x.isAlphanum = true ∨ x = '_' ∨ x = '.' ∨ x = '-')) ∧
    docker.ValidateVolumeName "" ≠ none ∧
    (∀ (v : String) (c : Char), c ∈ v.data →
        (c = '/' ∨ c = '\\' ∨ c.isWhitespace = true ∨
          c ∈ ['$', '|', ';', '&', '<', '>', '(', ')', '*', '?', '!', '#', '~', '"', '=',
            '%', '[', ']', '^', ':', ',', '+', '@', Char.ofNat 39, Char.ofNat 96,
            Char.ofNat 123, Char.ofNat 125]) →
        docker.ValidateVolumeName v ≠ none) ∧
    (∀ (v : String) (t : List Char), (v.data = '-' :: t ∨ v.data = '.' :: t) →
        docker.ValidateVolumeName v ≠ none) := by
  refine ⟨?_, ?_, ?_, ?_⟩
  · intro v
    rw [validateVolumeName_none_iff]
    simp only [isNameChar_iff, isAlnum_eq]
  · decide
  · intro v c hc hbad
    apply validateVolumeName_rejects_of_mem v c hc
    rcases hbad with rfl | rfl | hw | hm
    · decide
    · decide
    · simp only [Char.isWhitespace, Bool.or_eq_true, decide_eq_true_eq] at hw
      rcases hw with ((rfl | rfl) | rfl) | rfl <;> decide
    · simp only [List.mem_cons, List.mem_singleton, List.not_mem_nil, or_false] at hm
      rcases hm with rfl | rfl | rfl | rfl | rfl | rfl | rfl | rfl | rfl | rfl | rfl | rfl |
        rfl | rfl | rfl | rfl | rfl | rfl | rfl | rfl | rfl | rfl | rfl | rfl | rfl | rfl | rfl
        <;> decide
  · intro v t hv h
    obtain ⟨x, u, hxu, hx, _⟩ := (validateVolumeName_none_iff v).mp h
    rcases hv with hv | hv
    · rw [hv] at hxu
      simp only [List.cons.injEq] at hxu
      obtain ⟨rfl, _⟩ := hxu
      revert hx
      decide
    · rw [hv] at hxu
      simp only [List.cons.injEq] at hxu
      obtain ⟨rfl, _⟩ := hxu
      revert hx
      decide

/-! ## Remote paths -/

theorem isPrefixOf_single (c x : Char) (xs : List Char) :
    List.isPrefixOf [c] (x :: xs) = (c == x) := by
  simp [List.isPrefixOf]

theorem cutList_single_of_not_mem (c : Char) (b k : List Char) (hb : c ∉ b) :
    strings.cutList [c] (b ++ c :: k) = some (b, k) := by
  induction b with
  | nil => simp [strings.cutList, isPrefixOf_single]
  | cons y ys ih =>
    have hy : (c == y) = false := by
      rw [beq_eq_false_iff_ne]
      exact fun h => hb (by simp [h])
    have hys : c ∉ ys := fun h => hb (List.mem_cons_of_mem _ h)
    have ih2 := ih hys
    show strings.cutList [c] (y :: (ys ++ c :: k)) = some (y :: ys, k)
    simp only [strings.cutList, isPrefixOf_single, hy, Bool.false_eq_true, if_false, ih2]

theorem cutList_single_some (c : Char) (s b k : List Char)
    (h : strings.cutList [c] s = some (b, k)) : s = b ++ c :: k ∧ c ∉ b := by
  induction s generalizing b with
  | nil => simp [strings.cutList] at h
  | cons x xs ih =>
    simp only [strings.cutList, isPrefixOf_single] at h
    by_cases hx : c = x
    · subst hx
      simp only [beq_self_eq_true, if_true, List.length_singleton, List.drop_succ_cons,
        List.drop_zero, Option.some.injEq, Prod.mk.injEq] at h
      obtain ⟨rfl, rfl⟩ := h
      simp
    · have hx2 : (c == x) = false := by rw [beq_eq_false_iff_ne]; exact hx
      simp only [hx2, Bool.false_eq_true, if_false] at h
      cases hcut : strings.cutList [c] xs with
      | none => simp [hcut] at h
      | some pr =>
        obtain ⟨b1, k1⟩ := pr
        simp only [hcut, Option.some.injEq, Prod.mk.injEq] at h
        obtain ⟨rfl, rfl⟩ := h
        obtain ⟨h1, h2⟩ := ih b1 hcut
        refine ⟨by rw [h1]; simp, ?_⟩
        intro hm
        rcases List.mem_cons.mp hm with h | h
        · exact hx h
        · exact h2 h

theorem cutList_single_none (c : Char) (s : List Char)
    (h : strings.cutList [c] s = none) : c ∉ s := by
  induction s with
  | nil => simp
  | cons x xs ih =>
    simp only [strings.cutList, isPrefixOf_single] at h
    by_cases hx : c = x
    · subst hx
      simp at h
    · have hx2 : (c == x) = false := by rw [beq_eq_false_iff_ne]; exact hx
      simp only [hx2, Bool.false_eq_true, if_false] at h
      cases hcut : strings.cutList [c] xs with
      | none =>
        intro hm
        rcases List.mem_cons.mp hm with h1 | h1
        · exact hx h1
        · exact ih hcut h1
      | some pr => simp [hcut] at h

theorem splitN_slash_two (s : String) :
    strings.SplitN s "/" 2 =
      match strings.cutList ['/'] s.data with
      | none => [s]
      | some (b, k) => [String.mk b, String.mk k] := by
  simp only [strings.SplitN, strings.splitLoop]
  cases strings.cutList "/".data s.data with
  | none => rfl
  | some pr => rfl

theorem hasPrefix_iff (s pre : String) :
    strings.HasPrefix s pre = true ↔ ∃ rest, s.data = pre.data ++ rest := by
  simp only [strings.HasPrefix, List.isPrefixOf_iff_prefix]
  constructor
  · rintro ⟨t, ht⟩
    exact ⟨t, ht.symm⟩
  · rintro ⟨t, ht⟩
    exact ⟨t, ht.symm⟩

theorem trimPrefix_append (s pre : String) (rest : List Char) (h : s.data = pre.data ++ rest) :
    strings.TrimPrefix s pre = String.mk rest := by
  have hp : strings.HasPrefix s pre = true := (hasPrefix_iff s pre).mpr ⟨rest, h⟩
  simp [strings.TrimPrefix, hp, h]

theorem string_mk_eq_empty (l : List Char) : String.mk l = "" ↔ l = [] := by
  constructor
  · intro h
    have := congrArg String.data h
    simpa using this
  · rintro rfl
    rfl

theorem validatePath_none_iff (p : String) :
    s3.ValidatePath p = none ↔
      ∃ b k : List Char, p.data = "s3://".data ++ b ++ '/' :: k ∧ b ≠ [] ∧ '/' ∉ b ∧ k ≠ [] := by
  unfold s3.ValidatePath
  by_cases hp : strings.HasPrefix p "s3://" = true
  · obtain ⟨rest, hrest⟩ := (hasPrefix_iff p "s3://").mp hp
    simp only [hp, Bool.not_true, Bool.false_eq_true, if_false]
    rw [trimPrefix_append p "s3://" rest hrest, splitN_slash_two]
    cases hcut : strings.cutList ['/'] rest with
    | none =>
      simp only [List.length_singleton, Nat.one_lt_ofNat, true_or, if_true]
      constructor
      · intro h
        cases h
      · rintro ⟨b, k, hbk, _, _, _⟩
        exfalso
        have hnm := cutList_single_none '/' rest hcut
        rw [hrest, List.append_assoc] at hbk
        have := List.append_cancel_left hbk
        rw [this] at hnm
        simp at hnm
    | some pr =>
      obtain ⟨b, k⟩ := pr
      obtain ⟨h1, h2⟩ := cutList_single_some '/' rest b k hcut
      simp only [List.length_cons, List.length_singleton, List.length_nil, Nat.lt_irrefl,
        false_or, List.getD_cons_zero, List.getD_cons_succ, string_mk_eq_empty]
      constructor
      · intro h
        by_cases hb : b = []
        · simp [hb] at h
        · by_cases hk : k = []
          · simp [hk] at h
          · exact ⟨b, k, by rw [hrest, h1, List.append_assoc], hb, h2, hk⟩
      · rintro ⟨b2, k2, hbk, hb2, hnm2, hk2⟩
        rw [hrest, List.append_assoc] at hbk
        have hr := List.append_cancel_left hbk
        have hc2 := cutList_single_of_not_mem '/' b2 k2 hnm2
        rw [← hr, hcut] at hc2
        simp only [Option.some.injEq, Prod.mk.injEq] at hc2
        obtain ⟨rfl, rfl⟩ := hc2
        simp [hb2, hk2]
  · simp only [hp, Bool.not_false, if_true]
    constructor
    · intro h
      cases h
    · rintro ⟨b, k, hbk, _, _, _⟩
      exfalso
      apply hp
      rw [hasPrefix_iff]
      exact ⟨b ++ '/' :: k, by rw [hbk, List.append_assoc]⟩

/-- C6: `s3.ValidatePath p` returns nil exactly when `p` is `s3://` followed by a non-empty
bucket without `/`, a `/`, and a non-empty key; the listed malformed paths are rejected and
the two well-formed ones accepted. -/
theorem C6_ValidatePath_accepts_iff :
    (∀ p : String, s3.ValidatePath p = none ↔
        ∃ bucket key : String, p = "s3://" ++ bucket ++ "/" ++ key ∧
          bucket ≠ "" ∧ '/' ∉ bucket.data ∧ key ≠ "") ∧
    s3.ValidatePath "s3://" ≠ none ∧
    s3.ValidatePath "s3://bucket-only" ≠ none ∧
    s3.ValidatePath "s3:///key" ≠ none ∧
    s3.ValidatePath "not-s3://bucket/key" ≠ none ∧
    s3.ValidatePath "http://bucket/key" ≠ none ∧
    s3.ValidatePath "" ≠ none ∧
    s3.ValidatePath "s3://bucket/key" = none ∧
    s3.ValidatePath "s3://bucket/nested/key" = none := by
  refine ⟨?_, by decide, by decide, by decide, by decide, by decide, by decide, by decide,
    by decide⟩
  intro p
  rw [validatePath_none_iff]
  constructor
  · rintro ⟨b, k, hp, hb, hnm, hk⟩
    refine ⟨String.mk b, String.mk k, ?_, ?_, hnm, ?_⟩
    · apply String.ext
      simp [hp]
    · simpa [string_mk_eq_empty] using hb
    · simpa [string_mk_eq_empty] using hk
  · rintro ⟨bucket, key, hp, hb, hnm, hk⟩
    refine ⟨bucket.data, key.data, ?_, ?_, hnm, ?_⟩
    · rw [hp]
      simp
    · intro h
      exact hb (String.ext h)
    · intro h
      exact hk (String.ext h)

/-! ## Codec layer -/

theorem hasSuffix_iff (s suf : String) :
    strings.HasSuffix s suf = true ↔ ∃ front, s.data = front ++ suf.data := by
  simp only [strings.HasSuffix, List.isSuffixOf_iff_suffix]
  constructor
  · rintro ⟨t, ht⟩
    exact ⟨t, ht.symm⟩
  · rintro ⟨t, ht⟩
    exact ⟨t, ht.symm⟩

theorem hasSuffix_trans (s mid suf : String) (h1 : strings.HasSuffix s mid = true)
    (h2 : strings.HasSuffix mid suf = true) : strings.HasSuffix s suf = true := by
  rw [hasSuffix_iff] at h1 h2 ⊢
  obtain ⟨a, ha⟩ := h1
  obtain ⟨b, hb⟩ := h2
  exact ⟨a ++ b, by rw [ha, hb, List.append_assoc]⟩

theorem hasSuffix_getLast (s suf : String) (c : Char) (h : strings.HasSuffix s suf = true)
    (hc : suf.data.getLast? = some c) : s.data.getLast? = some c := by
  obtain ⟨front, hf⟩ := (hasSuffix_iff s suf).mp h
  rw [hf]
  cases hs : suf.data with
  | nil => simp [hs] at hc
  | cons x xs =>
    rw [hs] at hc
    rw [List.getLast?_append_cons, hc]

theorem not_gz_and_zst (s : String) (h1 : strings.HasSuffix s ".gz" = true)
    (h2 : strings.HasSuffix s ".zst" = true) : False := by
  have e1 := hasSuffix_getLast s ".gz" 'z' h1 (by decide)
  have e2 := hasSuffix_getLast s ".zst" 't' h2 (by decide)
  rw [e1] at e2
  exact absurd e2 (by decide)

theorem gz_of_tar_gz (s : String) (h : strings.HasSuffix s ".tar.gz" = true) :
    strings.HasSuffix s ".gz" = true :=
  hasSuffix_trans s ".tar.gz" ".gz" h (by decide)

theorem zst_of_tar_zst (s : String) (h : strings.HasSuffix s ".tar.zst" = true) :
    strings.HasSuffix s ".zst" = true :=
  hasSuffix_trans s ".tar.zst" ".zst" h (by decide)

theorem not_gz_of_tar (s : String) (h : strings.HasSuffix s ".tar" = true) :
    strings.HasSuffix s ".gz" = false := by
  cases hg : strings.HasSuffix s ".gz" with
  | false => rfl
  | true =>
    have e1 := hasSuffix_getLast s ".gz" 'z' hg (by decide)
    have e2 := hasSuffix_getLast s ".tar" 'r' h (by decide)
    rw [e1] at e2
    exact absurd e2 (by decide)

theorem not_zst_of_tar (s : String) (h : strings.HasSuffix s ".tar" = true) :
    strings.HasSuffix s ".zst" = false := by
  cases hg : strings.HasSuffix s ".zst" with
  | false => rfl
  | true =>
    have e1 := hasSuffix_getLast s ".zst" 't' hg (by decide)
    have e2 := hasSuffix_getLast s ".tar" 'r' h (by decide)
    rw [e1] at e2
    exact absurd e2 (by decide)

theorem createReader_gz (lib : CodecLib) (r : ByteStream) (name : String)
    (h : strings.HasSuffix name ".gz" = true) :
    rw.CreateReader lib r name =
      (lib.gzipNewReader r).mapError (fun err => "failed to create gzip reader: " ++ err) := by
  unfold rw.CreateReader
  simp only [h, Bool.true_or, if_true]
  cases lib.gzipNewReader r <;> rfl

theorem createReader_zst (lib : CodecLib) (r : ByteStream) (name : String)
    (h : strings.HasSuffix name ".zst" = true) :
    rw.CreateReader lib r name =
      (lib.zstdNewReader r).mapError (fun err => "failed to create zstd reader: " ++ err) := by
  have h1 : strings.HasSuffix name ".gz" = false := by
    cases hg : strings.HasSuffix name ".gz" with
    | false => rfl
    | true => exact (not_gz_and_zst name hg h).elim
  have h2 : strings.HasSuffix name ".tar.gz" = false := by
    cases hg : strings.HasSuffix name ".tar.gz" with
    | false => rfl
    | true => exact (not_gz_and_zst name (gz_of_tar_gz name hg) h).elim
  unfold rw.CreateReader
  simp only [h, h1, h2, Bool.or_self, Bool.false_eq_true, if_false, Bool.true_or, if_true]
  cases lib.zstdNewReader r <;> rfl

theorem createReader_other (lib : CodecLib) (r : ByteStream) (name : String)
    (h1 : strings.HasSuffix name ".gz" = false) (h2 : strings.HasSuffix name ".zst" = false) :
    rw.CreateReader lib r name = .ok r := by
  have h3 : strings.HasSuffix name ".tar.gz" = false := by
    cases hg : strings.HasSuffix name ".tar.gz" with
    | false => rfl
    | true => rw [gz_of_tar_gz name hg] at h1; cases h1
  have h4 : strings.HasSuffix name ".tar.zst" = false := by
    cases hg : strings.HasSuffix name ".tar.zst" with
    | false => rfl
    | true => rw [zst_of_tar_zst name hg] at h2; cases h2
  unfold rw.CreateReader
  simp only [h1, h2, h3, h4, Bool.or_self, Bool.false_eq_true, if_false]

/-- C7: `CreateReader` picks the codec from the suffix of the name alone: `.zst` / `.tar.zst`
is read through `zstd.NewReader`, `.gz` / `.tar.gz` through `gzip.NewReader`, and every other
name (`.tar`, a name without a dot) gives back the underlying reader, byte for byte. -/
theorem C7_CreateReader_codec_by_suffix (lib : CodecLib) (r : ByteStream) (name : String) :
    ((strings.HasSuffix name ".zst" = true ∨ strings.HasSuffix name ".tar.zst" = true) →
      rw.CreateReader lib r name =
        (lib.zstdNewReader r).mapError (fun err => "failed to create zstd reader: " ++ err)) ∧
    ((strings.HasSuffix name ".gz" = true ∨ strings.HasSuffix name ".tar.gz" = true) →
      rw.CreateReader lib r name =
        (lib.gzipNewReader r).mapError (fun err => "failed to create gzip reader: " ++ err)) ∧
    ((strings.HasSuffix name ".zst" = false ∧ strings.HasSuffix name ".tar.zst" = false ∧
        strings.HasSuffix name ".gz" = false ∧ strings.HasSuffix name ".tar.gz" = false) →
      rw.CreateReader lib r name = .ok r) ∧
    (strings.HasSuffix name ".tar" = true → rw.CreateReader lib r name = .ok r) ∧
    ('.' ∉ name.data → rw.CreateReader lib r name = .ok r) := by
  refine ⟨?_, ?_, ?_, ?_, ?_⟩
  · rintro (h | h)
    · exact createReader_zst lib r name h
    · exact createReader_zst lib r name (zst_of_tar_zst name h)
  · rintro (h | h)
    · exact createReader_gz lib r name h
    · exact createReader_gz lib r name (gz_of_tar_gz name h)
  · rintro ⟨h1, _, h3, _⟩
    exact createReader_other lib r name h3 h1
  · intro h
    exact createReader_other lib r name (not_gz_of_tar name h) (not_zst_of_tar name h)
  · intro h
    have hno : ∀ suf : String, '.' ∈ suf.data → strings.HasSuffix name suf = false := by
      intro suf hs
      cases hg : strings.HasSuffix name suf with
      | false => rfl
      | true =>
        obtain ⟨front, hf⟩ := (hasSuffix_iff name suf).mp hg
        exact absurd (by rw [hf]; exact List.mem_append_right _ hs) h
    exact createReader_other lib r name (hno ".gz" (by decide)) (hno ".zst" (by decide))

/-- C8: `CreateWriter w s` returns a stream and a nil error for the selectors `none`, `gz` and
`zstd`; for every other selector (such as the empty one, `gzip` or `GZ`) it returns no stream
and the error `unsupported compression type: s`; in either case nothing has been written
to `w`. -/
theorem C8_CreateWriter_selector (w : Bytes) (s : String) :
    ((s = "none" ∨ s = "gz" ∨ s = "zstd") →
      ∃ wc, rw.CreateWriter w s = (some wc, none, w) ∧ wc.sink = w) ∧
    (¬ (s = "none" ∨ s = "gz" ∨ s = "zstd") →
      rw.CreateWriter w s = (none, some ("unsupported compression type: " ++ s), w)) ∧
    rw.CreateWriter w "" = (none, some "unsupported compression type: ", w) ∧
    rw.CreateWriter w "gzip" = (none, some "unsupported compression type: gzip", w) ∧
    rw.CreateWriter w "GZ" = (none, some "unsupported compression type: GZ", w) := by
  refine ⟨?_, ?_, ?_, ?_, ?_⟩
  · rintro (rfl | rfl | rfl)
    · exact ⟨_, rfl, rfl⟩
    · exact ⟨_, rfl, rfl⟩
    · exact ⟨_, rfl, rfl⟩
  · intro h
    simp only [not_or] at h
    obtain ⟨h1, h2, h3⟩ := h
    simp only [rw.CreateWriter, h1, h2, h3, if_false]
  · rfl
  · rfl
  · rfl

theorem writeAll_nop (sink : Bytes) (chunks : List Bytes) :
    rw.WriteCloser.WriteAll ⟨.nopWriteCloser, sink, []⟩ chunks =
      ⟨.nopWriteCloser, sink ++ chunks.flatten, []⟩ := by
  induction chunks generalizing sink with
  | nil => simp [rw.WriteCloser.WriteAll]
  | cons c cs ih =>
    have := ih (sink ++ c)
    simp only [rw.WriteCloser.WriteAll, List.foldl_cons, rw.WriteCloser.Write] at this ⊢
    rw [this]
    simp

theorem writeAll_gzip (sink : Bytes) (pending chunks : List Bytes) :
    rw.WriteCloser.WriteAll ⟨.gzipWriter, sink, pending⟩ chunks =
      ⟨.gzipWriter, sink, pending ++ chunks⟩ := by
  induction chunks generalizing pending with
  | nil => simp [rw.WriteCloser.WriteAll]
  | cons c cs ih =>
    have := ih (pending ++ [c])
    simp only [rw.WriteCloser.WriteAll, List.foldl_cons, rw.WriteCloser.Write] at this ⊢
    rw [this]
    simp

theorem writeAll_zstd (sink : Bytes) (pending chunks : List Bytes) :
    rw.WriteCloser.WriteAll ⟨.zstdEncoder, sink, pending⟩ chunks =
      ⟨.zstdEncoder, sink, pending ++ chunks⟩ := by
  induction chunks generalizing pending with
  | nil => simp [rw.WriteCloser.WriteAll]
  | cons c cs ih =>
    have := ih (pending ++ [c])
    simp only [rw.WriteCloser.WriteAll, List.foldl_cons, rw.WriteCloser.Write] at this ⊢
    rw [this]
    simp

/-- C9: for each selector, what was written in any chunks through `CreateWriter` into an empty
sink and closed is read back, byte for byte, by `CreateReader` under a name with the matching
extension, given that the gzip and zstd libraries themselves decode what they encoded. -/
theorem C9_codec_round_trip (lib : CodecLib) (s name : String) (chunks : List Bytes)
    (hgz : ∀ cs, lib.gzipNewReader ⟨lib.gzipEncode cs, none⟩ = .ok ⟨cs.flatten, none⟩)
    (hzst : ∀ cs, lib.zstdNewReader ⟨lib.zstdEncode cs, none⟩ = .ok ⟨cs.flatten, none⟩)
    (hname : (s = "none" ∧ strings.HasSuffix name ".tar" = true) ∨
      (s = "gz" ∧ (strings.HasSuffix name ".tar.gz" = true ∨
        strings.HasSuffix name ".gz" = true)) ∨
      (s = "zstd" ∧ (strings.HasSuffix name ".tar.zst" = true ∨
        strings.HasSuffix name ".zst" = true))) :
    ∃ wc, rw.CreateWriter [] s = (some wc, none, []) ∧
      rw.CreateReader lib ⟨((wc.WriteAll chunks).Close lib).sink, none⟩ name =
        .ok ⟨chunks.flatten, none⟩ := by
  rcases hname with ⟨rfl, hn⟩ | ⟨rfl, hn⟩ | ⟨rfl, hn⟩
  · refine ⟨_, rfl, ?_⟩
    rw [writeAll_nop]
    simp only [rw.WriteCloser.Close, List.nil_append]
    exact createReader_other lib _ name (not_gz_of_tar name hn) (not_zst_of_tar name hn)
  · refine ⟨_, rfl, ?_⟩
    have hg : strings.HasSuffix name ".gz" = true := by
      rcases hn with h | h
      · exact gz_of_tar_gz name h
      · exact h
    rw [writeAll_gzip, createReader_gz lib _ name hg]
    simp only [rw.WriteCloser.Close, List.nil_append, hgz]
    rfl
  · refine ⟨_, rfl, ?_⟩
    have hz : strings.HasSuffix name ".zst" = true := by
      rcases hn with h | h
      · exact zst_of_tar_zst name h
      · exact h
    rw [writeAll_zstd, createReader_zst lib _ name hz]
    simp only [rw.WriteCloser.Close, List.nil_append, hzst]
    rfl

theorem C9_codec_round_trip_witness :
    ∃ wc, rw.CreateWriter [] "gz" = (some wc, none, []) ∧
      rw.CreateReader demoLib
          ⟨((wc.WriteAll [[1, 2], [3]]).Close demoLib).sink, none⟩ "out.tar.gz" =
        .ok ⟨[[1, 2], [3]].flatten, none⟩ :=
  C9_codec_round_trip demoLib "gz" "out.tar.gz" [[1, 2], [3]]
    (fun _ => rfl) (fun _ => rfl) (Or.inr (Or.inl ⟨rfl, Or.inl (by decide)⟩))

/-! ## Restore admission -/

theorem volumeExists_eq {W : Type} (env : Env W) (volume : String) (s : St W) :
    docker.VolumeExists env volume s =
      (((perform env (.run ["docker", "volume", "inspect", volume]) s).1.err.isNone, none),
        (perform env (.run ["docker", "volume", "inspect", volume]) s).2) := by
  unfold docker.VolumeExists
  generalize perform env (.run ["docker", "volume", "inspect", volume]) s = res
  obtain ⟨rep, t⟩ := res
  cases h : rep.err <;> simp [h]

theorem restoreFromFile_table {W : Type} (env : Env W) (r : operation.Restore) (src : String)
    (overwrite : Bool) (s : St W) (hsrc : operation.ValidateFilePath src = none) :
    operation.RestoreFromFile env r src overwrite s =
      spec.admissionThen env r.volume
        (spec.admissionDecision (docker.VolumeExists env r.volume s).1.1 overwrite)
        (operation.runRestore env r src) (docker.VolumeExists env r.volume s).2 := by
  unfold operation.RestoreFromFile
  rw [hsrc, volumeExists_eq]
  cases (perform env (.run ["docker", "volume", "inspect", r.volume]) s).1.err.isNone <;>
    cases overwrite <;> rfl

theorem restoreFromS3_table {W : Type} (env : Env W) (r : operation.Restore) (path : String)
    (overwrite : Bool) (s : St W) (hpath : s3.ValidatePath path = none) :
    operation.RestoreFromS3 env r path overwrite s =
      spec.admissionThen env r.volume
        (spec.admissionDecision (docker.VolumeExists env r.volume s).1.1 overwrite)
        (operation.restoreDownloaded env r path) (docker.VolumeExists env r.volume s).2 := by
  unfold operation.RestoreFromS3
  rw [hpath, volumeExists_eq]
  cases (perform env (.run ["docker", "volume", "inspect", r.volume]) s).1.err.isNone <;>
    cases overwrite <;> rfl

/-! ## The calls a restore makes -/

theorem perform_log {W : Type} (env : Env W) (op : Op) (s : St W) :
    (perform env op s).2.log = s.log ++ [⟨op, (perform env op s).1⟩] := rfl

theorem extends_refl {W : Type} (P : Op → Prop) (s : St W) : Extends P s s :=
  ⟨[], by simp, by simp⟩

theorem extends_trans {W : Type} {P : Op → Prop} {s t u : St W} (h1 : Extends P s t)
    (h2 : Extends P t u) : Extends P s u := by
  obtain ⟨c1, e1, p1⟩ := h1
  obtain ⟨c2, e2, p2⟩ := h2
  refine ⟨c1 ++ c2, by rw [e2, e1, List.append_assoc], ?_⟩
  intro c hc
  rcases List.mem_append.mp hc with h | h
  · exact p1 c h
  · exact p2 c h

theorem extends_mono {W : Type} {P Q : Op → Prop} {s t : St W} (hPQ : ∀ op, P op → Q op)
    (h : Extends P s t) : Extends Q s t := by
  obtain ⟨c, e, p⟩ := h
  exact ⟨c, e, fun x hx => hPQ _ (p x hx)⟩

theorem extends_perform {W : Type} (env : Env W) (P : Op → Prop) (op : Op) (s : St W)
    (h : P op) : Extends P s (perform env op s).2 :=
  ⟨[⟨op, (perform env op s).1⟩], perform_log env op s, by simpa using h⟩

theorem extends_deferred {W : Type} {P : Op → Prop} {s : St W} (cleanup : St W → St W)
    (res : GoError × St W) (h1 : Extends P s res.2) (h2 : ∀ t, Extends P t (cleanup t)) :
    Extends P s (deferred cleanup res).2 :=
  extends_trans h1 (h2 res.2)

theorem callsSince_of_log {W : Type} (s t : St W) (calls : List Call)
    (h : t.log = s.log ++ calls) : callsSince s t = calls := by
  simp [callsSince, h]

theorem createVolume_eq {W : Type} (env : Env W) (volume : String) (s : St W) :
    docker.CreateVolume env volume s =
      ((perform env (.run ["docker", "volume", "create", volume]) s).1.err.map
          (fun err => "failed to create volume: " ++ err ++ ", output: " ++
            (perform env (.run ["docker", "volume", "create", volume]) s).1.output),
        (perform env (.run ["docker", "volume", "create", volume]) s).2) := by
  unfold docker.CreateVolume
  generalize perform env (.run ["docker", "volume", "create", volume]) s = res
  obtain ⟨rep, t⟩ := res
  cases h : rep.err <;> simp [h]

theorem clearVolume_eq {W : Type} (env : Env W) (volume : String) (s : St W) :
    docker.ClearVolume env volume s =
      ((perform env (.run (docker.clearVolumeArgs volume)) s).1.err.map
          (fun err => "failed to clear volume: " ++ err ++ ", output: " ++
            (perform env (.run (docker.clearVolumeArgs volume)) s).1.output),
        (perform env (.run (docker.clearVolumeArgs volume)) s).2) := by
  unfold docker.ClearVolume
  generalize perform env (.run (docker.clearVolumeArgs volume)) s = res
  obtain ⟨rep, t⟩ := res
  cases h : rep.err <;> simp [h]

theorem createContainer_snd {W : Type} (env : Env W) (volume : String) (s : St W) :
    (docker.CreateContainerWithVolume env volume s).2 =
      (perform env (.run ["docker", "create", "-v", volume ++ ":/data", "alpine", "true"]) s).2 := by
  unfold docker.CreateContainerWithVolume
  generalize perform env (.run ["docker", "create", "-v", volume ++ ":/data", "alpine", "true"]) s
    = res
  obtain ⟨rep, t⟩ := res
  cases h : rep.err <;> simp [h]

theorem getFileSize_snd {W : Type} (env : Env W) (path : String) (s : St W) :
    (operation.GetFileSize env path s).2 = (perform env (.stat path) s).2 := by
  unfold operation.GetFileSize
  generalize perform env (.stat path) s = res
  obtain ⟨rep, t⟩ := res
  cases h : rep.err <;> simp [h]

theorem copyEntry_snd {W : Type} (env : Env W) (body : ByteStream) (s : St W) :
    (operation.copyEntry env body s).2 = (perform env (.write body.data) s).2 := by
  unfold operation.copyEntry
  generalize perform env (.write body.data) s = res
  obtain ⟨rep, t⟩ := res
  cases h : rep.err <;> simp [h]

theorem restoreLoop_extends {W : Type} (env : Env W) (ending : GoError)
    (entries : List TarEntry) (s : St W) :
    Extends (fun op => op.ofRunRestore = true) s
      (operation.restoreLoop env ending entries s).2 := by
  induction entries generalizing s with
  | nil =>
    unfold operation.restoreLoop
    cases ending <;> exact extends_refl _ _
  | cons entry rest ih =>
    unfold operation.restoreLoop
    have h1 := extends_perform env (fun op => op.ofRunRestore = true)
      (.writeHeader entry.header) s rfl
    generalize perform env (.writeHeader entry.header) s = res at h1
    obtain ⟨rep, t⟩ := res
    cases hrep : rep.err with
    | some e => simpa [hrep] using h1
    | none =>
      simp only [hrep]
      by_cases hreg : entry.header.typeflag = tar.TypeReg
      · simp only [hreg, if_true]
        have h2 : Extends (fun op => op.ofRunRestore = true) t
            (operation.copyEntry env entry.body t).2 := by
          rw [copyEntry_snd]
          exact extends_perform env _ _ _ rfl
        generalize operation.copyEntry env entry.body t = res2 at h2
        obtain ⟨e2, t2⟩ := res2
        cases e2 with
        | some e => exact extends_trans h1 h2
        | none => exact extends_trans h1 (extends_trans h2 (ih t2))
      · simp only [hreg, if_false]
        exact extends_trans h1 (ih t)

theorem removeContainer_extends {W : Type} (env : Env W) (containerID : String) (t : St W) :
    Extends (fun op => op.ofRunRestore = true) t (docker.RemoveContainer env containerID t).2 :=
  extends_perform env _ (.run ["docker", "rm", containerID]) t rfl

theorem runRestoreInContainer_extends {W : Type} (env : Env W) (r : operation.Restore)
    (tarReader : TarSource) (s : St W) :
    Extends (fun op => op.ofRunRestore = true) s
      (operation.runRestoreInContainer env r tarReader s).2 := by
  unfold operation.runRestoreInContainer
  have h1 : Extends (fun op => op.ofRunRestore = true) s
      (docker.CreateContainerWithVolume env r.volume s).2 := by
    rw [createContainer_snd]
    exact extends_perform env _ _ _ rfl
  generalize docker.CreateContainerWithVolume env r.volume s = res1 at h1
  obtain ⟨⟨containerID, err1⟩, s1⟩ := res1
  cases err1 with
  | some e => exact h1
  | none =>
    refine extends_deferred _ _ ?_ (removeContainer_extends env containerID)
    refine extends_trans h1 ?_
    have h2 := extends_perform env (fun op => op.ofRunRestore = true)
      (.stdinPipe (operation.restoreCpArgs containerID)) s1 rfl
    generalize perform env (.stdinPipe (operation.restoreCpArgs containerID)) s1 = res2 at h2
    obtain ⟨rep2, s2⟩ := res2
    cases hrep2 : rep2.err with
    | some e => simpa [hrep2] using h2
    | none =>
      simp only [hrep2]
      refine extends_trans h2 ?_
      have h3 := extends_perform env (fun op => op.ofRunRestore = true)
        (.start (operation.restoreCpArgs containerID)) s2 rfl
      generalize perform env (.start (operation.restoreCpArgs containerID)) s2 = res3 at h3
      obtain ⟨rep3, s3⟩ := res3
      cases hrep3 : rep3.err with
      | some e => simpa [hrep3] using h3
      | none =>
        simp only [hrep3]
        refine extends_trans h3 ?_
        have h4 := restoreLoop_extends env tarReader.ending tarReader.entries s3
        generalize operation.restoreLoop env tarReader.ending tarReader.entries s3 = res4 at h4
        obtain ⟨err4, s4⟩ := res4
        cases err4 with
        | some e => exact h4
        | none =>
          simp only
          refine extends_trans h4 ?_
          have h5 := extends_perform env (fun op => op.ofRunRestore = true) .closeTar s4 rfl
          have h6 := extends_perform env (fun op => op.ofRunRestore = true) .closePipe
            (perform env .closeTar s4).2 rfl
          have h7 := extends_perform env (fun op => op.ofRunRestore = true)
            (.wait (operation.restoreCpArgs containerID))
            (perform env .closePipe (perform env .closeTar s4).2).2 rfl
          have h567 := extends_trans h5 (extends_trans h6 h7)
          generalize perform env (.wait (operation.restoreCpArgs containerID))
            (perform env .closePipe (perform env .closeTar s4).2).2 = res7 at h567
          obtain ⟨rep7, s7⟩ := res7
          cases hrep7 : rep7.err with
          | some e => simpa [hrep7] using h567
          | none => simpa [hrep7] using h567

theorem runRestoreFromFile_extends {W : Type} (env : Env W) (r : operation.Restore)
    (src : String) (s : St W) :
    Extends (fun op => op.ofRunRestore = true) s
      (operation.runRestoreFromFile env r src s).2 := by
  unfold operation.runRestoreFromFile
  have h1 := extends_perform env (fun op => op.ofRunRestore = true) (.openFile src) s rfl
  generalize perform env (.openFile src) s = res1 at h1
  obtain ⟨rep1, s1⟩ := res1
  cases hrep1 : rep1.err with
  | some e => simpa [hrep1] using h1
  | none =>
    simp only [hrep1]
    refine extends_deferred _ _ ?_ (fun t => extends_perform env _ (.close src) t rfl)
    refine extends_trans h1 ?_
    cases rw.CreateReader env.lib rep1.content src with
    | error e => exact extends_refl _ _
    | ok reader => exact runRestoreInContainer_extends env r _ s1

theorem runRestore_extends {W : Type} (env : Env W) (r : operation.Restore) (src : String)
    (s : St W) :
    Extends (fun op => op.ofRunRestore = true) s (operation.runRestore env r src s).2 := by
  unfold operation.runRestore
  by_cases hp : r.showProgress = true
  · simp only [hp, if_true]
    refine extends_deferred _ _ ?_ (fun t => extends_perform env _ .finishBar t rfl)
    have h1 : Extends (fun op => op.ofRunRestore = true) s
        (operation.GetFileSize env src s).2 := by
      rw [getFileSize_snd]
      exact extends_perform env _ _ _ rfl
    refine extends_trans h1 (extends_trans (extends_perform env _ (.newBar _) _ rfl)
      (runRestoreFromFile_extends env r src _))
  · simp only [hp, Bool.false_eq_true, if_false]
    exact runRestoreFromFile_extends env r src s

theorem downloadFile_extends {W : Type} (env : Env W) (s3Path localFile : String) (s : St W) :
    Extends (fun op => op.ofDownload = true) s (s3.DownloadFile env s3Path localFile s).2 := by
  unfold s3.DownloadFile
  generalize s3.parseS3Path s3Path = parsed
  obtain ⟨bucket, key, perr⟩ := parsed
  cases perr with
  | some e => exact extends_refl _ _
  | none =>
    simp only
    have h1 := extends_perform env (fun op => op.ofDownload = true) (.create localFile) s rfl
    generalize perform env (.create localFile) s = res1 at h1
    obtain ⟨rep1, s1⟩ := res1
    cases hrep1 : rep1.err with
    | some e => simpa [hrep1] using h1
    | none =>
      simp only [hrep1]
      refine extends_deferred _ _ ?_ (fun t => extends_perform env _ (.close localFile) t rfl)
      refine extends_trans h1 ?_
      have h2 := extends_perform env (fun op => op.ofDownload = true) .s3NewClient s1 rfl
      generalize perform env .s3NewClient s1 = res2 at h2
      obtain ⟨rep2, s2⟩ := res2
      cases hrep2 : rep2.err with
      | some e => simpa [hrep2] using h2
      | none =>
        simp only [hrep2]
        refine extends_trans h2 ?_
        have h3 := extends_perform env (fun op => op.ofDownload = true)
          (.s3Download bucket key localFile) s2 rfl
        generalize perform env (.s3Download bucket key localFile) s2 = res3 at h3
        obtain ⟨rep3, s3⟩ := res3
        cases hrep3 : rep3.err with
        | some e => simpa [hrep3] using h3
        | none => simpa [hrep3] using h3

theorem prefixAndSuffix_star (x ext : String) (he : '*' ∉ ext.data) :
    (os.prefixAndSuffix (x ++ "*" ++ ext)).2.2 ≠ none ∨
      os.prefixAndSuffix (x ++ "*" ++ ext) = (x, ext, none) := by
  unfold os.prefixAndSuffix
  cases hany : (x ++ "*" ++ ext).data.any (fun c => c == '/') with
  | true => left; simp
  | false =>
    right
    have hrev : (x ++ "*" ++ ext).data.reverse = ext.data.reverse ++ '*' :: x.data.reverse := by
      simp [String.data_append, List.reverse_append]
    rw [hrev, cutList_single_of_not_mem '*' _ _ (by simpa using he)]
    simp only [Bool.false_eq_true, if_false, List.reverse_reverse]

theorem restoreTempExt_cases (path : String) :
    operation.restoreTempExt path = ".tar.zst" ∨ operation.restoreTempExt path = ".tar" ∨
      operation.restoreTempExt path = ".tar.gz" := by
  unfold operation.restoreTempExt
  split
  · exact Or.inl rfl
  · split
    · exact Or.inr (Or.inl rfl)
    · exact Or.inr (Or.inr rfl)

theorem restoreTempExt_no_star (path : String) : '*' ∉ (operation.restoreTempExt path).data := by
  rcases restoreTempExt_cases path with h | h | h <;> rw [h] <;> decide

theorem restorePattern_eq (volume ext : String) :
    "docker-volume-restore-" ++ volume ++ "-*" ++ ext =
      ("docker-volume-restore-" ++ volume ++ "-") ++ "*" ++ ext := by
  apply String.ext
  simp [String.data_append]

theorem createTemp_extends {W : Type} (env : Env W) (volume ext : String) (s : St W)
    (he : '*' ∉ ext.data) :
    Extends (fun op => op.ofRestoreDownloaded ext = true) s
      (os.CreateTemp env "" ("docker-volume-restore-" ++ volume ++ "-*" ++ ext) s).2 := by
  unfold os.CreateTemp
  rw [restorePattern_eq]
  rcases prefixAndSuffix_star ("docker-volume-restore-" ++ volume ++ "-") ext he with h | h
  · generalize os.prefixAndSuffix ("docker-volume-restore-" ++ volume ++ "-" ++ "*" ++ ext)
      = res at h
    obtain ⟨pre, suf, err⟩ := res
    cases err with
    | none => exact absurd rfl h
    | some e => exact extends_refl _ _
  · rw [h]
    simp only
    have hop : ∀ pre : String, (Op.createTemp pre ext).ofRestoreDownloaded ext = true := by
      intro pre
      simp [Op.ofRestoreDownloaded]
    split
    · exact extends_perform env _ _ _ (hop _)
    · exact extends_perform env _ _ _ (hop _)

theorem ofRestoreDownloaded_of_download (ext : String) (op : Op) (h : op.ofDownload = true) :
    op.ofRestoreDownloaded ext = true := by
  cases op <;> simp_all [Op.ofRestoreDownloaded, Op.ofDownload]

theorem ofRestoreDownloaded_of_runRestore (ext : String) (op : Op)
    (h : op.ofRunRestore = true) : op.ofRestoreDownloaded ext = true := by
  cases op <;> simp_all [Op.ofRestoreDownloaded, Op.ofRunRestore]

theorem restoreDownloaded_extends {W : Type} (env : Env W) (r : operation.Restore)
    (path : String) (s : St W) :
    Extends (fun op => op.ofRestoreDownloaded (operation.restoreTempExt path) = true) s
      (operation.restoreDownloaded env r path s).2 := by
  unfold operation.restoreDownloaded
  simp only
  have h1 := createTemp_extends env r.volume (operation.restoreTempExt path) s
    (restoreTempExt_no_star path)
  generalize os.CreateTemp env ""
    ("docker-volume-restore-" ++ r.volume ++ "-*" ++ operation.restoreTempExt path) s = res1
    at h1
  obtain ⟨⟨tmp, err1⟩, s1⟩ := res1
  cases err1 with
  | some e => exact h1
  | none =>
    simp only
    refine extends_deferred _ _ ?_ (fun t => extends_perform env _ (.remove tmp) t rfl)
    refine extends_trans h1 (extends_trans (extends_perform env _ (.close tmp) s1 rfl) ?_)
    have h2 := extends_mono (ofRestoreDownloaded_of_download (operation.restoreTempExt path))
      (downloadFile_extends env path tmp (perform env (.close tmp) s1).2)
    generalize s3.DownloadFile env path tmp (perform env (.close tmp) s1).2 = res2 at h2
    obtain ⟨err2, s2⟩ := res2
    cases err2 with
    | some e => exact h2
    | none =>
      simp only
      refine extends_trans h2 ?_
      have h3 := extends_mono
        (ofRestoreDownloaded_of_runRestore (operation.restoreTempExt path))
        (runRestore_extends env r tmp s2)
      generalize operation.runRestore env r tmp s2 = res3 at h3
      obtain ⟨err3, s3⟩ := res3
      cases err3 <;> exact h3

theorem restoreDownloaded_reaches_transcode {W : Type} (env : Env W) (r : operation.Restore)
    (path tmp : String) (t t1 t2 : St W)
    (htmp : os.CreateTemp env ""
      ("docker-volume-restore-" ++ r.volume ++ "-*" ++ operation.restoreTempExt path) t =
        ((tmp, none), t1))
    (hdl : s3.DownloadFile env path tmp (perform env (.close tmp) t1).2 = (none, t2)) :
    operation.restoreDownloaded env r path t =
      deferred (fun u => (perform env (.remove tmp) u).2)
        (match operation.runRestore env r tmp t2 with
         | (some err, t3) => (some ("failed to restore from downloaded backup: " ++ err), t3)
         | (none, t3) => (none, t3)) := by
  unfold operation.restoreDownloaded
  simp only [htmp, hdl]

/-- C1: for a valid source, both `RestoreFromFile` and `RestoreFromS3` carry out the admission
table of (volume exists, overwrite): absent, create the volume and proceed; present without
overwrite, abort; present with overwrite, clear the volume and proceed. `RestoreFromFile`
proceeds to `runRestore`, `RestoreFromS3` to the download and, once that succeeded, to
`runRestore` on the downloaded file. -/
theorem C1_restore_admission_table {W : Type} (env : Env W) (r : operation.Restore)
    (src path : String) (overwrite : Bool) (s : St W)
    (hsrc : operation.ValidateFilePath src = none) (hpath : s3.ValidatePath path = none) :
    operation.RestoreFromFile env r src overwrite s =
      spec.admissionThen env r.volume
        (spec.admissionDecision (docker.VolumeExists env r.volume s).1.1 overwrite)
        (operation.runRestore env r src) (docker.VolumeExists env r.volume s).2 ∧
    operation.RestoreFromS3 env r path overwrite s =
      spec.admissionThen env r.volume
        (spec.admissionDecision (docker.VolumeExists env r.volume s).1.1 overwrite)
        (operation.restoreDownloaded env r path) (docker.VolumeExists env r.volume s).2 ∧
    (∀ (tmp : String) (t t1 t2 : St W),
      os.CreateTemp env ""
        ("docker-volume-restore-" ++ r.volume ++ "-*" ++ operation.restoreTempExt path) t =
          ((tmp, none), t1) →
      s3.DownloadFile env path tmp (perform env (.close tmp) t1).2 = (none, t2) →
      operation.restoreDownloaded env r path t =
        deferred (fun u => (perform env (.remove tmp) u).2)
          (match operation.runRestore env r tmp t2 with
           | (some err, t3) => (some ("failed to restore from downloaded backup: " ++ err), t3)
           | (none, t3) => (none, t3))) :=
  ⟨restoreFromFile_table env r src overwrite s hsrc,
    restoreFromS3_table env r path overwrite s hpath,
    fun tmp t t1 t2 h1 h2 => restoreDownloaded_reaches_transcode env r path tmp t t1 t2 h1 h2⟩

theorem C1_restore_admission_table_witness :
    operation.ValidateFilePath "backup.tar.gz" = none ∧
    s3.ValidatePath "s3://b/backup.tar.gz" = none ∧
    (operation.RestoreFromFile demoEnv ⟨"data", false⟩ "backup.tar.gz" true
        (demoStart [("data", ["old.txt"])] true) =
      spec.admissionThen demoEnv "data"
        (spec.admissionDecision
          (docker.VolumeExists demoEnv "data" (demoStart [("data", ["old.txt"])] true)).1.1 true)
        (operation.runRestore demoEnv ⟨"data", false⟩ "backup.tar.gz")
        (docker.VolumeExists demoEnv "data" (demoStart [("data", ["old.txt"])] true)).2) :=
  ⟨by decide, by decide,
    (C1_restore_admission_table demoEnv ⟨"data", false⟩ "backup.tar.gz" "s3://b/backup.tar.gz"
      true (demoStart [("data", ["old.txt"])] true) (by decide) (by decide)).1⟩

theorem alreadyExists_infix (volume : String) :
    "already exists".data <:+: (operation.alreadyExistsError volume).data := by
  refine ⟨("volume '" ++ volume ++ "' ").data,
    (". Use --overwrite flag to clear and restore, or delete the volume first").data, ?_⟩
  simp [operation.alreadyExistsError, String.data_append]

theorem callsSince_perform {W : Type} (env : Env W) (op : Op) (s : St W) :
    callsSince s (perform env op s).2 = [⟨op, (perform env op s).1⟩] :=
  callsSince_of_log s _ _ (perform_log env op s)

theorem callsSince_self {W : Type} (s : St W) : callsSince s s = [] := by
  simp [callsSince]

/-- C2: when the target volume exists and the overwrite flag is off, `RestoreFromFile` and
`RestoreFromS3` return an error and the only call they may have made is the
`docker volume inspect` of the existence check: no clearing, no creation, no temporary file,
no download, no container, no transcode. For a valid source the error is the one that says
`already exists`, and the host is left as the inspection left it. -/
theorem C2_no_overwrite_touches_nothing {W : Type} (env : Env W) (r : operation.Restore)
    (src path : String) (s : St W)
    (hex : (docker.VolumeExists env r.volume s).1.1 = true) :
    (∀ fin ∈ [operation.RestoreFromFile env r src false s,
        operation.RestoreFromS3 env r path false s],
      fin.1 ≠ none ∧
      (fin.2.world = s.world ∨
        fin.2.world = (env.host (.run ["docker", "volume", "inspect", r.volume]) s.world).2) ∧
      ∀ c ∈ callsSince s fin.2, c.op = .run ["docker", "volume", "inspect", r.volume]) ∧
    (operation.ValidateFilePath src = none →
      operation.RestoreFromFile env r src false s =
        (some (operation.alreadyExistsError r.volume),
          (perform env (.run ["docker", "volume", "inspect", r.volume]) s).2)) ∧
    (s3.ValidatePath path = none →
      operation.RestoreFromS3 env r path false s =
        (some (operation.alreadyExistsError r.volume),
          (perform env (.run ["docker", "volume", "inspect", r.volume]) s).2)) ∧
    "already exists".data <:+: (operation.alreadyExistsError r.volume).data := by
  have hfile : operation.ValidateFilePath src = none →
      operation.RestoreFromFile env r src false s =
        (some (operation.alreadyExistsError r.volume),
          (perform env (.run ["docker", "volume", "inspect", r.volume]) s).2) := by
    intro hsrc
    rw [restoreFromFile_table env r src false s hsrc, hex, volumeExists_eq]
    rfl
  have hs3 : s3.ValidatePath path = none →
      operation.RestoreFromS3 env r path false s =
        (some (operation.alreadyExistsError r.volume),
          (perform env (.run ["docker", "volume", "inspect", r.volume]) s).2) := by
    intro hpath
    rw [restoreFromS3_table env r path false s hpath, hex, volumeExists_eq]
    rfl
  refine ⟨?_, hfile, hs3, alreadyExists_infix r.volume⟩
  intro fin hfin
  simp only [List.mem_cons, List.mem_singleton, List.not_mem_nil, or_false] at hfin
  rcases hfin with rfl | rfl
  · cases hsrc : operation.ValidateFilePath src with
    | none =>
      rw [hfile hsrc]
      refine ⟨by simp, Or.inr rfl, ?_⟩
      intro c hc
      rw [callsSince_perform] at hc
      simp only [List.mem_singleton] at hc
      rw [hc]
    | some e =>
      have : operation.RestoreFromFile env r src false s = (some e, s) := by
        unfold operation.RestoreFromFile
        rw [hsrc]
      rw [this]
      refine ⟨by simp, Or.inl rfl, ?_⟩
      intro c hc
      rw [callsSince_self] at hc
      cases hc
  · cases hpath : s3.ValidatePath path with
    | none =>
      rw [hs3 hpath]
      refine ⟨by simp, Or.inr rfl, ?_⟩
      intro c hc
      rw [callsSince_perform] at hc
      simp only [List.mem_singleton] at hc
      rw [hc]
    | some e =>
      have : operation.RestoreFromS3 env r path false s = (some e, s) := by
        unfold operation.RestoreFromS3
        rw [hpath]
      rw [this]
      refine ⟨by simp, Or.inl rfl, ?_⟩
      intro c hc
      rw [callsSince_self] at hc
      cases hc

theorem C2_no_overwrite_touches_nothing_witness :
    (docker.VolumeExists demoEnv "data" (demoStart [("data", ["old.txt"])] true)).1.1 = true ∧
    operation.ValidateFilePath "backup.tar.gz" = none ∧
    operation.RestoreFromFile demoEnv ⟨"data", false⟩ "backup.tar.gz" false
        (demoStart [("data", ["old.txt"])] true) =
      (some (operation.alreadyExistsError "data"),
        (perform demoEnv (.run ["docker", "volume", "inspect", "data"])
          (demoStart [("data", ["old.txt"])] true)).2) :=
  ⟨by decide, by decide,
    (C2_no_overwrite_touches_nothing demoEnv ⟨"data", false⟩ "backup.tar.gz"
      "s3://b/backup.tar.gz" (demoStart [("data", ["old.txt"])] true) (by decide)).2.1
      (by decide)⟩

/-! ## Clearing comes first -/

theorem third_call_after (a b c : Call) (rest pre post : List Call)
    (h : a :: b :: rest = pre ++ c :: post) (ha : c ≠ a) (hb : c ≠ b) : a ∈ pre ∧ b ∈ pre := by
  cases pre with
  | nil =>
    simp only [List.nil_append, List.cons.injEq] at h
    exact absurd h.1.symm ha
  | cons x pre1 =>
    simp only [List.cons_append, List.cons.injEq] at h
    obtain ⟨rfl, h2⟩ := h
    cases pre1 with
    | nil =>
      simp only [List.nil_append, List.cons.injEq] at h2
      exact absurd h2.1.symm hb
    | cons y pre2 =>
      simp only [List.cons_append, List.cons.injEq] at h2
      obtain ⟨rfl, _⟩ := h2
      simp

theorem mem_of_split (cs pre post : List Call) (c : Call) (h : cs = pre ++ c :: post) :
    c ∈ cs := by
  rw [h]
  simp

theorem clearThenProceed_calls {W : Type} (env : Env W) (volume : String) (s : St W)
    (proceed : St W → GoError × St W)
    (hcont : ∀ t, Extends (fun op => op ≠ .run (docker.clearVolumeArgs volume)) t
      (proceed t).2) :
    ((callsSince s (spec.admissionThen env volume .clearThenProceed proceed
        (perform env (.run ["docker", "volume", "inspect", volume]) s).2).2).countP
      (fun c => decide (c.op = .run (docker.clearVolumeArgs volume))) = 1) ∧
    ClearedFirst volume (callsSince s (spec.admissionThen env volume .clearThenProceed proceed
        (perform env (.run ["docker", "volume", "inspect", volume]) s).2).2) ∧
    (∀ e, (docker.ClearVolume env volume
          (perform env (.run ["docker", "volume", "inspect", volume]) s).2).1 = some e →
      spec.admissionThen env volume .clearThenProceed proceed
          (perform env (.run ["docker", "volume", "inspect", volume]) s).2 =
        docker.ClearVolume env volume
          (perform env (.run ["docker", "volume", "inspect", volume]) s).2 ∧
      ∀ c ∈ callsSince s (spec.admissionThen env volume .clearThenProceed proceed
          (perform env (.run ["docker", "volume", "inspect", volume]) s).2).2,
        c.op.reachesVolume = false) := by
  have hne : Op.run ["docker", "volume", "inspect", volume] ≠
      Op.run (docker.clearVolumeArgs volume) := by
    simp [docker.clearVolumeArgs]
  simp only [spec.admissionThen, clearVolume_eq]
  generalize hs1 : perform env (.run ["docker", "volume", "inspect", volume]) s = res1
  obtain ⟨rep1, s1⟩ := res1
  have hlog1 : s1.log = s.log ++ [⟨.run ["docker", "volume", "inspect", volume], rep1⟩] := by
    have := perform_log env (.run ["docker", "volume", "inspect", volume]) s
    rw [hs1] at this
    exact this
  generalize hs2 : perform env (.run (docker.clearVolumeArgs volume)) s1 = res2
  obtain ⟨rep2, s2⟩ := res2
  have hlog2 : s2.log = s.log ++ [⟨.run ["docker", "volume", "inspect", volume], rep1⟩,
      ⟨.run (docker.clearVolumeArgs volume), rep2⟩] := by
    have := perform_log env (.run (docker.clearVolumeArgs volume)) s1
    rw [hs2] at this
    simp only at this
    rw [this, hlog1]
    simp
  cases hrep2 : rep2.err with
  | some e =>
    simp only [Option.map_some']
    have hcalls := callsSince_of_log s s2 _ hlog2
    rw [hcalls]
    refine ⟨?_, ?_, ?_⟩
    · simp [List.countP_cons, hne]
    · intro pre c post hsplit hreach
      have hmem := mem_of_split _ _ _ _ hsplit
      simp only [List.mem_cons, List.mem_singleton, List.not_mem_nil, or_false] at hmem
      rcases hmem with rfl | rfl
      · exact absurd hreach (by simp [Op.reachesVolume])
      · exact absurd hreach (by simp [Op.reachesVolume, docker.clearVolumeArgs])
    · intro e2 _
      refine ⟨trivial, ?_⟩
      intro c hc
      simp only [List.mem_cons, List.mem_singleton, List.not_mem_nil, or_false] at hc
      rcases hc with rfl | rfl
      · rfl
      · rfl
  | none =>
    simp only [Option.map_none']
    obtain ⟨rest, hrest, hP⟩ := hcont s2
    have hlog3 : (proceed s2).2.log = s.log ++
        (⟨.run ["docker", "volume", "inspect", volume], rep1⟩ ::
          ⟨.run (docker.clearVolumeArgs volume), rep2⟩ :: rest) := by
      rw [hrest, hlog2]
      simp
    have hcalls := callsSince_of_log s (proceed s2).2 _ hlog3
    rw [hcalls]
    refine ⟨?_, ?_, ?_⟩
    · have hzero : rest.countP
          (fun c => decide (c.op = .run (docker.clearVolumeArgs volume))) = 0 := by
        rw [List.countP_eq_zero]
        intro c hc
        simpa using hP c hc
      simp [List.countP_cons, hne, hzero]
    · intro pre c post hsplit hreach
      have hab := third_call_after _ _ c rest pre post hsplit
        (by intro h; rw [h] at hreach; exact absurd hreach (by simp [Op.reachesVolume]))
        (by
          intro h
          rw [h] at hreach
          exact absurd hreach (by simp [Op.reachesVolume, docker.clearVolumeArgs]))
      exact ⟨_, hab.2, rfl, hrep2⟩
    · intro e2 he2
      cases he2

theorem runRestore_never_clears {W : Type} (env : Env W) (r : operation.Restore)
    (src volume : String) (t : St W) :
    Extends (fun op => op ≠ .run (docker.clearVolumeArgs volume)) t
      (operation.runRestore env r src t).2 := by
  refine extends_mono ?_ (runRestore_extends env r src t)
  intro op hop h
  rw [h] at hop
  exact absurd hop (by simp [Op.ofRunRestore, docker.clearVolumeArgs])

theorem restoreDownloaded_never_clears {W : Type} (env : Env W) (r : operation.Restore)
    (path volume : String) (t : St W) :
    Extends (fun op => op ≠ .run (docker.clearVolumeArgs volume)) t
      (operation.restoreDownloaded env r path t).2 := by
  refine extends_mono ?_ (restoreDownloaded_extends env r path t)
  intro op hop h
  rw [h] at hop
  exact absurd hop
    (by simp [Op.ofRestoreDownloaded, Op.ofDownload, Op.ofRunRestore, docker.clearVolumeArgs])

/-- The order of the calls of a restore that overwrites: when the target volume exists and
the overwrite flag is on (and the source is valid), `RestoreFromFile` and `RestoreFromS3`
run the command of `ClearVolume` exactly once; every
operation that reaches into the volume (temporary container, `docker cp`, headers, content)
comes after that call and only if it succeeded; when `ClearVolume` fails the restore
returns its error in the state `ClearVolume` left, having reached into the volume with no
operation at all; and when it succeeds the rest of the restore starts in exactly the state
the clearing left. -/
theorem restore_clears_before_any_write {W : Type} (env : Env W) (r : operation.Restore)
    (src path : String) (s : St W)
    (hsrc : operation.ValidateFilePath src = none) (hpath : s3.ValidatePath path = none)
    (hex : (docker.VolumeExists env r.volume s).1.1 = true) :
    (∀ fin ∈ [operation.RestoreFromFile env r src true s,
        operation.RestoreFromS3 env r path true s],
      (callsSince s fin.2).countP
        (fun c => decide (c.op = .run (docker.clearVolumeArgs r.volume))) = 1 ∧
      ClearedFirst r.volume (callsSince s fin.2) ∧
      (∀ e, (docker.ClearVolume env r.volume (docker.VolumeExists env r.volume s).2).1 = some e →
        fin = docker.ClearVolume env r.volume (docker.VolumeExists env r.volume s).2 ∧
        ∀ c ∈ callsSince s fin.2, c.op.reachesVolume = false)) ∧
    ((docker.ClearVolume env r.volume (docker.VolumeExists env r.volume s).2).1 = none →
      operation.RestoreFromFile env r src true s =
        operation.runRestore env r src
          (docker.ClearVolume env r.volume (docker.VolumeExists env r.volume s).2).2 ∧
      operation.RestoreFromS3 env r path true s =
        operation.restoreDownloaded env r path
          (docker.ClearVolume env r.volume (docker.VolumeExists env r.volume s).2).2) := by
  have hs1 : (docker.VolumeExists env r.volume s).2 =
      (perform env (.run ["docker", "volume", "inspect", r.volume]) s).2 := by
    rw [volumeExists_eq]
  refine ⟨?_, ?_⟩
  · intro fin hfin
    simp only [List.mem_cons, List.mem_singleton, List.not_mem_nil, or_false] at hfin
    rcases hfin with rfl | rfl
    · rw [restoreFromFile_table env r src true s hsrc, hex, hs1]
      exact clearThenProceed_calls env r.volume s (operation.runRestore env r src)
        (fun t => runRestore_never_clears env r src r.volume t)
    · rw [restoreFromS3_table env r path true s hpath, hex, hs1]
      exact clearThenProceed_calls env r.volume s (operation.restoreDownloaded env r path)
        (fun t => restoreDownloaded_never_clears env r path r.volume t)
  · intro hok
    rw [restoreFromFile_table env r src true s hsrc, restoreFromS3_table env r path true s hpath,
      hex]
    simp only [spec.admissionDecision, spec.admissionThen]
    generalize docker.ClearVolume env r.volume (docker.VolumeExists env r.volume s).2 = res
      at hok
    obtain ⟨err, t⟩ := res
    simp only at hok
    subst hok
    exact ⟨rfl, rfl⟩

theorem restore_clears_before_any_write_witness :
    operation.ValidateFilePath "backup.tar.gz" = none ∧
    s3.ValidatePath "s3://b/backup.tar.gz" = none ∧
    (docker.VolumeExists demoEnv "data" (demoStart [("data", ["old.txt"])] true)).1.1 = true ∧
    ClearedFirst "data" (callsSince (demoStart [("data", ["old.txt"])] true)
      (operation.RestoreFromFile demoEnv ⟨"data", false⟩ "backup.tar.gz" true
        (demoStart [("data", ["old.txt"])] true)).2) :=
  ⟨by decide, by decide, by decide,
    ((restore_clears_before_any_write demoEnv ⟨"data", false⟩ "backup.tar.gz"
      "s3://b/backup.tar.gz" (demoStart [("data", ["old.txt"])] true) (by decide) (by decide)
      (by decide)).1
      _ (List.mem_cons_self _ _)).2.1⟩

/-- C3, evaluated where the code departs from it: the volume `data` exists and holds
`old.txt`, which `rm` cannot remove, and the overwrite flag is on. The command of
`ClearVolume` ends in `|| true`, so it exits with status 0 and `ClearVolume` returns nil
although the volume still holds `old.txt`; both `RestoreFromFile` and `RestoreFromS3` then
run the clearing once, go on, return nil, and leave `old.txt` next to the restored
`hello.txt` in the volume. -/
theorem C3_failed_clearing_is_not_noticed :
    operation.ValidateFilePath "backup.tar.gz" = none ∧
    s3.ValidatePath "s3://b/backup.tar.gz" = none ∧
    (docker.VolumeExists stickyEnv "data" ⟨⟨["old.txt"]⟩, []⟩).1.1 = true ∧
    (docker.ClearVolume stickyEnv "data" ⟨⟨["old.txt"]⟩, []⟩).1 = none ∧
    (docker.ClearVolume stickyEnv "data" ⟨⟨["old.txt"]⟩, []⟩).2.world.files = ["old.txt"] ∧
    (∀ fin ∈ [operation.RestoreFromFile stickyEnv ⟨"data", false⟩ "backup.tar.gz" true
          ⟨⟨["old.txt"]⟩, []⟩,
        operation.RestoreFromS3 stickyEnv ⟨"data", false⟩ "s3://b/backup.tar.gz" true
          ⟨⟨["old.txt"]⟩, []⟩],
      fin.1 = none ∧
      fin.2.log.countP (fun c => decide (c.op = .run (docker.clearVolumeArgs "data"))) = 1 ∧
      fin.2.world.files = ["old.txt", "hello.txt"]) := by
  refine ⟨by decide, by decide, by decide, by decide, by decide, ?_⟩
  decide

/-! ## The order of the steps of `RestoreFromS3` -/

/-- Counterexample to C4 as stated: with the object store down the download fails, yet by
then `RestoreFromS3` has already created the absent volume (first run) or emptied the
existing one (second run): the admission calls precede the download in the log. -/
theorem C4_download_fails_after_admission :
    s3.ValidatePath "s3://b/backup.tar.gz" = none ∧
    (operation.RestoreFromS3 demoEnv ⟨"data", false⟩ "s3://b/backup.tar.gz" false
        (demoStart [] false)).1 = some "failed to download from S3: connection refused" ∧
    (operation.RestoreFromS3 demoEnv ⟨"data", false⟩ "s3://b/backup.tar.gz" false
        (demoStart [] false)).2.log.map Call.op =
      [.run ["docker", "volume", "inspect", "data"],
       .run ["docker", "volume", "create", "data"],
       .createTemp "/tmp/docker-volume-restore-data-" ".tar.gz",
       .close "/tmp/docker-volume-restore-data-123456.tar.gz",
       .create "/tmp/docker-volume-restore-data-123456.tar.gz",
       .s3NewClient,
       .s3Download "b" "backup.tar.gz" "/tmp/docker-volume-restore-data-123456.tar.gz",
       .close "/tmp/docker-volume-restore-data-123456.tar.gz",
       .remove "/tmp/docker-volume-restore-data-123456.tar.gz"] ∧
    (operation.RestoreFromS3 demoEnv ⟨"data", false⟩ "s3://b/backup.tar.gz" false
        (demoStart [] false)).2.world.volumes = [("data", [])] ∧
    (operation.RestoreFromS3 demoEnv ⟨"data", false⟩ "s3://b/backup.tar.gz" true
        (demoStart [("data", ["old.txt"])] false)).1 =
      some "failed to download from S3: connection refused" ∧
    (operation.RestoreFromS3 demoEnv ⟨"data", false⟩ "s3://b/backup.tar.gz" true
        (demoStart [("data", ["old.txt"])] false)).2.world.volumes = [("data", [])] := by
  refine ⟨by decide, by decide, by decide, by decide, by decide, by decide⟩

theorem admissionThen_admitted_first {W : Type} (env : Env W) (volume : String) (s : St W)
    (d : spec.Admission) (proceed : St W → GoError × St W)
    (hcont : ∀ t, Extends (fun _ => True) t (proceed t).2) :
    (∃ rest, callsSince s (spec.admissionThen env volume d proceed
        (perform env (.run ["docker", "volume", "inspect", volume]) s).2).2 =
      ⟨.run ["docker", "volume", "inspect", volume],
        (perform env (.run ["docker", "volume", "inspect", volume]) s).1⟩ :: rest) ∧
    AdmittedFirst volume (callsSince s (spec.admissionThen env volume d proceed
        (perform env (.run ["docker", "volume", "inspect", volume]) s).2).2) := by
  generalize hs1 : perform env (.run ["docker", "volume", "inspect", volume]) s = res1
  obtain ⟨rep1, s1⟩ := res1
  have hlog1 : s1.log = s.log ++ [⟨.run ["docker", "volume", "inspect", volume], rep1⟩] := by
    have := perform_log env (.run ["docker", "volume", "inspect", volume]) s
    rw [hs1] at this
    exact this
  have key : ∀ (argv : List String) (msg : String → String → String),
      (Op.run argv).ofStaging = false → (Op.run argv).ofRunRestore = false →
      (∃ rest, callsSince s
          (match ((perform env (.run argv) s1).1.err.map
              (fun err => msg err (perform env (.run argv) s1).1.output),
              (perform env (.run argv) s1).2) with
            | (some err, s2) => (some err, s2)
            | (none, s2) => proceed s2 : GoError × St W).2 =
          ⟨.run ["docker", "volume", "inspect", volume], rep1⟩ :: rest) ∧
      ∀ pre c post, callsSince s
          (match ((perform env (.run argv) s1).1.err.map
              (fun err => msg err (perform env (.run argv) s1).1.output),
              (perform env (.run argv) s1).2) with
            | (some err, s2) => (some err, s2)
            | (none, s2) => proceed s2 : GoError × St W).2 = pre ++ c :: post →
        (c.op.ofStaging || c.op.ofRunRestore) = true →
        ∃ k ∈ pre, k.ranOk argv := by
    intro argv msg hst hrr
    generalize hs2 : perform env (.run argv) s1 = res2
    obtain ⟨rep2, s2⟩ := res2
    have hlog2 : s2.log = s.log ++ [⟨.run ["docker", "volume", "inspect", volume], rep1⟩,
        ⟨.run argv, rep2⟩] := by
      have := perform_log env (.run argv) s1
      rw [hs2] at this
      simp only at this
      rw [this, hlog1]
      simp
    cases hrep2 : rep2.err with
    | some e =>
      simp only [Option.map_some']
      rw [callsSince_of_log s s2 _ hlog2]
      refine ⟨⟨_, rfl⟩, ?_⟩
      intro pre c post hsplit hc
      have hmem := mem_of_split _ _ _ _ hsplit
      simp only [List.mem_cons, List.mem_singleton, List.not_mem_nil, or_false] at hmem
      rcases hmem with rfl | rfl
      · exact absurd hc (by simp [Op.ofStaging, Op.ofDownload, Op.ofRunRestore])
      · exact absurd hc (by simp [hst, hrr])
    | none =>
      simp only [Option.map_none']
      obtain ⟨rest, hrest, _⟩ := hcont s2
      have hlog3 : (proceed s2).2.log = s.log ++
          (⟨.run ["docker", "volume", "inspect", volume], rep1⟩ :: ⟨.run argv, rep2⟩ :: rest) := by
        rw [hrest, hlog2]
        simp
      rw [callsSince_of_log s (proceed s2).2 _ hlog3]
      refine ⟨⟨_, rfl⟩, ?_⟩
      intro pre c post hsplit hc
      have hab := third_call_after _ _ c rest pre post hsplit
        (by
          intro h
          rw [h] at hc
          exact absurd hc (by simp [Op.ofStaging, Op.ofDownload, Op.ofRunRestore]))
        (by
          intro h
          rw [h] at hc
          exact absurd hc (by simp [hst, hrr]))
      exact ⟨_, hab.2, rfl, hrep2⟩
  cases d with
  | abort =>
    simp only [spec.admissionThen]
    rw [callsSince_of_log s s1 _ hlog1]
    refine ⟨⟨_, rfl⟩, ?_⟩
    intro pre c post hsplit hc
    have hmem := mem_of_split _ _ _ _ hsplit
    simp only [List.mem_singleton] at hmem
    subst hmem
    exact absurd hc (by simp [Op.ofStaging, Op.ofDownload, Op.ofRunRestore])
  | createThenProceed =>
    simp only [spec.admissionThen, createVolume_eq]
    obtain ⟨h1, h2⟩ := key ["docker", "volume", "create", volume]
      (fun err out => "failed to create volume: " ++ err ++ ", output: " ++ out) rfl rfl
    refine ⟨h1, ?_⟩
    intro pre c post hsplit hc
    obtain ⟨k, hk, hok⟩ := h2 pre c post hsplit hc
    exact ⟨k, hk, Or.inl hok⟩
  | clearThenProceed =>
    simp only [spec.admissionThen, clearVolume_eq]
    obtain ⟨h1, h2⟩ := key (docker.clearVolumeArgs volume)
      (fun err out => "failed to clear volume: " ++ err ++ ", output: " ++ out) rfl rfl
    refine ⟨h1, ?_⟩
    intro pre c post hsplit hc
    obtain ⟨k, hk, hok⟩ := h2 pre c post hsplit hc
    exact ⟨k, hk, Or.inr hok⟩

/-- C4, amended: for a valid remote path `RestoreFromS3` first checks the volume
(`docker volume inspect`), then creates or clears it, and only then creates the temporary
file, downloads and transcodes: every staging or transcode call, the download among them,
comes after a successful `docker volume create` or a successful clearing. So when a download
is attempted, and in particular when it fails, the volume has already been created or
cleared. -/
theorem C4_admission_precedes_download {W : Type} (env : Env W) (r : operation.Restore)
    (path : String) (overwrite : Bool) (s : St W) (hpath : s3.ValidatePath path = none) :
    (∃ rest, callsSince s (operation.RestoreFromS3 env r path overwrite s).2 =
      ⟨.run ["docker", "volume", "inspect", r.volume],
        (perform env (.run ["docker", "volume", "inspect", r.volume]) s).1⟩ :: rest) ∧
    AdmittedFirst r.volume (callsSince s (operation.RestoreFromS3 env r path overwrite s).2) ∧
    (∀ c ∈ callsSince s (operation.RestoreFromS3 env r path overwrite s).2,
      (∃ bucket key file, c.op = .s3Download bucket key file) →
      ∃ k ∈ callsSince s (operation.RestoreFromS3 env r path overwrite s).2,
        k.ranOk ["docker", "volume", "create", r.volume] ∨
          k.ranOk (docker.clearVolumeArgs r.volume)) := by
  have hs1 : (docker.VolumeExists env r.volume s).2 =
      (perform env (.run ["docker", "volume", "inspect", r.volume]) s).2 := by
    rw [volumeExists_eq]
  rw [restoreFromS3_table env r path overwrite s hpath, hs1]
  obtain ⟨h1, h2⟩ := admissionThen_admitted_first env r.volume s
    (spec.admissionDecision (docker.VolumeExists env r.volume s).1.1 overwrite)
    (operation.restoreDownloaded env r path)
    (fun t => extends_mono (fun _ _ => trivial) (restoreDownloaded_extends env r path t))
  refine ⟨h1, h2, ?_⟩
  intro c hc hdl
  obtain ⟨pre, post, hsplit⟩ := List.append_of_mem hc
  obtain ⟨bucket, key, file, hop⟩ := hdl
  obtain ⟨k, hk, hok⟩ := h2 pre c post hsplit (by rw [hop]; rfl)
  exact ⟨k, by rw [hsplit]; exact List.mem_append_left _ hk, hok⟩

theorem C4_admission_precedes_download_witness :
    s3.ValidatePath "s3://b/backup.tar.gz" = none ∧
    AdmittedFirst "data" (callsSince (demoStart [] false)
      (operation.RestoreFromS3 demoEnv ⟨"data", false⟩ "s3://b/backup.tar.gz" false
        (demoStart [] false)).2) :=
  ⟨by decide,
    (C4_admission_precedes_download demoEnv ⟨"data", false⟩ "s3://b/backup.tar.gz" false
      (demoStart [] false) (by decide)).2.1⟩

/-! ## The name of the temporary file of `RestoreFromS3` -/

theorem hasSuffix_append (front suf : String) : strings.HasSuffix (front ++ suf) suf = true := by
  rw [hasSuffix_iff]
  exact ⟨front.data, by simp [String.data_append]⟩

theorem createReader_temp_name (lib : CodecLib) (rd : ByteStream) (path front : String)
    (hsuf : strings.HasSuffix path ".gz" = true ∨ strings.HasSuffix path ".zst" = true ∨
      strings.HasSuffix path ".tar" = true) :
    rw.CreateReader lib rd (front ++ operation.restoreTempExt path) =
      rw.CreateReader lib rd path := by
  unfold operation.restoreTempExt
  by_cases hz : strings.HasSuffix path ".zst" = true
  · have hcond : (strings.HasSuffix path ".tar.zst" || strings.HasSuffix path ".zst") = true := by
      simp [hz]
    rw [if_pos hcond]
    rw [createReader_zst lib rd path hz,
      createReader_zst lib rd _ (zst_of_tar_zst _ (hasSuffix_append front ".tar.zst"))]
  · have hz1 : strings.HasSuffix path ".zst" = false := by simpa using hz
    have hz2 : strings.HasSuffix path ".tar.zst" = false := by
      cases h : strings.HasSuffix path ".tar.zst" with
      | false => rfl
      | true => exact absurd (zst_of_tar_zst path h) hz
    have hcond : ¬ (strings.HasSuffix path ".tar.zst" || strings.HasSuffix path ".zst") = true := by
      simp [hz1, hz2]
    rw [if_neg hcond]
    by_cases ht : strings.HasSuffix path ".tar" = true
    · rw [if_pos ht]
      rw [createReader_other lib rd path (not_gz_of_tar path ht) hz1,
        createReader_other lib rd _ (not_gz_of_tar _ (hasSuffix_append front ".tar"))
          (not_zst_of_tar _ (hasSuffix_append front ".tar"))]
    · rw [if_neg ht]
      have hg : strings.HasSuffix path ".gz" = true := by
        rcases hsuf with h | h | h
        · exact h
        · exact absurd h hz
        · exact absurd h ht
      rw [createReader_gz lib rd path hg,
        createReader_gz lib rd _ (gz_of_tar_gz _ (hasSuffix_append front ".tar.gz"))]

theorem admissionThen_extends {W : Type} (env : Env W) (volume : String) (d : spec.Admission)
    (proceed : St W → GoError × St W) (P : Op → Prop) (hrun : ∀ argv, P (.run argv))
    (hcont : ∀ t, Extends P t (proceed t).2) (s : St W) :
    Extends P s (spec.admissionThen env volume d proceed s).2 := by
  cases d with
  | abort => exact extends_refl _ _
  | createThenProceed =>
    simp only [spec.admissionThen, createVolume_eq]
    have h1 := extends_perform env P (.run ["docker", "volume", "create", volume]) s (hrun _)
    generalize perform env (.run ["docker", "volume", "create", volume]) s = res at h1
    obtain ⟨rep, t⟩ := res
    cases hrep : rep.err with
    | some e => simpa [hrep] using h1
    | none =>
      simp only [Option.map_none']
      exact extends_trans h1 (hcont t)
  | clearThenProceed =>
    simp only [spec.admissionThen, clearVolume_eq]
    have h1 := extends_perform env P (.run (docker.clearVolumeArgs volume)) s (hrun _)
    generalize perform env (.run (docker.clearVolumeArgs volume)) s = res at h1
    obtain ⟨rep, t⟩ := res
    cases hrep : rep.err with
    | some e => simpa [hrep] using h1
    | none =>
      simp only [Option.map_none']
      exact extends_trans h1 (hcont t)

theorem restoreFromS3_temp_suffix {W : Type} (env : Env W) (r : operation.Restore)
    (path : String) (overwrite : Bool) (s : St W) (hpath : s3.ValidatePath path = none) :
    ∀ c ∈ callsSince s (operation.RestoreFromS3 env r path overwrite s).2,
      ∀ pre suf, c.op = .createTemp pre suf → suf = operation.restoreTempExt path := by
  have hP : ∀ op : Op, op.ofRestoreDownloaded (operation.restoreTempExt path) = true →
      ∀ pre suf, op = .createTemp pre suf → suf = operation.restoreTempExt path := by
    intro op hop pre suf h
    rw [h] at hop
    simpa [Op.ofRestoreDownloaded] using hop
  have hext : Extends
      (fun op => ∀ pre suf, op = .createTemp pre suf → suf = operation.restoreTempExt path) s
      (operation.RestoreFromS3 env r path overwrite s).2 := by
    rw [restoreFromS3_table env r path overwrite s hpath]
    have h1 : Extends
        (fun op => ∀ pre suf, op = .createTemp pre suf → suf = operation.restoreTempExt path) s
        (docker.VolumeExists env r.volume s).2 := by
      rw [volumeExists_eq]
      exact extends_perform env _ _ _ (by intro pre suf h; cases h)
    refine extends_trans h1 (admissionThen_extends env r.volume _ _ _ ?_ ?_ _)
    · intro argv pre suf h
      cases h
    · intro t
      exact extends_mono hP (restoreDownloaded_extends env r path t)
  obtain ⟨calls, hlog, hall⟩ := hext
  rw [callsSince_of_log s _ calls hlog]
  exact hall

/-- Counterexample to C10 as stated: `s3://b/backup` is a valid remote path without a
recognised suffix; `RestoreFromS3` stages it in a file named `...-123456.tar.gz`, which
`CreateReader` reads through gzip (and here refuses), while from the path itself
`CreateReader` infers no compression. -/
theorem C10_unrecognised_suffix_changes_codec :
    s3.ValidatePath "s3://b/backup" = none ∧
    (⟨.createTemp "/tmp/docker-volume-restore-data-" ".tar.gz", { output := "123456" }⟩ : Call) ∈
      (operation.RestoreFromS3 demoEnv ⟨"data", false⟩ "s3://b/backup" false
        (demoStart [] true)).2.log ∧
    rw.CreateReader demoLib ⟨[104, 105], none⟩
        ("/tmp/docker-volume-restore-data-" ++ "123456" ++ ".tar.gz") =
      .error "failed to create gzip reader: gzip: invalid header" ∧
    rw.CreateReader demoLib ⟨[104, 105], none⟩ "s3://b/backup" = .ok ⟨[104, 105], none⟩ := by
  refine ⟨by decide, by decide, by rfl, by rfl⟩

/-- C10, amended: for every remote path `p` accepted by `s3.ValidatePath` that ends in `.gz`,
`.zst` or `.tar`, the temporary file `RestoreFromS3` creates (path prefix, the host's random
part, suffix) has a name from which `CreateReader` infers the codec it infers from `p`
itself: for every library and reader the two calls give the same result. -/
theorem C10_temp_name_keeps_codec {W : Type} (env : Env W) (r : operation.Restore)
    (p : String) (overwrite : Bool) (s : St W) (hpath : s3.ValidatePath p = none)
    (hsuf : strings.HasSuffix p ".gz" = true ∨ strings.HasSuffix p ".zst" = true ∨
      strings.HasSuffix p ".tar" = true) :
    ∀ c ∈ callsSince s (operation.RestoreFromS3 env r p overwrite s).2,
      ∀ pre suf, c.op = .createTemp pre suf →
        ∀ (lib : CodecLib) (rd : ByteStream),
          rw.CreateReader lib rd (pre ++ c.reply.output ++ suf) = rw.CreateReader lib rd p := by
  intro c hc pre suf hop lib rd
  have hs := restoreFromS3_temp_suffix env r p overwrite s hpath c hc pre suf hop
  rw [hs]
  exact createReader_temp_name lib rd p (pre ++ c.reply.output) hsuf

theorem C10_temp_name_keeps_codec_witness :
    s3.ValidatePath "s3://b/backup.tar.zst" = none ∧
    strings.HasSuffix "s3://b/backup.tar.zst" ".zst" = true ∧
    (⟨.createTemp "/tmp/docker-volume-restore-data-" ".tar.zst", { output := "123456" }⟩ : Call) ∈
      callsSince (demoStart [] true)
        (operation.RestoreFromS3 demoEnv ⟨"data", false⟩ "s3://b/backup.tar.zst" false
          (demoStart [] true)).2 ∧
    rw.CreateReader demoLib ⟨[0x28, 104, 105], none⟩
        ("/tmp/docker-volume-restore-data-" ++ "123456" ++ ".tar.zst") =
      rw.CreateReader demoLib ⟨[0x28, 104, 105], none⟩ "s3://b/backup.tar.zst" :=
  ⟨by decide, by decide, by decide,
    C10_temp_name_keeps_codec demoEnv ⟨"data", false⟩ "s3://b/backup.tar.zst" false
      (demoStart [] true) (by decide) (Or.inr (Or.inl (by decide)))
      ⟨.createTemp "/tmp/docker-volume-restore-data-" ".tar.zst", { output := "123456" }⟩
      (by decide) "/tmp/docker-volume-restore-data-" ".tar.zst" rfl demoLib
      ⟨[0x28, 104, 105], none⟩⟩

/-! ## File paths -/

theorem containsList_iff (sub l : List Char) :
    strings.containsList sub l = true ↔ sub <:+: l := by
  induction l with
  | nil =>
    simp only [strings.containsList, List.isEmpty_iff, List.infix_nil]
  | cons c cs ih =>
    simp only [strings.containsList, Bool.or_eq_true, List.isPrefixOf_iff_prefix, ih,
      List.infix_cons_iff]

theorem validateFilePath_none_iff (p : String) :
    operation.ValidateFilePath p = none ↔ p ≠ "" ∧ ¬ "..".data <:+: p.data := by
  unfold operation.ValidateFilePath
  by_cases hp : p = ""
  · simp [hp]
  · rw [if_neg hp]
    by_cases hc : strings.Contains p ".." = true
    · have := (containsList_iff "..".data p.data).mp hc
      simp [hc, this]
    · have hn : ¬ "..".data <:+: p.data := fun h => hc ((containsList_iff _ _).mpr h)
      simp [hc, hn, hp]

/-- C17: `ValidateFilePath p` returns an error exactly when `p` is empty or the two characters
`..` occur somewhere in `p`, as a segment or inside a file name; every other path is
accepted. -/
theorem C17_ValidateFilePath_rejects_iff :
    (∀ p : String, operation.ValidateFilePath p ≠ none ↔ (p = "" ∨ "..".data <:+: p.data)) ∧
    operation.ValidateFilePath "" ≠ none ∧
    operation.ValidateFilePath "../etc/passwd" ≠ none ∧
    operation.ValidateFilePath "/tmp/../etc/passwd" ≠ none ∧
    operation.ValidateFilePath "backup..tar" ≠ none ∧
    operation.ValidateFilePath "/tmp/backup.tar.gz" = none ∧
    operation.ValidateFilePath "backup.tar.gz" = none ∧
    operation.ValidateFilePath "/var/backups/data/backup.tar" = none := by
  refine ⟨?_, by decide, by decide, by decide, by decide, by decide, by decide, by decide⟩
  intro p
  rw [Ne, validateFilePath_none_iff]
  tauto

theorem segments_head_starts (l seg : List Char) (rest : List (List Char))
    (h : spec.segments l = seg :: rest) : seg <+: l := by
  induction l generalizing seg rest with
  | nil =>
    simp only [spec.segments, List.cons.injEq] at h
    rw [← h.1]
  | cons c cs ih =>
    simp only [spec.segments] at h
    by_cases hc : c = '/'
    · simp only [hc, if_true, List.cons.injEq] at h
      rw [← h.1]
      exact List.nil_prefix
    · simp only [hc, if_false] at h
      cases hseg : spec.segments cs with
      | nil =>
        rw [hseg] at h
        simp only [List.cons.injEq] at h
        rw [← h.1]
        exact List.prefix_append [c] cs
      | cons s0 rest0 =>
        rw [hseg] at h
        simp only [List.cons.injEq] at h
        rw [← h.1]
        exact (List.prefix_cons_inj c).mpr (ih s0 rest0 hseg)

theorem segment_infix (l seg : List Char) (h : seg ∈ spec.segments l) : seg <:+: l := by
  induction l generalizing seg with
  | nil =>
    simp only [spec.segments, List.mem_singleton] at h
    subst h
    exact List.infix_refl _
  | cons c cs ih =>
    by_cases hc : c = '/'
    · simp only [spec.segments, hc, if_true, List.mem_cons] at h
      rcases h with rfl | h
      · exact List.nil_infix
      · exact List.infix_cons (ih seg h)
    · cases hall : spec.segments (c :: cs) with
      | nil => rw [hall] at h; cases h
      | cons first rest =>
        rw [hall] at h
        rcases List.mem_cons.mp h with rfl | h
        · exact (segments_head_starts _ _ _ hall).isInfix
        · have hrest : seg ∈ spec.segments cs := by
            simp only [spec.segments, hc, if_false] at hall
            cases hseg : spec.segments cs with
            | nil =>
              rw [hseg] at hall
              simp only [List.cons.injEq] at hall
              rw [← hall.2] at h
              cases h
            | cons s0 rest0 =>
              rw [hseg] at hall
              simp only [List.cons.injEq] at hall
              rw [← hall.2] at h
              exact List.mem_cons_of_mem _ h
          exact List.infix_cons (ih seg hrest)

/-- Counterexample to C18 as stated: no segment of `backup..tar` (nor of `a/b..c/d`) is the
parent-traversal segment, the paths are not empty, and yet `ValidateFilePath` and with it
`BackupToFile` refuse them. -/
theorem C18_double_dot_inside_a_name_is_refused :
    spec.acceptsDestination "backup..tar" ∧
    operation.ValidateFilePath "backup..tar" =
      some "path traversal not allowed in 'backup..tar'" ∧
    operation.BackupToFile demoEnv ⟨"data", "gz", false⟩ "backup..tar"
        (demoStart [("data", ["old.txt"])] true) =
      (some "path traversal not allowed in 'backup..tar'",
        demoStart [("data", ["old.txt"])] true) ∧
    spec.acceptsDestination "a/b..c/d" ∧
    operation.ValidateFilePath "a/b..c/d" ≠ none := by
  refine ⟨by decide, by decide, by rfl, by decide, by decide⟩

/-- C18, amended: the destination-path validation of `BackupToFile` accepts a path exactly
when it is non-empty and the two characters `..` occur nowhere in it. So every accepted path
is non-empty and has no `..` segment, the empty path and every path with a `..` segment are
rejected, and a rejected path is handed back with the validation error before anything is
done. -/
theorem C18_destination_validation :
    (∀ p : String, operation.ValidateFilePath p = none ↔ p ≠ "" ∧ ¬ "..".data <:+: p.data) ∧
    (∀ p : String, operation.ValidateFilePath p = none → spec.acceptsDestination p) ∧
    (∀ p : String, ¬ spec.acceptsDestination p → operation.ValidateFilePath p ≠ none) ∧
    (∀ (W : Type) (env : Env W) (b : operation.Backup) (dest : String) (s : St W),
      (∀ e, operation.ValidateFilePath dest = some e →
        operation.BackupToFile env b dest s = (some e, s)) ∧
      (operation.ValidateFilePath dest = none →
        operation.BackupToFile env b dest s = operation.runBackup env b dest s)) := by
  have hacc : ∀ p : String, operation.ValidateFilePath p = none → spec.acceptsDestination p := by
    intro p h
    obtain ⟨h1, h2⟩ := (validateFilePath_none_iff p).mp h
    refine ⟨h1, ?_⟩
    intro seg hseg heq
    apply h2
    have := segment_infix p.data seg hseg
    rw [heq] at this
    exact this
  refine ⟨validateFilePath_none_iff, hacc, ?_, ?_⟩
  · intro p hp h
    exact hp (hacc p h)
  · intro W env b dest s
    constructor
    · intro e he
      simp only [operation.BackupToFile, he]
    · intro he
      simp only [operation.BackupToFile, he]

/-! ## Volumes that must or need not exist -/

theorem newBackup_missing {W : Type} (env : Env W) (volume compression : String)
    (showProgress : Bool) (s : St W) (hname : docker.ValidateVolumeName volume = none)
    (hex : (docker.VolumeExists env volume s).1.1 = false) :
    operation.NewBackup env volume compression showProgress s =
      ((none, some ("volume '" ++ volume ++ "' does not exist")),
        (perform env (.run ["docker", "volume", "inspect", volume]) s).2) := by
  unfold operation.NewBackup
  rw [hname]
  rw [volumeExists_eq] at hex ⊢
  simp only at hex
  simp only [hex]
  rfl

/-- C19: `NewBackup` with a valid name of a volume that does not exist returns no `Backup`
and the error `volume '...' does not exist`; the only command it has run is the
`docker volume inspect` of the existence check, so nothing was created or changed; and the
backup command line stops there, without `BackupToFile` or `BackupToS3` being run. -/
theorem C19_NewBackup_missing_volume {W : Type} (env : Env W) (volume dest compression : String)
    (showProgress : Bool) (s : St W) (hname : docker.ValidateVolumeName volume = none)
    (hex : (docker.VolumeExists env volume s).1.1 = false) :
    operation.NewBackup env volume compression showProgress s =
      ((none, some ("volume '" ++ volume ++ "' does not exist")),
        (perform env (.run ["docker", "volume", "inspect", volume]) s).2) ∧
    "does not exist".data <:+: ("volume '" ++ volume ++ "' does not exist").data ∧
    callsSince s (operation.NewBackup env volume compression showProgress s).2 =
      [⟨.run ["docker", "volume", "inspect", volume],
        (perform env (.run ["docker", "volume", "inspect", volume]) s).1⟩] ∧
    cmd.mainBackup env volume dest compression showProgress s =
      (some ("volume '" ++ volume ++ "' does not exist"),
        (perform env (.run ["docker", "volume", "inspect", volume]) s).2) := by
  have h := newBackup_missing env volume compression showProgress s hname hex
  refine ⟨h, ?_, ?_, ?_⟩
  · exact ⟨("volume '" ++ volume ++ "' ").data, [], by simp [String.data_append]⟩
  · rw [h]
    exact callsSince_perform env _ s
  · unfold cmd.mainBackup
    rw [h]

theorem C19_NewBackup_missing_volume_witness :
    docker.ValidateVolumeName "nodata" = none ∧
    (docker.VolumeExists demoEnv "nodata" (demoStart [("data", ["old.txt"])] true)).1.1 = false ∧
    cmd.mainBackup demoEnv "nodata" "out.tar.gz" "gz" false
        (demoStart [("data", ["old.txt"])] true) =
      (some ("volume '" ++ "nodata" ++ "' does not exist"),
        (perform demoEnv (.run ["docker", "volume", "inspect", "nodata"])
          (demoStart [("data", ["old.txt"])] true)).2) :=
  ⟨by decide, by decide,
    (C19_NewBackup_missing_volume demoEnv "nodata" "out.tar.gz" "gz" false
      (demoStart [("data", ["old.txt"])] true) (by decide) (by decide)).2.2.2⟩

theorem ensureVolumeExists_eq {W : Type} (env : Env W) (volume : String) (s : St W) :
    docker.EnsureVolumeExists env volume s =
      if (perform env (.run ["docker", "volume", "inspect", volume]) s).1.err = none then
        (none, (perform env (.run ["docker", "volume", "inspect", volume]) s).2)
      else
        docker.CreateVolume env volume
          (perform env (.run ["docker", "volume", "inspect", volume]) s).2 := by
  unfold docker.EnsureVolumeExists
  rw [volumeExists_eq]
  cases h : (perform env (.run ["docker", "volume", "inspect", volume]) s).1.err <;> simp

theorem ensureVolumeExists_present {W : Type} (env : Env W) (volume : String) (s : St W)
    (h : (env.host (.run ["docker", "volume", "inspect", volume]) s.world).1.err = none) :
    docker.EnsureVolumeExists env volume s =
      (none, (perform env (.run ["docker", "volume", "inspect", volume]) s).2) := by
  rw [ensureVolumeExists_eq]
  have : (perform env (.run ["docker", "volume", "inspect", volume]) s).1.err = none := h
  rw [if_pos this]

theorem ensureVolumeExists_log {W : Type} (env : Env W) (volume : String) (t : St W) :
    ∃ cs, (docker.EnsureVolumeExists env volume t).2.log = t.log ++ cs ∧
      ((∃ ri, cs = [⟨.run ["docker", "volume", "inspect", volume], ri⟩]) ∨
        ∃ ri rc, cs = [⟨.run ["docker", "volume", "inspect", volume], ri⟩,
          ⟨.run ["docker", "volume", "create", volume], rc⟩]) := by
  rw [ensureVolumeExists_eq]
  by_cases h : (perform env (.run ["docker", "volume", "inspect", volume]) t).1.err = none
  · rw [if_pos h]
    exact ⟨_, perform_log env _ t, Or.inl ⟨_, rfl⟩⟩
  · rw [if_neg h, createVolume_eq]
    refine ⟨[⟨.run ["docker", "volume", "inspect", volume],
        (perform env (.run ["docker", "volume", "inspect", volume]) t).1⟩,
      ⟨.run ["docker", "volume", "create", volume],
        (perform env (.run ["docker", "volume", "create", volume])
          (perform env (.run ["docker", "volume", "inspect", volume]) t).2).1⟩], ?_,
      Or.inr ⟨_, _, rfl⟩⟩
    simp only [perform_log, List.append_assoc, List.singleton_append]

theorem callsSince_two {W : Type} (env : Env W) (op1 op2 : Op) (s : St W) :
    callsSince s (perform env op2 (perform env op1 s).2).2 =
      [⟨op1, (perform env op1 s).1⟩, ⟨op2, (perform env op2 (perform env op1 s).2).1⟩] := by
  apply callsSince_of_log
  simp only [perform_log, List.append_assoc, List.singleton_append]

theorem callsSince_three {W : Type} (env : Env W) (op1 op2 op3 : Op) (s : St W) :
    callsSince s (perform env op3 (perform env op2 (perform env op1 s).2).2).2 =
      [⟨op1, (perform env op1 s).1⟩, ⟨op2, (perform env op2 (perform env op1 s).2).1⟩,
        ⟨op3, (perform env op3 (perform env op2 (perform env op1 s).2).2).1⟩] := by
  apply callsSince_of_log
  simp only [perform_log, List.append_assoc, List.singleton_append, List.cons_append,
    List.nil_append]

/-- Two calls of `EnsureVolumeExists` in a row on a volume store where a successful
`docker volume create` makes the following `docker volume inspect` succeed and an inspection
that succeeds keeps succeeding: when the first call returns nil the second returns nil as
well and makes the inspection only, so `CreateVolume` runs at most once over the two calls;
at most one creation ever succeeds; and where creating a volume succeeds the first call does
return nil. -/
theorem ensureVolumeExists_twice {W : Type} (env : Env W) (volume : String) (s : St W)
    (hcreate : ∀ w, (env.host (.run ["docker", "volume", "create", volume]) w).1.err = none →
      (env.host (.run ["docker", "volume", "inspect", volume])
        (env.host (.run ["docker", "volume", "create", volume]) w).2).1.err = none)
    (hstable : ∀ w, (env.host (.run ["docker", "volume", "inspect", volume]) w).1.err = none →
      (env.host (.run ["docker", "volume", "inspect", volume])
        (env.host (.run ["docker", "volume", "inspect", volume]) w).2).1.err = none) :
    ((docker.EnsureVolumeExists env volume s).1 = none →
      (docker.EnsureVolumeExists env volume (docker.EnsureVolumeExists env volume s).2).1 = none ∧
      (∀ c ∈ callsSince (docker.EnsureVolumeExists env volume s).2
          (docker.EnsureVolumeExists env volume (docker.EnsureVolumeExists env volume s).2).2,
        c.op = .run ["docker", "volume", "inspect", volume]) ∧
      (callsSince s
          (docker.EnsureVolumeExists env volume (docker.EnsureVolumeExists env volume s).2).2).countP
        (fun c => decide (c.op = .run ["docker", "volume", "create", volume])) ≤ 1) ∧
    (callsSince s
        (docker.EnsureVolumeExists env volume (docker.EnsureVolumeExists env volume s).2).2).countP
      (fun c => decide (c.op = .run ["docker", "volume", "create", volume]) &&
        decide (c.reply.err = none)) ≤ 1 ∧
    ((∀ w, (env.host (.run ["docker", "volume", "create", volume]) w).1.err = none) →
      (docker.EnsureVolumeExists env volume s).1 = none) := by
  have hne : Op.run ["docker", "volume", "inspect", volume] ≠
      Op.run ["docker", "volume", "create", volume] := by simp
  by_cases hI : (perform env (.run ["docker", "volume", "inspect", volume]) s).1.err = none
  · -- the volume is there at the first call
    have hF : docker.EnsureVolumeExists env volume s =
        (none, (perform env (.run ["docker", "volume", "inspect", volume]) s).2) := by
      rw [ensureVolumeExists_eq, if_pos hI]
    have hI2 : (perform env (.run ["docker", "volume", "inspect", volume])
        (perform env (.run ["docker", "volume", "inspect", volume]) s).2).1.err = none :=
      hstable s.world hI
    have hS : docker.EnsureVolumeExists env volume
        (perform env (.run ["docker", "volume", "inspect", volume]) s).2 =
        (none, (perform env (.run ["docker", "volume", "inspect", volume])
          (perform env (.run ["docker", "volume", "inspect", volume]) s).2).2) := by
      rw [ensureVolumeExists_eq, if_pos hI2]
    rw [hF]
    simp only
    rw [hS]
    have hcalls := callsSince_two env (.run ["docker", "volume", "inspect", volume])
      (.run ["docker", "volume", "inspect", volume]) s
    refine ⟨fun _ => ⟨by simp, ?_, ?_⟩, ?_, fun _ => by simp⟩
    · intro c hc
      rw [callsSince_perform] at hc
      simp only [List.mem_singleton] at hc
      rw [hc]
    · rw [hcalls]
      simp [List.countP_cons, hne]
    · rw [hcalls]
      simp [List.countP_cons, hne]
  · -- the volume is missing at the first call
    have hF : docker.EnsureVolumeExists env volume s =
        docker.CreateVolume env volume
          (perform env (.run ["docker", "volume", "inspect", volume]) s).2 := by
      rw [ensureVolumeExists_eq, if_neg hI]
    rw [hF, createVolume_eq]
    simp only
    by_cases hC : (perform env (.run ["docker", "volume", "create", volume])
        (perform env (.run ["docker", "volume", "inspect", volume]) s).2).1.err = none
    · -- and is created
      have hI2 : (perform env (.run ["docker", "volume", "inspect", volume])
          (perform env (.run ["docker", "volume", "create", volume])
            (perform env (.run ["docker", "volume", "inspect", volume]) s).2).2).1.err = none :=
        hcreate _ hC
      have hS : docker.EnsureVolumeExists env volume
          (perform env (.run ["docker", "volume", "create", volume])
            (perform env (.run ["docker", "volume", "inspect", volume]) s).2).2 =
          (none, (perform env (.run ["docker", "volume", "inspect", volume])
            (perform env (.run ["docker", "volume", "create", volume])
              (perform env (.run ["docker", "volume", "inspect", volume]) s).2).2).2) := by
        rw [ensureVolumeExists_eq, if_pos hI2]
      rw [hS]
      have hcalls := callsSince_three env (.run ["docker", "volume", "inspect", volume])
        (.run ["docker", "volume", "create", volume])
        (.run ["docker", "volume", "inspect", volume]) s
      refine ⟨fun _ => ⟨by simp, ?_, ?_⟩, ?_, fun _ => by simp [hC]⟩
      · intro c hc
        rw [callsSince_perform] at hc
        simp only [List.mem_singleton] at hc
        rw [hc]
      · rw [hcalls]
        simp [List.countP_cons, hne]
      · rw [hcalls]
        simp [List.countP_cons, hne, hC]
    · -- and its creation fails
      obtain ⟨e, he⟩ := Option.ne_none_iff_exists'.mp hC
      refine ⟨fun h => by simp [he] at h, ?_, fun hall => absurd (hall _) hC⟩
      obtain ⟨cs, hlog, hcs⟩ := ensureVolumeExists_log env volume
        (perform env (.run ["docker", "volume", "create", volume])
          (perform env (.run ["docker", "volume", "inspect", volume]) s).2).2
      have hcalls : callsSince s (docker.EnsureVolumeExists env volume
          (perform env (.run ["docker", "volume", "create", volume])
            (perform env (.run ["docker", "volume", "inspect", volume]) s).2).2).2 =
          ⟨.run ["docker", "volume", "inspect", volume],
              (perform env (.run ["docker", "volume", "inspect", volume]) s).1⟩ ::
            ⟨.run ["docker", "volume", "create", volume],
              (perform env (.run ["docker", "volume", "create", volume])
                (perform env (.run ["docker", "volume", "inspect", volume]) s).2).1⟩ :: cs := by
        apply callsSince_of_log
        rw [hlog]
        simp only [perform_log, List.append_assoc, List.singleton_append, List.cons_append,
          List.nil_append]
      rw [hcalls]
      rcases hcs with ⟨ri, rfl⟩ | ⟨ri, rc, rfl⟩
      · simp [List.countP_cons, hne, he]
      · simp only [List.countP_cons, List.countP_nil, hne, decide_False, Bool.false_and,
          Bool.false_eq_true, if_false, decide_True, Bool.true_and, he, zero_add]
        split <;> simp

theorem ensureVolumeExists_twice_witness :
    (docker.EnsureVolumeExists demoEnv "v" (demoStart [] true)).1 = none ∧
    (docker.EnsureVolumeExists demoEnv "v"
      (docker.EnsureVolumeExists demoEnv "v" (demoStart [] true)).2).1 = none ∧
    (callsSince (demoStart [] true)
        (docker.EnsureVolumeExists demoEnv "v"
          (docker.EnsureVolumeExists demoEnv "v" (demoStart [] true)).2).2).countP
      (fun c => decide (c.op = .run ["docker", "volume", "create", "v"])) ≤ 1 :=
  have h := ensureVolumeExists_twice demoEnv "v" (demoStart [] true)
    (by
      intro w _
      simp [demoEnv, demoHost])
    (by
      intro w h
      simp only [demoEnv, demoHost] at h ⊢
      split at h
      · rename_i hany
        simp [hany]
      · simp at h)
  ⟨by decide, (h.1 (by decide)).1, (h.1 (by decide)).2.2⟩

theorem ensureVolumeExists_ops {W : Type} (env : Env W) (volume : String) (t : St W) :
    opsOf (callsSince t (docker.EnsureVolumeExists env volume t).2) =
      if (perform env (.run ["docker", "volume", "inspect", volume]) t).1.err = none then
        [.run ["docker", "volume", "inspect", volume]]
      else
        [.run ["docker", "volume", "inspect", volume],
          .run ["docker", "volume", "create", volume]] := by
  rw [ensureVolumeExists_eq]
  by_cases h : (perform env (.run ["docker", "volume", "inspect", volume]) t).1.err = none
  · rw [if_pos h, if_pos h]
    simp only
    rw [callsSince_perform]
    rfl
  · rw [if_neg h, if_neg h, createVolume_eq]
    simp only
    rw [callsSince_two]
    rfl

theorem ensureVolumeExists_nil_iff {W : Type} (env : Env W) (volume : String) (s : St W) :
    (docker.EnsureVolumeExists env volume s).1 = none ↔
      ((perform env (.run ["docker", "volume", "inspect", volume]) s).1.err = none ∨
        (perform env (.run ["docker", "volume", "create", volume])
          (perform env (.run ["docker", "volume", "inspect", volume]) s).2).1.err = none) := by
  rw [ensureVolumeExists_eq]
  by_cases h : (perform env (.run ["docker", "volume", "inspect", volume]) s).1.err = none
  · rw [if_pos h]
    simp [h]
  · rw [if_neg h, createVolume_eq]
    simp [h]

theorem ensureVolumeExists_failure {W : Type} (env : Env W) (volume : String) (s : St W)
    (e : String) (h : (docker.EnsureVolumeExists env volume s).1 = some e) :
    (perform env (.run ["docker", "volume", "inspect", volume]) s).1.err ≠ none ∧
    docker.EnsureVolumeExists env volume s =
      docker.CreateVolume env volume
        (perform env (.run ["docker", "volume", "inspect", volume]) s).2 ∧
    (∃ err, (perform env (.run ["docker", "volume", "create", volume])
        (perform env (.run ["docker", "volume", "inspect", volume]) s).2).1.err = some err ∧
      e = "failed to create volume: " ++ err ++ ", output: " ++
        (perform env (.run ["docker", "volume", "create", volume])
          (perform env (.run ["docker", "volume", "inspect", volume]) s).2).1.output) ∧
    opsOf (callsSince s (docker.EnsureVolumeExists env volume s).2) =
      [.run ["docker", "volume", "inspect", volume],
        .run ["docker", "volume", "create", volume]] := by
  have hops := ensureVolumeExists_ops env volume s
  rw [ensureVolumeExists_eq] at h ⊢
  by_cases hI : (perform env (.run ["docker", "volume", "inspect", volume]) s).1.err = none
  · rw [if_pos hI] at h
    cases h
  · rw [if_neg hI] at h ⊢
    rw [if_neg hI] at hops
    refine ⟨hI, rfl, ?_, ?_⟩
    · rw [createVolume_eq] at h
      simp only [Option.map_eq_some'] at h
      obtain ⟨err, herr, he⟩ := h
      exact ⟨err, herr, he.symm⟩
    · rw [ensureVolumeExists_eq, if_neg hI] at hops
      exact hops

/-- Counterexample to C20 as stated, on two volume stores that meet its condition (a
successful `docker volume create` makes the next `docker volume inspect` succeed). On the
first store creating fails: both calls of `EnsureVolumeExists` return the creation error and
the second call runs `docker volume create` again. On the second store the volume is there
at the first call and gone at the second: both calls return nil, and the second call runs
`docker volume create`. -/
theorem C20_failed_creation_is_retried :
    ((∀ w, (noCreateHost (.run ["docker", "volume", "create", "v"]) w).1.err = none →
        (noCreateHost (.run ["docker", "volume", "inspect", "v"])
          (noCreateHost (.run ["docker", "volume", "create", "v"]) w).2).1.err = none) ∧
      (docker.EnsureVolumeExists (demoEnv.withHost noCreateHost) "v" (demoStart [] true)).1 =
        some "failed to create volume: exit status 1, output: " ∧
      (docker.EnsureVolumeExists (demoEnv.withHost noCreateHost) "v"
        (docker.EnsureVolumeExists (demoEnv.withHost noCreateHost) "v"
          (demoStart [] true)).2).1 =
        some "failed to create volume: exit status 1, output: " ∧
      opsOf (callsSince
          (docker.EnsureVolumeExists (demoEnv.withHost noCreateHost) "v" (demoStart [] true)).2
          (docker.EnsureVolumeExists (demoEnv.withHost noCreateHost) "v"
            (docker.EnsureVolumeExists (demoEnv.withHost noCreateHost) "v"
              (demoStart [] true)).2).2) =
        [.run ["docker", "volume", "inspect", "v"], .run ["docker", "volume", "create", "v"]]) ∧
    ((∀ w, (vanishingHost (.run ["docker", "volume", "create", "v"]) w).1.err = none →
        (vanishingHost (.run ["docker", "volume", "inspect", "v"])
          (vanishingHost (.run ["docker", "volume", "create", "v"]) w).2).1.err = none) ∧
      (docker.EnsureVolumeExists (demoEnv.withHost vanishingHost) "v"
        (demoStart [("v", [])] true)).1 = none ∧
      (docker.EnsureVolumeExists (demoEnv.withHost vanishingHost) "v"
        (docker.EnsureVolumeExists (demoEnv.withHost vanishingHost) "v"
          (demoStart [("v", [])] true)).2).1 = none ∧
      opsOf (callsSince
          (docker.EnsureVolumeExists (demoEnv.withHost vanishingHost) "v"
            (demoStart [("v", [])] true)).2
          (docker.EnsureVolumeExists (demoEnv.withHost vanishingHost) "v"
            (docker.EnsureVolumeExists (demoEnv.withHost vanishingHost) "v"
              (demoStart [("v", [])] true)).2).2) =
        [.run ["docker", "volume", "inspect", "v"],
          .run ["docker", "volume", "create", "v"]]) := by
  refine ⟨⟨?_, by decide, by decide, by decide⟩, ⟨?_, by decide, by decide, by decide⟩⟩
  · intro w h
    simp [noCreateHost] at h
  · intro w _
    simp [vanishingHost, demoHost]

/-- C20, amended: on a volume store where a successful `docker volume create` makes the
following `docker volume inspect` succeed and an inspection that succeeds keeps succeeding,
the first of two calls of `EnsureVolumeExists` in a row returns nil exactly when the volume
is there already or its creation succeeds; when it returns nil, the second call returns nil
as well and runs the inspection only, so `CreateVolume` runs at most once over the two
calls; at most one creation succeeds in any case; when the first call fails, the volume was
missing, the error is that of the failed creation, the call has run the inspection and the
creation, and the second call inspects again and runs the creation again when the volume is
still missing; and where creating always succeeds the first call returns nil. -/
theorem C20_EnsureVolumeExists_idempotent {W : Type} (env : Env W) (volume : String) (s : St W)
    (hcreate : ∀ w, (env.host (.run ["docker", "volume", "create", volume]) w).1.err = none →
      (env.host (.run ["docker", "volume", "inspect", volume])
        (env.host (.run ["docker", "volume", "create", volume]) w).2).1.err = none)
    (hstable : ∀ w, (env.host (.run ["docker", "volume", "inspect", volume]) w).1.err = none →
      (env.host (.run ["docker", "volume", "inspect", volume])
        (env.host (.run ["docker", "volume", "inspect", volume]) w).2).1.err = none) :
    ((docker.EnsureVolumeExists env volume s).1 = none ↔
      ((perform env (.run ["docker", "volume", "inspect", volume]) s).1.err = none ∨
        (perform env (.run ["docker", "volume", "create", volume])
          (perform env (.run ["docker", "volume", "inspect", volume]) s).2).1.err = none)) ∧
    ((docker.EnsureVolumeExists env volume s).1 = none →
      (docker.EnsureVolumeExists env volume (docker.EnsureVolumeExists env volume s).2).1 = none ∧
      opsOf (callsSince (docker.EnsureVolumeExists env volume s).2
          (docker.EnsureVolumeExists env volume (docker.EnsureVolumeExists env volume s).2).2) =
        [.run ["docker", "volume", "inspect", volume]] ∧
      (callsSince s
          (docker.EnsureVolumeExists env volume (docker.EnsureVolumeExists env volume s).2).2).countP
        (fun c => decide (c.op = .run ["docker", "volume", "create", volume])) ≤ 1) ∧
    (callsSince s
        (docker.EnsureVolumeExists env volume (docker.EnsureVolumeExists env volume s).2).2).countP
      (fun c => decide (c.op = .run ["docker", "volume", "create", volume]) &&
        decide (c.reply.err = none)) ≤ 1 ∧
    (∀ e, (docker.EnsureVolumeExists env volume s).1 = some e →
      (perform env (.run ["docker", "volume", "inspect", volume]) s).1.err ≠ none ∧
      (∃ err, (perform env (.run ["docker", "volume", "create", volume])
          (perform env (.run ["docker", "volume", "inspect", volume]) s).2).1.err = some err ∧
        e = "failed to create volume: " ++ err ++ ", output: " ++
          (perform env (.run ["docker", "volume", "create", volume])
            (perform env (.run ["docker", "volume", "inspect", volume]) s).2).1.output) ∧
      opsOf (callsSince s (docker.EnsureVolumeExists env volume s).2) =
        [.run ["docker", "volume", "inspect", volume],
          .run ["docker", "volume", "create", volume]] ∧
      opsOf (callsSince (docker.EnsureVolumeExists env volume s).2
          (docker.EnsureVolumeExists env volume (docker.EnsureVolumeExists env volume s).2).2) =
        if (perform env (.run ["docker", "volume", "inspect", volume])
            (docker.EnsureVolumeExists env volume s).2).1.err = none then
          [.run ["docker", "volume", "inspect", volume]]
        else
          [.run ["docker", "volume", "inspect", volume],
            .run ["docker", "volume", "create", volume]]) ∧
    ((∀ w, (env.host (.run ["docker", "volume", "create", volume]) w).1.err = none) →
      (docker.EnsureVolumeExists env volume s).1 = none) := by
  have hold := ensureVolumeExists_twice env volume s hcreate hstable
  refine ⟨ensureVolumeExists_nil_iff env volume s, ?_, hold.2.1, ?_, hold.2.2⟩
  · intro hnil
    obtain ⟨h2, honly, hcount⟩ := hold.1 hnil
    refine ⟨h2, ?_, hcount⟩
    have hops := ensureVolumeExists_ops env volume (docker.EnsureVolumeExists env volume s).2
    by_cases hI : (perform env (.run ["docker", "volume", "inspect", volume])
        (docker.EnsureVolumeExists env volume s).2).1.err = none
    · rw [if_pos hI] at hops
      exact hops
    · rw [if_neg hI] at hops
      have hmem : Op.run ["docker", "volume", "create", volume] ∈
          opsOf (callsSince (docker.EnsureVolumeExists env volume s).2
            (docker.EnsureVolumeExists env volume
              (docker.EnsureVolumeExists env volume s).2).2) := by
        rw [hops]
        simp
      simp only [opsOf, List.mem_map] at hmem
      obtain ⟨c, hc, hop⟩ := hmem
      have := honly c hc
      rw [this] at hop
      simp at hop
  · intro e he
    obtain ⟨h1, _, h3, h4⟩ := ensureVolumeExists_failure env volume s e he
    exact ⟨h1, h3, h4, ensureVolumeExists_ops env volume _⟩

theorem C20_EnsureVolumeExists_idempotent_witness :
    (docker.EnsureVolumeExists demoEnv "v" (demoStart [] true)).1 = none ∧
    (docker.EnsureVolumeExists demoEnv "v"
      (docker.EnsureVolumeExists demoEnv "v" (demoStart [] true)).2).1 = none ∧
    opsOf (callsSince (docker.EnsureVolumeExists demoEnv "v" (demoStart [] true)).2
        (docker.EnsureVolumeExists demoEnv "v"
          (docker.EnsureVolumeExists demoEnv "v" (demoStart [] true)).2).2) =
      [.run ["docker", "volume", "inspect", "v"]] ∧
    (callsSince (demoStart [] true)
        (docker.EnsureVolumeExists demoEnv "v"
          (docker.EnsureVolumeExists demoEnv "v" (demoStart [] true)).2).2).countP
      (fun c => decide (c.op = .run ["docker", "volume", "create", "v"])) ≤ 1 :=
  have h := C20_EnsureVolumeExists_idempotent demoEnv "v" (demoStart [] true)
    (by
      intro w _
      simp [demoEnv, demoHost])
    (by
      intro w h
      simp only [demoEnv, demoHost] at h ⊢
      split at h
      · rename_i hany
        simp [hany]
      · simp at h)
  ⟨by decide, (h.2.1 (by decide)).1, (h.2.1 (by decide)).2.1, (h.2.1 (by decide)).2.2⟩

/-! ## Validation and the first input or output -/

/-- Counterexample to C16 as stated: in a backup of the existing volume `data` to the bad file
path `../x`, and likewise to the bad remote path `s3://bucket-only`, the validation error is
returned after `NewBackup` has already run `docker volume inspect`. -/
theorem C16_backup_inspects_before_path_validation :
    docker.ValidateVolumeName "data" = none ∧
    operation.ValidateFilePath "../x" ≠ none ∧
    (cmd.mainBackup demoEnv "data" "../x" "gz" false
        (demoStart [("data", ["old.txt"])] true)).1 =
      some "path traversal not allowed in '../x'" ∧
    (cmd.mainBackup demoEnv "data" "../x" "gz" false
        (demoStart [("data", ["old.txt"])] true)).2.log.map Call.op =
      [.run ["docker", "volume", "inspect", "data"]] ∧
    s3.ValidatePath "s3://bucket-only" ≠ none ∧
    (cmd.mainBackup demoEnv "data" "s3://bucket-only" "gz" false
        (demoStart [("data", ["old.txt"])] true)).1 =
      some "invalid S3 path format: expected s3://bucket/key" ∧
    (cmd.mainBackup demoEnv "data" "s3://bucket-only" "gz" false
        (demoStart [("data", ["old.txt"])] true)).2.log.map Call.op =
      [.run ["docker", "volume", "inspect", "data"]] := by
  refine ⟨by decide, by decide, by decide, by decide, by decide, by decide, by decide⟩

theorem newBackup_cases {W : Type} (env : Env W) (volume compression : String)
    (showProgress : Bool) (s : St W) (hname : docker.ValidateVolumeName volume = none) :
    operation.NewBackup env volume compression showProgress s =
      if (perform env (.run ["docker", "volume", "inspect", volume]) s).1.err = none then
        ((some ⟨volume, compression, showProgress⟩, none),
          (perform env (.run ["docker", "volume", "inspect", volume]) s).2)
      else
        ((none, some ("volume '" ++ volume ++ "' does not exist")),
          (perform env (.run ["docker", "volume", "inspect", volume]) s).2) := by
  unfold operation.NewBackup
  rw [hname, volumeExists_eq]
  cases h : (perform env (.run ["docker", "volume", "inspect", volume]) s).1.err <;> simp

theorem newBackup_calls {W : Type} (env : Env W) (volume compression : String)
    (showProgress : Bool) (s : St W) (hname : docker.ValidateVolumeName volume = none) :
    callsSince s (operation.NewBackup env volume compression showProgress s).2 =
      [⟨.run ["docker", "volume", "inspect", volume],
        (perform env (.run ["docker", "volume", "inspect", volume]) s).1⟩] := by
  rw [newBackup_cases env volume compression showProgress s hname]
  split <;> exact callsSince_perform env _ s

/-- C16, amended: in every restore invocation a bad volume name, a file path that
`RestoreFromFile` refuses or a remote path that `RestoreFromS3` refuses (for its scheme, its
bucket or its key) is rejected before any input or output: `NewRestore` touches nothing at
all, and the validation error of either function comes back in the untouched start state.
In a backup invocation a bad volume name is rejected in the same way; a bad file path or
remote path is rejected by `BackupToFile` or `BackupToS3` without a call of their own, after
`NewBackup` has run its `docker volume inspect`: that inspection is the one call made. The
command line hands its argument to the S3 function exactly when it starts with `s3://`, and
to the file function otherwise. -/
theorem C16_validation_and_io {W : Type} (env : Env W) (volume target compress : String)
    (progress overwrite : Bool) (s : St W) :
    (∀ e, docker.ValidateVolumeName volume = some e →
      operation.NewRestore volume progress = (none, some e) ∧
      operation.NewBackup env volume compress progress s = ((none, some e), s) ∧
      cmd.mainRestore env target volume progress overwrite s = (some e, s) ∧
      cmd.mainBackup env volume target compress progress s = (some e, s)) ∧
    (∀ r e, operation.ValidateFilePath target = some e →
      operation.RestoreFromFile env r target overwrite s = (some e, s)) ∧
    (∀ r e, s3.ValidatePath target = some e →
      operation.RestoreFromS3 env r target overwrite s = (some e, s)) ∧
    (docker.ValidateVolumeName volume = none →
      operation.NewRestore volume progress = (some ⟨volume, progress⟩, none) ∧
      cmd.mainRestore env target volume progress overwrite s =
        if strings.HasPrefix target "s3://" = true then
          operation.RestoreFromS3 env ⟨volume, progress⟩ target overwrite s
        else
          operation.RestoreFromFile env ⟨volume, progress⟩ target overwrite s) ∧
    (docker.ValidateVolumeName volume = none →
      (∀ e, strings.HasPrefix target "s3://" = true → s3.ValidatePath target = some e →
        cmd.mainRestore env target volume progress overwrite s = (some e, s)) ∧
      (∀ e, strings.HasPrefix target "s3://" = false →
        operation.ValidateFilePath target = some e →
        cmd.mainRestore env target volume progress overwrite s = (some e, s))) ∧
    (∀ b t e, operation.ValidateFilePath target = some e →
      operation.BackupToFile env b target t = (some e, t)) ∧
    (∀ b t e, s3.ValidatePath target = some e →
      operation.BackupToS3 env b target t = (some e, t)) ∧
    (docker.ValidateVolumeName volume = none →
      callsSince s (operation.NewBackup env volume compress progress s).2 =
        [⟨.run ["docker", "volume", "inspect", volume],
          (perform env (.run ["docker", "volume", "inspect", volume]) s).1⟩] ∧
      ∀ b, (operation.NewBackup env volume compress progress s).1 = (some b, none) →
        (∀ e, operation.ValidateFilePath target = some e →
          (operation.BackupToFile env b target
              (operation.NewBackup env volume compress progress s).2).1 = some e ∧
          callsSince s (operation.BackupToFile env b target
              (operation.NewBackup env volume compress progress s).2).2 =
            [⟨.run ["docker", "volume", "inspect", volume],
              (perform env (.run ["docker", "volume", "inspect", volume]) s).1⟩]) ∧
        (∀ e, s3.ValidatePath target = some e →
          (operation.BackupToS3 env b target
              (operation.NewBackup env volume compress progress s).2).1 = some e ∧
          callsSince s (operation.BackupToS3 env b target
              (operation.NewBackup env volume compress progress s).2).2 =
            [⟨.run ["docker", "volume", "inspect", volume],
              (perform env (.run ["docker", "volume", "inspect", volume]) s).1⟩])) ∧
    (docker.ValidateVolumeName volume = none →
      ((strings.HasPrefix target "s3://" = true ∧ s3.ValidatePath target ≠ none) ∨
        (strings.HasPrefix target "s3://" = false ∧
          operation.ValidateFilePath target ≠ none)) →
      (cmd.mainBackup env volume target compress progress s).1 ≠ none ∧
      callsSince s (cmd.mainBackup env volume target compress progress s).2 =
        [⟨.run ["docker", "volume", "inspect", volume],
          (perform env (.run ["docker", "volume", "inspect", volume]) s).1⟩] ∧
      ((docker.VolumeExists env volume s).1.1 = true →
        (cmd.mainBackup env volume target compress progress s).1 =
          if strings.HasPrefix target "s3://" = true then s3.ValidatePath target
          else operation.ValidateFilePath target)) := by
  refine ⟨?_, ?_, ?_, ?_, ?_, ?_, ?_, ?_, ?_⟩
  · intro e he
    refine ⟨?_, ?_, ?_, ?_⟩
    · simp only [operation.NewRestore, he]
    · simp only [operation.NewBackup, he]
    · simp only [cmd.mainRestore, operation.NewRestore, he]
    · simp only [cmd.mainBackup, operation.NewBackup, he]
  · intro r e he
    simp only [operation.RestoreFromFile, he]
  · intro r e he
    simp only [operation.RestoreFromS3, he]
  · intro hname
    refine ⟨by simp only [operation.NewRestore, hname], ?_⟩
    simp only [cmd.mainRestore, operation.NewRestore, hname]
  · intro hname
    constructor
    · intro e hpre he
      simp only [cmd.mainRestore, operation.NewRestore, hname, hpre, if_true,
        operation.RestoreFromS3, he]
    · intro e hpre he
      simp only [cmd.mainRestore, operation.NewRestore, hname, hpre, Bool.false_eq_true,
        if_false, operation.RestoreFromFile, he]
  · intro b t e he
    simp only [operation.BackupToFile, he]
  · intro b t e he
    simp only [operation.BackupToS3, he]
  · intro hname
    have hcalls := newBackup_calls env volume compress progress s hname
    refine ⟨hcalls, ?_⟩
    intro b _
    constructor
    · intro e he
      simp only [operation.BackupToFile, he]
      exact ⟨trivial, hcalls⟩
    · intro e he
      simp only [operation.BackupToS3, he]
      exact ⟨trivial, hcalls⟩
  · intro hname hbad
    unfold cmd.mainBackup
    rw [newBackup_cases env volume compress progress s hname, volumeExists_eq]
    by_cases hI : (perform env (.run ["docker", "volume", "inspect", volume]) s).1.err = none
    · rw [if_pos hI]
      simp only [hI, Option.isNone_none]
      rcases hbad with ⟨hpre, hv⟩ | ⟨hpre, hv⟩
      · obtain ⟨e, he⟩ := Option.ne_none_iff_exists'.mp hv
        simp only [hpre, if_true, operation.BackupToS3, he]
        exact ⟨by simp, callsSince_perform env _ s, fun _ => trivial⟩
      · obtain ⟨e, he⟩ := Option.ne_none_iff_exists'.mp hv
        simp only [hpre, Bool.false_eq_true, if_false, operation.BackupToFile, he]
        exact ⟨by simp, callsSince_perform env _ s, fun _ => trivial⟩
    · rw [if_neg hI]
      refine ⟨by simp, callsSince_perform env _ s, ?_⟩
      intro hex
      cases h : (perform env (.run ["docker", "volume", "inspect", volume]) s).1.err with
      | none => exact absurd h hI
      | some e => simp [h] at hex

/-- A source without the scheme `s3://` is a file path to the command line: the string
`not-s3://bucket/key`, which `s3.ValidatePath` refuses, passes `ValidateFilePath` and is
handed to `RestoreFromFile`; with no such file on the host the restore fails at `os.Open`,
after the existing volume has been cleared. -/
theorem mainRestore_source_without_scheme :
    s3.ValidatePath "not-s3://bucket/key" ≠ none ∧
    operation.ValidateFilePath "not-s3://bucket/key" = none ∧
    strings.HasPrefix "not-s3://bucket/key" "s3://" = false ∧
    (cmd.mainRestore
        (demoEnv.withHost (failOn (fun op => op == .openFile "not-s3://bucket/key")
          "no such file or directory" demoHost))
        "not-s3://bucket/key" "data" false true (demoStart [("data", ["old.txt"])] true)).1 =
      some "failed to open backup file: no such file or directory" ∧
    (cmd.mainRestore
        (demoEnv.withHost (failOn (fun op => op == .openFile "not-s3://bucket/key")
          "no such file or directory" demoHost))
        "not-s3://bucket/key" "data" false true
        (demoStart [("data", ["old.txt"])] true)).2.log.map Call.op =
      [.run ["docker", "volume", "inspect", "data"], .run (docker.clearVolumeArgs "data"),
        .openFile "not-s3://bucket/key"] ∧
    (operation.RestoreFromS3 demoEnv ⟨"data", false⟩ "not-s3://bucket/key" true
        (demoStart [("data", ["old.txt"])] true)).1 = some "S3 path must start with s3://" ∧
    (operation.RestoreFromS3 demoEnv ⟨"data", false⟩ "not-s3://bucket/key" true
        (demoStart [("data", ["old.txt"])] true)).2.log = [] := by
  refine ⟨by decide, by decide, by decide, by decide, by decide, by decide, by decide⟩

/-! ## The transcode loop -/

theorem backupLoop_eq {W : Type} (env : Env W) (ending : GoError) (entries : List TarEntry)
    (s : St W) :
    operation.backupLoop env ending entries s = operation.restoreLoop env ending entries s := by
  induction entries generalizing s with
  | nil => rfl
  | cons entry rest ih =>
    simp only [operation.backupLoop, operation.restoreLoop, ih]

theorem transcoded_cons (e : TarEntry) (rest : List TarEntry) :
    spec.transcoded (e :: rest) =
      .writeHeader e.header ::
        ((if e.header.typeflag = tar.TypeReg then [.write e.body.data] else []) ++
          spec.transcoded rest) := by
  simp [spec.transcoded, List.flatMap_cons]

theorem copyEntry_trace {W : Type} (env : Env W) (body : ByteStream) (s : St W) :
    ∃ rep, (operation.copyEntry env body s).2.log = s.log ++ [⟨.write body.data, rep⟩] ∧
      (operation.copyEntry env body s).1 =
        (match rep.err with
          | some e => some e
          | none => body.err) := by
  unfold operation.copyEntry
  have hlog := perform_log env (.write body.data) s
  generalize perform env (.write body.data) s = res at hlog
  obtain ⟨rep, t⟩ := res
  refine ⟨rep, ?_, ?_⟩
  · cases h : rep.err <;> simpa [h] using hlog
  · cases h : rep.err <;> simp [h]

/-- The trace of the loop: the calls it makes, always a beginning of the transcoded sequence
and all of it when the loop ends without error. -/
theorem restoreLoop_trace {W : Type} (env : Env W) (ending : GoError) (entries : List TarEntry)
    (s : St W) :
    ∃ cs, (operation.restoreLoop env ending entries s).2.log = s.log ++ cs ∧
      opsOf cs <+: spec.transcoded entries ∧
      ((operation.restoreLoop env ending entries s).1 = none →
        opsOf cs = spec.transcoded entries ∧ ending = none ∧ ∀ c ∈ cs, c.reply.err = none) ∧
      ((∀ e ∈ entries, e.header.typeflag = tar.TypeReg → e.body.err = none) →
        (∀ c ∈ cs, c.reply.err = none) →
        opsOf cs = spec.transcoded entries ∧
        (operation.restoreLoop env ending entries s).1 =
          ending.map (fun err => "failed to read tar header: " ++ err)) := by
  induction entries generalizing s with
  | nil =>
    refine ⟨[], by cases ending <;> simp [operation.restoreLoop], ?_, ?_, ?_⟩
    · simp [opsOf, spec.transcoded]
    · intro h
      cases ending with
      | none => simp [opsOf, spec.transcoded]
      | some e => simp [operation.restoreLoop] at h
    · intro _ _
      cases ending <;> simp [opsOf, spec.transcoded, operation.restoreLoop]
  | cons entry rest ih =>
    unfold operation.restoreLoop
    rw [transcoded_cons]
    have hlog1 := perform_log env (.writeHeader entry.header) s
    generalize perform env (.writeHeader entry.header) s = res1 at hlog1
    obtain ⟨rep1, s1⟩ := res1
    simp only at hlog1
    cases hrep1 : rep1.err with
    | some e1 =>
      simp only [hrep1]
      refine ⟨[⟨.writeHeader entry.header, rep1⟩], hlog1, ?_, ?_, ?_⟩
      · simp [opsOf]
      · intro h
        cases h
      · intro _ hall
        have := hall ⟨.writeHeader entry.header, rep1⟩ (List.mem_singleton.mpr rfl)
        simp [hrep1] at this
    | none =>
      simp only [hrep1]
      by_cases hreg : entry.header.typeflag = tar.TypeReg
      · simp only [hreg, if_true]
        have hc := copyEntry_trace env entry.body s1
        generalize operation.copyEntry env entry.body s1 = res2 at hc
        obtain ⟨e2, s2⟩ := res2
        obtain ⟨rep2, hlog2, he2⟩ := hc
        simp only at hlog2 he2
        cases e2 with
        | some e =>
          simp only
          refine ⟨[⟨.writeHeader entry.header, rep1⟩, ⟨.write entry.body.data, rep2⟩],
            by rw [hlog2, hlog1]; simp, ?_, ?_, ?_⟩
          · simp [opsOf]
          · intro h
            cases h
          · intro hb hall
            have h2 := hall ⟨.write entry.body.data, rep2⟩ (by simp)
            have h3 := hb entry (List.mem_cons_self _ _) hreg
            simp only at h2
            rw [h2] at he2
            simp only [h3] at he2
            cases he2
        | none =>
          simp only
          have hrep2 : rep2.err = none := by
            cases h : rep2.err with
            | none => rfl
            | some x => rw [h] at he2; cases he2
          obtain ⟨cs, hcs, hpre, hok, hall⟩ := ih s2
          refine ⟨⟨.writeHeader entry.header, rep1⟩ :: ⟨.write entry.body.data, rep2⟩ :: cs,
            by rw [hcs, hlog2, hlog1]; simp, ?_, ?_, ?_⟩
          · simpa [opsOf] using hpre
          · intro h
            obtain ⟨h1, h2, h3⟩ := hok h
            refine ⟨by simpa [opsOf] using h1, h2, ?_⟩
            intro c hc
            simp only [List.mem_cons] at hc
            rcases hc with rfl | rfl | hc
            · exact hrep1
            · exact hrep2
            · exact h3 c hc
          · intro hb hrep
            obtain ⟨h1, h2⟩ := hall
              (fun e he => hb e (List.mem_cons_of_mem _ he))
              (fun c hc => hrep c (by simp [hc]))
            exact ⟨by simpa [opsOf] using h1, h2⟩
      · simp only [hreg, if_false, List.nil_append]
        obtain ⟨cs, hcs, hpre, hok, hall⟩ := ih s1
        refine ⟨⟨.writeHeader entry.header, rep1⟩ :: cs, by rw [hcs, hlog1]; simp, ?_, ?_, ?_⟩
        · simpa [opsOf] using hpre
        · intro h
          obtain ⟨h1, h2, h3⟩ := hok h
          refine ⟨by simpa [opsOf] using h1, h2, ?_⟩
          intro c hc
          simp only [List.mem_cons] at hc
          rcases hc with rfl | hc
          · exact hrep1
          · exact h3 c hc
        · intro hb hrep
          obtain ⟨h1, h2⟩ := hall
            (fun e he => hb e (List.mem_cons_of_mem _ he))
            (fun c hc => hrep c (by simp [hc]))
          exact ⟨by simpa [opsOf] using h1, h2⟩

theorem transcoded_all_writes (entries : List TarEntry) :
    ∀ op ∈ spec.transcoded entries, op.isSinkWrite = true := by
  intro op hop
  simp only [spec.transcoded, List.mem_flatMap, List.mem_cons] at hop
  obtain ⟨e, _, h | h⟩ := hop
  · subst h
    rfl
  · split at h
    · simp only [List.mem_singleton] at h
      subst h
      rfl
    · simp at h

theorem loop_calls_are_writes {cs : List Call} {entries : List TarEntry}
    (h : opsOf cs <+: spec.transcoded entries) : ∀ c ∈ cs, c.op.isSinkWrite = true := by
  intro c hc
  exact transcoded_all_writes entries c.op (h.subset (List.mem_map_of_mem Call.op hc))

theorem filter_writes_of_loop {cs : List Call} {entries : List TarEntry}
    (h : opsOf cs <+: spec.transcoded entries) :
    (opsOf cs).filter Op.isSinkWrite = opsOf cs := by
  rw [List.filter_eq_self]
  intro op hop
  exact transcoded_all_writes entries op (h.subset hop)

theorem isRun_of_write {op : Op} (h : op.isSinkWrite = true) : op.isRun = false := by
  cases op <;> first | rfl | cases h

theorem isWait_of_write {op : Op} (h : op.isSinkWrite = true) : op.isWait = false := by
  cases op <;> first | rfl | cases h

/-- The calls from the pipe to `cmd.Wait()`: `before` up to the start of the loop, the calls
of the loop, and `after` when the loop has ended without error. -/
theorem inContainerTrace_of_loop {W : Type} (env : Env W) (src : TarSource) (t : St W)
    (before closing : List Call) (waitCall : Call) (cs : List Call)
    (hlog : (operation.restoreLoop env src.ending src.entries t).2.log = t.log ++ cs)
    (hbefore : ∀ c ∈ before, c.op.isRun = false ∧ c.op.isSinkWrite = false ∧ c.op.isWait = false)
    (hclosing : ∀ c ∈ closing, c.op.isRun = false ∧ c.op.isSinkWrite = false ∧
      c.op.isWait = false)
    (hwait : waitCall.op.isWait = true ∧ waitCall.op.isRun = false ∧
      waitCall.op.isSinkWrite = false) :
    (∀ err, (operation.restoreLoop env src.ending src.entries t).1 = some err →
      InContainerTrace src (some err) (before ++ cs)) ∧
    ((operation.restoreLoop env src.ending src.entries t).1 = none →
      InContainerTrace src (waitCall.reply.err.map (fun err => "docker cp failed: " ++ err))
        (before ++ cs ++ closing ++ [waitCall])) := by
  obtain ⟨cs2, hcs2, hpre, hok, hall⟩ := restoreLoop_trace env src.ending src.entries t
  have hcs : cs = cs2 := List.append_cancel_left (hlog.symm.trans hcs2)
  subst hcs
  have hfb : (opsOf before).filter Op.isSinkWrite = [] := by
    rw [List.filter_eq_nil_iff]
    intro op hop
    obtain ⟨c, hc, rfl⟩ := List.mem_map.mp hop
    simp [(hbefore c hc).2.1]
  have hfc : (opsOf closing).filter Op.isSinkWrite = [] := by
    rw [List.filter_eq_nil_iff]
    intro op hop
    obtain ⟨c, hc, rfl⟩ := List.mem_map.mp hop
    simp [(hclosing c hc).2.1]
  have hfl := filter_writes_of_loop hpre
  have hw := loop_calls_are_writes hpre
  constructor
  · intro err herr
    refine ⟨?_, ?_, ?_, ?_, ?_⟩
    · intro c hc
      rcases List.mem_append.mp hc with h | h
      · exact (hbefore c h).1
      · exact isRun_of_write (hw c h)
    · simp only [opsOf, List.map_append, List.filter_append] at hfb hfl ⊢
      rw [hfb, hfl]
      simpa [opsOf] using hpre
    · intro h
      cases h
    · intro c hc hwc
      rcases List.mem_append.mp hc with h | h
      · rw [(hbefore c h).2.2] at hwc
        cases hwc
      · rw [isWait_of_write (hw c h)] at hwc
        cases hwc
    · intro e2 he2 hb hrep
      obtain ⟨h1, h2⟩ := hall hb (fun c hc => hrep c (List.mem_append_right _ hc))
      rw [herr, he2] at h2
      refine ⟨by simpa using h2, ?_⟩
      simp only [opsOf, List.map_append, List.filter_append] at hfb hfl ⊢
      rw [hfb, hfl]
      simpa [opsOf] using h1
  · intro hnone
    obtain ⟨h1, h2, h3⟩ := hok hnone
    have hfilter : (opsOf (before ++ cs ++ closing ++ [waitCall])).filter Op.isSinkWrite =
        spec.transcoded src.entries := by
      simp only [opsOf, List.map_append, List.filter_append, List.map_cons, List.map_nil,
        List.filter_cons, List.filter_nil, hwait.2.2] at hfb hfl hfc ⊢
      rw [hfb, hfl, hfc]
      simpa [opsOf] using h1
    refine ⟨?_, ?_, ?_, ?_, ?_⟩
    · intro c hc
      simp only [List.mem_append, List.mem_singleton] at hc
      rcases hc with ((h | h) | h) | h
      · exact (hbefore c h).1
      · exact isRun_of_write (hw c h)
      · exact (hclosing c h).1
      · subst h
        exact hwait.2.1
    · rw [hfilter]
    · intro he
      refine ⟨h2, hfilter, waitCall, by simp, hwait.1, ?_⟩
      cases hwe : waitCall.reply.err with
      | none => rfl
      | some x => rw [hwe] at he; cases he
    · intro c hc hwc
      simp only [List.mem_append, List.mem_singleton] at hc
      rcases hc with ((h | h) | h) | h
      · rw [(hbefore c h).2.2] at hwc
        cases hwc
      · rw [isWait_of_write (hw c h)] at hwc
        cases hwc
      · rw [(hclosing c h).2.2] at hwc
        cases hwc
      · subst h
        rfl
    · intro e2 he2 _ _
      rw [h2] at he2
      cases he2

theorem inContainerTrace_early (src : TarSource) (e : String) (mid : List Call)
    (hops : ∀ c ∈ mid, c.op.isRun = false ∧ c.op.isSinkWrite = false ∧ c.op.isWait = false)
    (hbad : ∃ c ∈ mid, c.reply.err ≠ none) : InContainerTrace src (some e) mid := by
  have hf : (opsOf mid).filter Op.isSinkWrite = [] := by
    rw [List.filter_eq_nil_iff]
    intro op hop
    obtain ⟨c, hc, rfl⟩ := List.mem_map.mp hop
    simp [(hops c hc).2.1]
  refine ⟨fun c hc => (hops c hc).1, by rw [hf]; exact List.nil_prefix, ?_, ?_, ?_⟩
  · intro h
    cases h
  · intro c hc hw
    rw [(hops c hc).2.2] at hw
    cases hw
  · intro _ _ _ hrep
    obtain ⟨c, hc, hne⟩ := hbad
    exact absurd (hrep c hc) hne

theorem runRestoreInContainer_shape {W : Type} (env : Env W) (r : operation.Restore)
    (src : TarSource) (s : St W) :
    ∃ c0 rest, c0.op = .run ["docker", "create", "-v", r.volume ++ ":/data", "alpine", "true"] ∧
      (operation.runRestoreInContainer env r src s).2.log = s.log ++ c0 :: rest ∧
      ((c0.reply.err ≠ none ∧ rest = [] ∧ (operation.runRestoreInContainer env r src s).1 ≠ none) ∨
       (c0.reply.err = none ∧ ∃ mid rmrep,
          rest = mid ++ [⟨.run ["docker", "rm", strings.TrimSpace c0.reply.output], rmrep⟩] ∧
          InContainerTrace src (operation.runRestoreInContainer env r src s).1 mid)) := by
  unfold operation.runRestoreInContainer docker.CreateContainerWithVolume
  have hlog0 := perform_log env
    (.run ["docker", "create", "-v", r.volume ++ ":/data", "alpine", "true"]) s
  generalize perform env
    (.run ["docker", "create", "-v", r.volume ++ ":/data", "alpine", "true"]) s = res0 at hlog0
  obtain ⟨rep0, s0⟩ := res0
  simp only at hlog0
  cases h0 : rep0.err with
  | some e0 =>
    simp only [h0]
    exact ⟨⟨_, rep0⟩, [], rfl, hlog0, Or.inl ⟨by simp [h0], rfl, by simp⟩⟩
  | none =>
    simp only [h0, deferred, docker.RemoveContainer]
    have hlog2 := perform_log env (.stdinPipe (operation.restoreCpArgs
        (strings.TrimSpace rep0.output))) s0
    generalize perform env (.stdinPipe (operation.restoreCpArgs
        (strings.TrimSpace rep0.output))) s0 = res2 at hlog2
    obtain ⟨rep2, s2⟩ := res2
    simp only at hlog2
    cases h2 : rep2.err with
    | some e2 =>
      simp only [h2]
      refine ⟨⟨_, rep0⟩, _, rfl, ?_, Or.inr ⟨h0, [⟨.stdinPipe (operation.restoreCpArgs
          (strings.TrimSpace rep0.output)), rep2⟩],
        (perform env (.run ["docker", "rm", strings.TrimSpace rep0.output]) s2).1, rfl, ?_⟩⟩
      · simp [perform_log, hlog2, hlog0]
      · apply inContainerTrace_early
        · simp [Op.isRun, Op.isSinkWrite, Op.isWait]
        · exact ⟨_, List.mem_singleton.mpr rfl, by simp [h2]⟩
    | none =>
      simp only [h2]
      have hlog3 := perform_log env (.start (operation.restoreCpArgs
          (strings.TrimSpace rep0.output))) s2
      generalize perform env (.start (operation.restoreCpArgs
          (strings.TrimSpace rep0.output))) s2 = res3 at hlog3
      obtain ⟨rep3, s3⟩ := res3
      simp only at hlog3
      cases h3 : rep3.err with
      | some e3 =>
        simp only [h3]
        refine ⟨⟨_, rep0⟩, _, rfl, ?_, Or.inr ⟨h0,
          [⟨.stdinPipe (operation.restoreCpArgs (strings.TrimSpace rep0.output)), rep2⟩, ⟨.start
              (operation.restoreCpArgs (strings.TrimSpace rep0.output)), rep3⟩], (perform env (.run
              ["docker", "rm", strings.TrimSpace rep0.output]) s3).1, rfl, ?_⟩⟩
        · simp [perform_log, hlog3, hlog2, hlog0]
        · apply inContainerTrace_early
          · simp [Op.isRun, Op.isSinkWrite, Op.isWait]
          · exact ⟨⟨.start (operation.restoreCpArgs (strings.TrimSpace rep0.output)), rep3⟩,
              by simp, by simp [h3]⟩
      | none =>
        simp only [h3]
        obtain ⟨cs, hcs, -⟩ := restoreLoop_trace env src.ending src.entries s3
        have hT := inContainerTrace_of_loop env src s3
          [⟨.stdinPipe (operation.restoreCpArgs (strings.TrimSpace rep0.output)), rep2⟩, ⟨.start
              (operation.restoreCpArgs (strings.TrimSpace rep0.output)), rep3⟩]
          [⟨.closeTar, (perform env .closeTar
              (operation.restoreLoop env src.ending src.entries s3).2).1⟩,
            ⟨.closePipe, (perform env .closePipe (perform env .closeTar
              (operation.restoreLoop env src.ending src.entries s3).2).2).1⟩]
          ⟨.wait (operation.restoreCpArgs (strings.TrimSpace rep0.output)),
            (perform env (.wait (operation.restoreCpArgs (strings.TrimSpace rep0.output)))
              (perform env .closePipe (perform env .closeTar
                (operation.restoreLoop env src.ending src.entries s3).2).2).2).1⟩
          cs hcs (by simp [Op.isRun, Op.isSinkWrite, Op.isWait])
          (by simp [Op.isRun, Op.isSinkWrite, Op.isWait])
          (by simp [Op.isRun, Op.isSinkWrite, Op.isWait])
        generalize operation.restoreLoop env src.ending src.entries s3 = resL at hcs hT
        obtain ⟨eL, s4⟩ := resL
        simp only at hcs hT
        cases eL with
        | some e4 =>
          simp only
          refine ⟨⟨_, rep0⟩, _, rfl, ?_, Or.inr ⟨h0, _, (perform env (.run ["docker", "rm",
              strings.TrimSpace rep0.output]) s4).1, rfl,
            hT.1 e4 rfl⟩⟩
          simp [perform_log, hcs, hlog3, hlog2, hlog0]
        | none =>
          simp only
          have hT2 := hT.2 rfl
          cases hw : (perform env (.wait (operation.restoreCpArgs (strings.TrimSpace rep0.output)))
              (perform env .closePipe (perform env .closeTar s4).2).2).1.err with
          | some e5 =>
            simp only [hw, Option.map_some'] at hT2 ⊢
            refine ⟨⟨_, rep0⟩, _, rfl, ?_, Or.inr ⟨h0, _,
              (perform env (.run ["docker", "rm", strings.TrimSpace rep0.output]) (perform env
                  (.wait (operation.restoreCpArgs (strings.TrimSpace rep0.output)))
                (perform env .closePipe (perform env .closeTar s4).2).2).2).1, rfl, hT2⟩⟩
            simp [perform_log, hcs, hlog3, hlog2, hlog0]
          | none =>
            simp only [hw, Option.map_none'] at hT2 ⊢
            refine ⟨⟨_, rep0⟩, _, rfl, ?_, Or.inr ⟨h0, _,
              (perform env (.run ["docker", "rm", strings.TrimSpace rep0.output]) (perform env
                  (.wait (operation.restoreCpArgs (strings.TrimSpace rep0.output)))
                (perform env .closePipe (perform env .closeTar s4).2).2).2).1, rfl, hT2⟩⟩
            simp [perform_log, hcs, hlog3, hlog2, hlog0]

theorem runBackupInContainer_shape {W : Type} (env : Env W) (b : operation.Backup) (s : St W) :
    ∃ c0 rest, c0.op = .run ["docker", "create", "-v", b.volume ++ ":/data", "alpine", "true"] ∧
      (operation.runBackupInContainer env b s).2.log = s.log ++ c0 :: rest ∧
      ((c0.reply.err ≠ none ∧ rest = [] ∧ (operation.runBackupInContainer env b s).1 ≠ none) ∨
       (c0.reply.err = none ∧ ∃ mid rmrep src,
          rest = mid ++ [⟨.run ["docker", "rm", strings.TrimSpace c0.reply.output], rmrep⟩] ∧
          (∀ c ∈ mid, ∀ argv, c.op = .start argv → c.reply.err = none →
            env.tarReader c.reply.content = src) ∧
          InContainerTrace src (operation.runBackupInContainer env b s).1 mid ∧
          ((operation.runBackupInContainer env b s).1 = none →
            ∃ c ∈ mid, ∃ argv, c.op = .start argv ∧ c.reply.err = none))) := by
  unfold operation.runBackupInContainer docker.CreateContainerWithVolume
  have hlog0 := perform_log env
    (.run ["docker", "create", "-v", b.volume ++ ":/data", "alpine", "true"]) s
  generalize perform env
    (.run ["docker", "create", "-v", b.volume ++ ":/data", "alpine", "true"]) s = res0 at hlog0
  obtain ⟨rep0, s0⟩ := res0
  simp only at hlog0
  cases h0 : rep0.err with
  | some e0 =>
    simp only [h0]
    exact ⟨⟨_, rep0⟩, [], rfl, hlog0, Or.inl ⟨by simp [h0], rfl, by simp⟩⟩
  | none =>
    simp only [h0, deferred, docker.RemoveContainer, backupLoop_eq]
    have hlog2 := perform_log env (.stdoutPipe (operation.backupCpArgs
        (strings.TrimSpace rep0.output))) s0
    generalize perform env (.stdoutPipe (operation.backupCpArgs
        (strings.TrimSpace rep0.output))) s0 = res2 at hlog2
    obtain ⟨rep2, s2⟩ := res2
    simp only at hlog2
    cases h2 : rep2.err with
    | some e2 =>
      simp only [h2]
      refine ⟨⟨_, rep0⟩, _, rfl, ?_, Or.inr ⟨h0, [⟨.stdoutPipe (operation.backupCpArgs
          (strings.TrimSpace rep0.output)), rep2⟩],
        (perform env (.run ["docker", "rm", strings.TrimSpace rep0.output]) s2).1, ⟨[], none⟩, rfl,
            ?_, ?_, fun h => absurd h (by simp)⟩⟩
      · simp [perform_log, hlog2, hlog0]
      · simp
      · apply inContainerTrace_early
        · simp [Op.isRun, Op.isSinkWrite, Op.isWait]
        · exact ⟨_, List.mem_singleton.mpr rfl, by simp [h2]⟩
    | none =>
      simp only [h2]
      have hlog3 := perform_log env (.start (operation.backupCpArgs
          (strings.TrimSpace rep0.output))) s2
      generalize perform env (.start (operation.backupCpArgs (strings.TrimSpace rep0.output))) s2 =
          res3 at hlog3
      obtain ⟨rep3, s3⟩ := res3
      simp only at hlog3
      cases h3 : rep3.err with
      | some e3 =>
        simp only [h3]
        refine ⟨⟨_, rep0⟩, _, rfl, ?_, Or.inr ⟨h0,
          [⟨.stdoutPipe (operation.backupCpArgs (strings.TrimSpace rep0.output)), rep2⟩, ⟨.start
              (operation.backupCpArgs (strings.TrimSpace rep0.output)), rep3⟩], (perform env (.run
              ["docker", "rm", strings.TrimSpace rep0.output]) s3).1, ⟨[], none⟩,
          rfl, ?_, ?_, fun h => absurd h (by simp)⟩⟩
        · simp [perform_log, hlog3, hlog2, hlog0]
        · simp [h3]
        · apply inContainerTrace_early
          · simp [Op.isRun, Op.isSinkWrite, Op.isWait]
          · exact ⟨⟨.start (operation.backupCpArgs (strings.TrimSpace rep0.output)), rep3⟩,
              by simp, by simp [h3]⟩
      | none =>
        simp only [h3]
        obtain ⟨cs, hcs, hpre, -⟩ := restoreLoop_trace env (env.tarReader rep3.content).ending
          (env.tarReader rep3.content).entries s3
        have hwr := loop_calls_are_writes hpre
        have hT := inContainerTrace_of_loop env (env.tarReader rep3.content) s3
          [⟨.stdoutPipe (operation.backupCpArgs (strings.TrimSpace rep0.output)), rep2⟩, ⟨.start
              (operation.backupCpArgs (strings.TrimSpace rep0.output)), rep3⟩] []
          ⟨.wait (operation.backupCpArgs (strings.TrimSpace rep0.output)),
            (perform env (.wait (operation.backupCpArgs (strings.TrimSpace rep0.output)))
              (operation.restoreLoop env (env.tarReader rep3.content).ending
                (env.tarReader rep3.content).entries s3).2).1⟩
          cs hcs (by simp [Op.isRun, Op.isSinkWrite, Op.isWait])
          (by simp)
          (by simp [Op.isRun, Op.isSinkWrite, Op.isWait])
        generalize operation.restoreLoop env (env.tarReader rep3.content).ending
          (env.tarReader rep3.content).entries s3 = resL at hcs hT
        obtain ⟨eL, s4⟩ := resL
        simp only [List.append_nil] at hcs hT
        have hstart : ∀ c ∈ cs, ∀ argv, c.op = .start argv → c.reply.err = none →
            env.tarReader c.reply.content = env.tarReader rep3.content := by
          intro c hc argv hop
          have := hwr c hc
          rw [hop] at this
          cases this
        cases eL with
        | some e4 =>
          simp only
          refine ⟨⟨_, rep0⟩, _, rfl, ?_, Or.inr ⟨h0, _, (perform env (.run ["docker", "rm",
              strings.TrimSpace rep0.output]) s4).1,
            env.tarReader rep3.content, rfl, ?_, hT.1 e4 rfl, fun h => absurd h (by simp)⟩⟩
          · simp [perform_log, hcs, hlog3, hlog2, hlog0]
          · intro c hc argv hop herr
            simp only [List.mem_append, List.mem_cons, List.mem_singleton,
              List.not_mem_nil, or_false] at hc
            rcases hc with (rfl | rfl) | hc
            · cases hop
            · rfl
            · exact hstart c hc argv hop herr
        | none =>
          simp only
          have hT2 := hT.2 rfl
          have hmid : ∀ c ∈ [⟨.stdoutPipe (operation.backupCpArgs (strings.TrimSpace rep0.output)),
              rep2⟩, ⟨.start (operation.backupCpArgs (strings.TrimSpace rep0.output)), rep3⟩] ++ cs
              ++
              [(⟨.wait (operation.backupCpArgs (strings.TrimSpace rep0.output)), (perform env
                  (.wait (operation.backupCpArgs (strings.TrimSpace rep0.output))) s4).1⟩ : Call)],
                  ∀ argv,
              c.op = .start argv → c.reply.err = none →
              env.tarReader c.reply.content = env.tarReader rep3.content := by
            intro c hc argv hop herr
            simp only [List.mem_append, List.mem_cons, List.mem_singleton,
              List.not_mem_nil, or_false] at hc
            rcases hc with ((rfl | rfl) | hc) | rfl
            · cases hop
            · rfl
            · exact hstart c hc argv hop herr
            · cases hop
          cases hw : (perform env (.wait (operation.backupCpArgs
              (strings.TrimSpace rep0.output))) s4).1.err with
          | some e5 =>
            simp only [hw, Option.map_some'] at hT2 ⊢
            refine ⟨⟨_, rep0⟩, _, rfl, ?_, Or.inr ⟨h0, _,
              (perform env (.run ["docker", "rm", strings.TrimSpace rep0.output]) (perform env
                  (.wait (operation.backupCpArgs (strings.TrimSpace rep0.output))) s4).2).1,
              env.tarReader rep3.content, rfl, hmid, hT2, fun h => absurd h (by simp)⟩⟩
            simp [perform_log, hcs, hlog3, hlog2, hlog0]
          | none =>
            simp only [hw, Option.map_none'] at hT2 ⊢
            refine ⟨⟨_, rep0⟩, _, rfl, ?_, Or.inr ⟨h0, _,
              (perform env (.run ["docker", "rm", strings.TrimSpace rep0.output]) (perform env
                  (.wait (operation.backupCpArgs (strings.TrimSpace rep0.output))) s4).2).1,
              env.tarReader rep3.content, rfl, hmid, hT2,
              fun _ => ⟨⟨.start (operation.backupCpArgs (strings.TrimSpace rep0.output)), rep3⟩,
                  by simp, _, rfl, h3⟩⟩⟩
            simp [perform_log, hcs, hlog3, hlog2, hlog0]

/-! ## The run with the temporary container -/

theorem countP_beside (volume : String) (cs : List Call) (id : String)
    (h : ∀ c ∈ cs, c.op.besideContainer volume) :
    cs.countP (fun k => decide (k.op = .run ["docker", "rm", id])) = 0 := by
  rw [List.countP_eq_zero]
  intro c hc
  simpa using (h c hc).2.2 id

theorem containerTrace_frame (volume : String) (e : GoError) (pre cs post : List Call)
    (hpre : ∀ c ∈ pre, c.op.besideContainer volume)
    (hpost : ∀ c ∈ post, c.op.besideContainer volume)
    (h : ContainerTrace volume e cs) : ContainerTrace volume e (pre ++ cs ++ post) := by
  obtain ⟨hw, hn, hr⟩ := h
  refine ⟨?_, ?_, ?_⟩
  · intro c hc hwc
    simp only [List.mem_append] at hc
    rcases hc with (h | h) | h
    · rw [(hpre c h).1] at hwc
      cases hwc
    · exact hw c h hwc
    · rw [(hpost c h).1] at hwc
      cases hwc
  · intro he
    obtain ⟨c, hc, h1, h2⟩ := hn he
    exact ⟨c, by simp [hc], h1, h2⟩
  · intro c hc hop herr
    simp only [List.mem_append] at hc
    rcases hc with (h | h) | h
    · exact absurd hop (hpre c h).2.1
    · rw [List.countP_append, List.countP_append, countP_beside volume pre _ hpre,
        countP_beside volume post _ hpost, hr c h hop herr]
    · exact absurd hop (hpost c h).2.1

theorem containerTrace_failed (volume : String) (e : String) (cs : List Call)
    (h : ∀ c ∈ cs, c.op.besideContainer volume) : ContainerTrace volume (some e) cs := by
  refine ⟨?_, ?_, ?_⟩
  · intro c hc hwc
    rw [(h c hc).1] at hwc
    cases hwc
  · intro he
    cases he
  · intro c hc hop
    exact absurd hop (h c hc).2.1

theorem tracedRun_before {W : Type} (volume : String) {s t : St W} {res : GoError × St W}
    (pre : List Call) (hlog : t.log = s.log ++ pre)
    (hpre : ∀ c ∈ pre, c.op.besideContainer volume) (h : TracedRun volume t res) :
    TracedRun volume s res := by
  obtain ⟨cs, hcs, hct⟩ := h
  refine ⟨pre ++ cs ++ [], by rw [hcs, hlog]; simp, ?_⟩
  exact containerTrace_frame volume res.1 pre cs [] hpre (by simp) hct

theorem tracedRun_after {W : Type} (volume : String) {s : St W} {res : GoError × St W}
    (u : St W) (post : List Call) (hlog : u.log = res.2.log ++ post)
    (hpost : ∀ c ∈ post, c.op.besideContainer volume) (h : TracedRun volume s res) :
    TracedRun volume s (res.1, u) := by
  obtain ⟨cs, hcs, hct⟩ := h
  refine ⟨[] ++ cs ++ post, by simp only [hlog, hcs]; simp, ?_⟩
  exact containerTrace_frame volume res.1 [] cs post (by simp) hpost hct

theorem tracedRun_failed {W : Type} (volume : String) (s t : St W) (e : String)
    (cs : List Call) (hlog : t.log = s.log ++ cs)
    (h : ∀ c ∈ cs, c.op.besideContainer volume) : TracedRun volume s (some e, t) :=
  ⟨cs, hlog, containerTrace_failed volume e cs h⟩

theorem tracedRun_deferred {W : Type} (env : Env W) (volume : String) (op : Op) {s : St W}
    {res : GoError × St W} (hop : op.besideContainer volume) (h : TracedRun volume s res) :
    TracedRun volume s (deferred (fun t => (perform env op t).2) res) :=
  tracedRun_after volume _ [⟨op, (perform env op res.2).1⟩] (perform_log env op res.2)
    (by simpa using hop) h

theorem tracedRun_before_perform {W : Type} (env : Env W) (volume : String) (op : Op)
    (s : St W) (res : GoError × St W) (hop : op.besideContainer volume)
    (h : TracedRun volume (perform env op s).2 res) : TracedRun volume s res :=
  tracedRun_before volume [⟨op, (perform env op s).1⟩] (perform_log env op s)
    (by simpa using hop) h

theorem inContainer_containerTrace (volume : String) (src : TarSource) (e : GoError)
    (c0 : Call) (mid : List Call) (rmrep : Reply)
    (hop : c0.op = .run ["docker", "create", "-v", volume ++ ":/data", "alpine", "true"])
    (h : InContainerTrace src e mid) :
    ContainerTrace volume e
      (c0 :: (mid ++ [⟨.run ["docker", "rm", strings.TrimSpace c0.reply.output], rmrep⟩])) := by
  obtain ⟨hrun, -, hnone, hwait, -⟩ := h
  have hmid : ∀ id, mid.countP (fun k => decide (k.op = .run ["docker", "rm", id])) = 0 := by
    intro id
    rw [List.countP_eq_zero]
    intro c hc
    have := hrun c hc
    intro h
    simp only [decide_eq_true_eq] at h
    rw [h] at this
    cases this
  refine ⟨?_, ?_, ?_⟩
  · intro c hc hwc
    simp only [List.mem_cons, List.mem_append, List.mem_singleton, List.not_mem_nil,
      or_false] at hc
    rcases hc with rfl | h | rfl
    · rw [hop] at hwc
      cases hwc
    · exact hwait c h hwc
    · cases hwc
  · intro he
    obtain ⟨_, _, c, hc, h1, h2⟩ := hnone he
    exact ⟨c, by simp [hc], h1, h2⟩
  · intro c hc hopc herr
    simp only [List.mem_cons, List.mem_append, List.mem_singleton, List.not_mem_nil,
      or_false] at hc
    rcases hc with rfl | h | rfl
    · rw [List.countP_cons, List.countP_append, hmid]
      simp [hop]
    · have := hrun c h
      rw [hopc] at this
      cases this
    · simp at hopc

theorem runRestoreInContainer_traced {W : Type} (env : Env W) (r : operation.Restore)
    (src : TarSource) (s : St W) :
    TracedRun r.volume s (operation.runRestoreInContainer env r src s) := by
  obtain ⟨c0, rest, hop, hlog, h | h⟩ := runRestoreInContainer_shape env r src s
  · obtain ⟨herr, rfl, hne⟩ := h
    refine ⟨[c0], hlog, ?_, fun he => absurd he hne, ?_⟩
    · intro c hc hwc
      rw [List.mem_singleton.mp hc, hop] at hwc
      cases hwc
    · intro c hc _ hce
      rw [List.mem_singleton.mp hc] at hce
      exact absurd hce herr
  · obtain ⟨_, mid, rmrep, rfl, ht⟩ := h
    exact ⟨_, hlog, inContainer_containerTrace r.volume src _ c0 mid rmrep hop ht⟩

theorem runBackupInContainer_traced {W : Type} (env : Env W) (b : operation.Backup)
    (s : St W) : TracedRun b.volume s (operation.runBackupInContainer env b s) := by
  obtain ⟨c0, rest, hop, hlog, h | h⟩ := runBackupInContainer_shape env b s
  · obtain ⟨herr, rfl, hne⟩ := h
    refine ⟨[c0], hlog, ?_, fun he => absurd he hne, ?_⟩
    · intro c hc hwc
      rw [List.mem_singleton.mp hc, hop] at hwc
      cases hwc
    · intro c hc _ hce
      rw [List.mem_singleton.mp hc] at hce
      exact absurd hce herr
  · obtain ⟨_, mid, rmrep, src, rfl, _, ht, _⟩ := h
    exact ⟨_, hlog, inContainer_containerTrace b.volume src _ c0 mid rmrep hop ht⟩

theorem runRestoreFromFile_traced {W : Type} (env : Env W) (r : operation.Restore)
    (src : String) (s : St W) :
    TracedRun r.volume s (operation.runRestoreFromFile env r src s) := by
  unfold operation.runRestoreFromFile
  have hlog1 := perform_log env (.openFile src) s
  have hb1 : ∀ c ∈ [(⟨.openFile src, (perform env (.openFile src) s).1⟩ : Call)],
      c.op.besideContainer r.volume := by
    simp [Op.besideContainer, Op.isWait]
  generalize perform env (.openFile src) s = res1 at hlog1 hb1
  obtain ⟨rep1, s1⟩ := res1
  simp only at hlog1 hb1
  cases hrep1 : rep1.err with
  | some e =>
    simp only [hrep1]
    exact tracedRun_failed r.volume s s1 _ _ hlog1 hb1
  | none =>
    simp only [hrep1]
    refine tracedRun_deferred env r.volume (.close src)
      (by simp [Op.besideContainer, Op.isWait]) ?_
    cases rw.CreateReader env.lib rep1.content src with
    | error e => exact tracedRun_failed r.volume s s1 _ _ hlog1 hb1
    | ok reader =>
      exact tracedRun_before r.volume _ hlog1 hb1 (runRestoreInContainer_traced env r _ s1)

theorem runRestore_traced {W : Type} (env : Env W) (r : operation.Restore) (src : String)
    (s : St W) : TracedRun r.volume s (operation.runRestore env r src s) := by
  unfold operation.runRestore
  by_cases hp : r.showProgress = true
  · simp only [hp, if_true]
    refine tracedRun_deferred env r.volume .finishBar
      (by simp [Op.besideContainer, Op.isWait]) ?_
    refine tracedRun_before_perform env r.volume (.stat src) s _
      (by simp [Op.besideContainer, Op.isWait]) ?_
    rw [← getFileSize_snd]
    exact tracedRun_before_perform env r.volume (.newBar _) _ _
      (by simp [Op.besideContainer, Op.isWait]) (runRestoreFromFile_traced env r src _)
  · simp only [hp]
    exact runRestoreFromFile_traced env r src s

theorem getVolumeSize_snd {W : Type} (env : Env W) (volume : String) (s : St W) :
    (docker.GetVolumeSize env volume s).2 =
      (perform env (.run (docker.volumeSizeArgs volume)) s).2 := by
  unfold docker.GetVolumeSize
  generalize perform env (.run (docker.volumeSizeArgs volume)) s = res
  obtain ⟨rep, t⟩ := res
  cases h : rep.err with
  | some e => simp [h]
  | none =>
    simp only [h]
    cases fmt.scanInt (strings.TrimSpace rep.output) <;> rfl

theorem closeWriter_log {W : Type} (env : Env W) (writer : Option rw.WriteCloser) (t : St W) :
    ∃ post, (operation.closeWriter env writer t).log = t.log ++ post ∧
      ∀ c ∈ post, c.op = .closeWriter := by
  unfold operation.closeWriter
  split
  · exact ⟨_, perform_log env .closeWriter t, by simp⟩
  · exact ⟨_, perform_log env .closeWriter t, by simp⟩
  · exact ⟨[], by simp, by simp⟩

theorem runBackupToFile_traced {W : Type} (env : Env W) (b : operation.Backup)
    (dest : String) (s : St W) :
    TracedRun b.volume s (operation.runBackupToFile env b dest s) := by
  unfold operation.runBackupToFile
  have hlog1 := perform_log env (.create dest) s
  have hb1 : ∀ c ∈ [(⟨.create dest, (perform env (.create dest) s).1⟩ : Call)],
      c.op.besideContainer b.volume := by
    simp [Op.besideContainer, Op.isWait]
  generalize perform env (.create dest) s = res1 at hlog1 hb1
  obtain ⟨rep1, s1⟩ := res1
  simp only at hlog1 hb1
  cases hrep1 : rep1.err with
  | some e =>
    simp only [hrep1]
    exact tracedRun_failed b.volume s s1 _ _ hlog1 hb1
  | none =>
    simp only [hrep1]
    refine tracedRun_deferred env b.volume (.close dest)
      (by simp [Op.besideContainer, Op.isWait]) ?_
    generalize rw.CreateWriter [] b.compression = cw
    obtain ⟨writer, werr, sink⟩ := cw
    cases werr with
    | some e => exact tracedRun_failed b.volume s s1 _ _ hlog1 hb1
    | none =>
      simp only
      obtain ⟨post, hpost, hops⟩ := closeWriter_log env writer
        (deferred (fun t => (perform env .closeTar t).2)
          (operation.runBackupInContainer env b s1)).2
      refine tracedRun_after b.volume _ post hpost ?_ ?_
      · intro c hc
        rw [hops c hc]
        simp [Op.besideContainer, Op.isWait]
      · refine tracedRun_deferred env b.volume .closeTar
          (by simp [Op.besideContainer, Op.isWait]) ?_
        exact tracedRun_before b.volume _ hlog1 hb1 (runBackupInContainer_traced env b s1)

theorem runBackup_traced {W : Type} (env : Env W) (b : operation.Backup) (dest : String)
    (s : St W) : TracedRun b.volume s (operation.runBackup env b dest s) := by
  unfold operation.runBackup
  by_cases hp : b.showProgress = true
  · simp only [hp, if_true]
    refine tracedRun_deferred env b.volume .finishBar
      (by simp [Op.besideContainer, Op.isWait]) ?_
    refine tracedRun_before_perform env b.volume (.run (docker.volumeSizeArgs b.volume)) s _
      (by simp [Op.besideContainer, Op.isWait, docker.volumeSizeArgs]) ?_
    rw [← getVolumeSize_snd]
    exact tracedRun_before_perform env b.volume (.newBar _) _ _
      (by simp [Op.besideContainer, Op.isWait]) (runBackupToFile_traced env b dest _)
  · simp only [hp]
    exact runBackupToFile_traced env b dest s

theorem perform_agree {W : Type} (env : Env W) (host : Op → W → Reply × W)
    (hagree : AgreeButRemoveContainer env.host host) (op : Op)
    (hop : ∀ containerID, op ≠ .run ["docker", "rm", containerID]) (s : St W) :
    perform (env.withHost host) op s = perform env op s := by
  simp [perform, Env.withHost, hagree op s.world hop]

theorem restoreLoop_agree {W : Type} (env : Env W) (host : Op → W → Reply × W)
    (hagree : AgreeButRemoveContainer env.host host) (ending : GoError)
    (entries : List TarEntry) (s : St W) :
    operation.restoreLoop (env.withHost host) ending entries s =
      operation.restoreLoop env ending entries s := by
  induction entries generalizing s with
  | nil => rfl
  | cons entry rest ih =>
    simp only [operation.restoreLoop, operation.copyEntry, ih,
      perform_agree env host hagree (.writeHeader entry.header) (by intro id h; cases h),
      perform_agree env host hagree (.write entry.body.data) (by intro id h; cases h)]

theorem runRestoreInContainer_agree {W : Type} (env : Env W) (host : Op → W → Reply × W)
    (hagree : AgreeButRemoveContainer env.host host) (r : operation.Restore)
    (src : TarSource) (s : St W) :
    (operation.runRestoreInContainer (env.withHost host) r src s).1 =
      (operation.runRestoreInContainer env r src s).1 := by
  have hp := perform_agree env host hagree
  unfold operation.runRestoreInContainer docker.CreateContainerWithVolume
  rw [hp _ (by intro id h; simp at h)]
  generalize perform env
    (.run ["docker", "create", "-v", r.volume ++ ":/data", "alpine", "true"]) s = res0
  obtain ⟨rep0, s0⟩ := res0
  cases h0 : rep0.err with
  | some e0 => simp only [h0]
  | none =>
    have h1 : ∀ a t, perform (env.withHost host) (.stdinPipe a) t = perform env (.stdinPipe a) t :=
      fun a t => hp _ (by intro id h; cases h) t
    have h2 : ∀ a t, perform (env.withHost host) (.start a) t = perform env (.start a) t :=
      fun a t => hp _ (by intro id h; cases h) t
    have h3 : ∀ a t, perform (env.withHost host) (.wait a) t = perform env (.wait a) t :=
      fun a t => hp _ (by intro id h; cases h) t
    simp only [h0, deferred, restoreLoop_agree env host hagree, h1, h2, h3,
      hp .closeTar (by intro id h; cases h), hp .closePipe (by intro id h; cases h)]

theorem runRestoreFromFile_agree {W : Type} (env : Env W) (host : Op → W → Reply × W)
    (hagree : AgreeButRemoveContainer env.host host) (r : operation.Restore)
    (src : String) (s : St W) :
    (operation.runRestoreFromFile (env.withHost host) r src s).1 =
      (operation.runRestoreFromFile env r src s).1 := by
  unfold operation.runRestoreFromFile
  rw [perform_agree env host hagree (.openFile src) (by intro id h; cases h)]
  generalize perform env (.openFile src) s = res1
  obtain ⟨rep1, s1⟩ := res1
  cases hrep1 : rep1.err with
  | some e => simp only [hrep1]
  | none =>
    simp only [hrep1, deferred]
    have hlib : (env.withHost host).lib = env.lib := rfl
    have htar : (env.withHost host).tarReader = env.tarReader := rfl
    rw [hlib, htar]
    cases rw.CreateReader env.lib rep1.content src with
    | error e => rfl
    | ok reader => exact runRestoreInContainer_agree env host hagree r _ s1

theorem runRestore_agree {W : Type} (env : Env W) (host : Op → W → Reply × W)
    (hagree : AgreeButRemoveContainer env.host host) (r : operation.Restore)
    (src : String) (s : St W) :
    (operation.runRestore (env.withHost host) r src s).1 =
      (operation.runRestore env r src s).1 := by
  unfold operation.runRestore
  by_cases hp : r.showProgress = true
  · simp only [hp, if_true, deferred, operation.GetFileSize,
      perform_agree env host hagree (.stat src) (by intro id h; cases h)]
    have h1 : ∀ a t, perform (env.withHost host) (.newBar a) t = perform env (.newBar a) t :=
      fun a t => perform_agree env host hagree _ (by intro id h; cases h) t
    simp only [h1]
    exact runRestoreFromFile_agree env host hagree r src _
  · simp only [hp]
    exact runRestoreFromFile_agree env host hagree r src s

theorem runBackupInContainer_agree {W : Type} (env : Env W) (host : Op → W → Reply × W)
    (hagree : AgreeButRemoveContainer env.host host) (b : operation.Backup) (s : St W) :
    (operation.runBackupInContainer (env.withHost host) b s).1 =
      (operation.runBackupInContainer env b s).1 := by
  have hp := perform_agree env host hagree
  unfold operation.runBackupInContainer docker.CreateContainerWithVolume
  rw [hp _ (by intro id h; simp at h)]
  generalize perform env
    (.run ["docker", "create", "-v", b.volume ++ ":/data", "alpine", "true"]) s = res0
  obtain ⟨rep0, s0⟩ := res0
  cases h0 : rep0.err with
  | some e0 => simp only [h0]
  | none =>
    have h1 : ∀ a t, perform (env.withHost host) (.stdoutPipe a) t =
        perform env (.stdoutPipe a) t :=
      fun a t => hp _ (by intro id h; cases h) t
    have h2 : ∀ a t, perform (env.withHost host) (.start a) t = perform env (.start a) t :=
      fun a t => hp _ (by intro id h; cases h) t
    have h3 : ∀ a t, perform (env.withHost host) (.wait a) t = perform env (.wait a) t :=
      fun a t => hp _ (by intro id h; cases h) t
    have htar : (env.withHost host).tarReader = env.tarReader := rfl
    simp only [h0, deferred, backupLoop_eq, restoreLoop_agree env host hagree, h1, h2, h3,
      htar]

theorem runBackupToFile_agree {W : Type} (env : Env W) (host : Op → W → Reply × W)
    (hagree : AgreeButRemoveContainer env.host host) (b : operation.Backup)
    (dest : String) (s : St W) :
    (operation.runBackupToFile (env.withHost host) b dest s).1 =
      (operation.runBackupToFile env b dest s).1 := by
  unfold operation.runBackupToFile
  rw [perform_agree env host hagree (.create dest) (by intro id h; cases h)]
  generalize perform env (.create dest) s = res1
  obtain ⟨rep1, s1⟩ := res1
  cases hrep1 : rep1.err with
  | some e => simp only [hrep1]
  | none =>
    simp only [hrep1, deferred]
    generalize rw.CreateWriter [] b.compression = cw
    obtain ⟨writer, werr, sink⟩ := cw
    cases werr with
    | some e => rfl
    | none => exact runBackupInContainer_agree env host hagree b s1

theorem runBackup_agree {W : Type} (env : Env W) (host : Op → W → Reply × W)
    (hagree : AgreeButRemoveContainer env.host host) (b : operation.Backup)
    (dest : String) (s : St W) :
    (operation.runBackup (env.withHost host) b dest s).1 =
      (operation.runBackup env b dest s).1 := by
  unfold operation.runBackup
  by_cases hp : b.showProgress = true
  · simp only [hp, if_true, deferred, docker.GetVolumeSize,
      perform_agree env host hagree (.run (docker.volumeSizeArgs b.volume))
        (by intro id h; simp [docker.volumeSizeArgs] at h)]
    have h1 : ∀ a t, perform (env.withHost host) (.newBar a) t = perform env (.newBar a) t :=
      fun a t => perform_agree env host hagree _ (by intro id h; cases h) t
    simp only [h1]
    exact runBackupToFile_agree env host hagree b dest _
  · simp only [hp]
    exact runBackupToFile_agree env host hagree b dest s

/-! ## The transcode, the finalisation, the container and the staging file -/

theorem restoreLoop_transcodes {W : Type} (env : Env W) :
    spec.Transcodes (operation.restoreLoop env) := by
  intro ending entries s
  obtain ⟨cs, hcs, hpre, hok, hall⟩ := restoreLoop_trace env ending entries s
  rw [callsSince_of_log _ _ _ hcs]
  refine ⟨hpre, fun h => (hok h).1, ?_, ?_⟩
  · intro hb hrep
    obtain ⟨h1, h2⟩ := hall hb hrep
    refine ⟨h1, ?_⟩
    intro hend
    rw [h2, hend]
    rfl
  · intro hsize d hd
    have hmem := hpre.subset hd
    simp only [spec.transcoded, List.mem_flatMap, List.mem_cons] at hmem
    obtain ⟨e, he, h | h⟩ := hmem
    · cases h
    · by_cases hreg : e.header.typeflag = tar.TypeReg
      · simp only [hreg, if_true, List.mem_singleton] at h
        cases h
        exact ⟨e, he, hreg, rfl, hsize e he hreg⟩
      · simp [hreg] at h

theorem transcoded_headers (entries : List TarEntry) :
    (spec.transcoded entries).filterMap Op.headerWritten = entries.map TarEntry.header := by
  induction entries with
  | nil => rfl
  | cons e rest ih =>
    rw [transcoded_cons]
    by_cases hreg : e.header.typeflag = tar.TypeReg
    · simp [hreg, Op.headerWritten, ih]
    · simp [hreg, Op.headerWritten, ih]

/-- C11: the transcode loop of `runRestore` and that of `runBackup` preserve order and
content. Whatever the tar source yields, the sink is handed a beginning of the sequence
"header of the first entry, its content if it is a regular file, header of the second entry,
..." and nothing else; it is handed the whole sequence when the loop ends without error, and
whenever no content read fails and the sink accepts every call. The headers of that sequence
are the headers of the source in their order, and every content written is the content of a
regular file entry, with the size of its header. -/
theorem C11_transcode_preserves_order_and_content {W : Type} (env : Env W) :
    spec.Transcodes (operation.restoreLoop env) ∧
    spec.Transcodes (operation.backupLoop env) ∧
    ∀ entries : List TarEntry,
      (spec.transcoded entries).filterMap Op.headerWritten = entries.map TarEntry.header := by
  refine ⟨restoreLoop_transcodes env, ?_, transcoded_headers⟩
  have h : operation.backupLoop env = operation.restoreLoop env := by
    funext ending entries s
    exact backupLoop_eq env ending entries s
  rw [h]
  exact restoreLoop_transcodes env

theorem restoreLoop_aborts {W : Type} (env : Env W) (src : TarSource) (s : St W) :
    spec.AbortsOnReadError src (operation.restoreLoop env src.ending src.entries s).1
      (callsSince s (operation.restoreLoop env src.ending src.entries s).2) := by
  obtain ⟨cs, hcs, hpre, hok, hall⟩ := restoreLoop_trace env src.ending src.entries s
  rw [callsSince_of_log _ _ _ hcs, spec.AbortsOnReadError, filter_writes_of_loop hpre]
  refine ⟨fun h => (hok h).2.1, hpre, ?_⟩
  intro err herr hb hrep
  have hw := loop_calls_are_writes hpre
  obtain ⟨h1, h2⟩ := hall hb (fun c hc => hrep c hc (by
    intro id h
    have := hw c hc
    rw [h] at this
    cases this))
  refine ⟨?_, h1⟩
  rw [h2, herr]
  rfl

theorem inContainer_aborts (volume : String) (src : TarSource) (e : GoError)
    (c0 : Call) (mid : List Call) (rmrep : Reply)
    (hop : c0.op = .run ["docker", "create", "-v", volume ++ ":/data", "alpine", "true"])
    (h : InContainerTrace src e mid) :
    spec.AbortsOnReadError src e
      (c0 :: (mid ++ [⟨.run ["docker", "rm", strings.TrimSpace c0.reply.output], rmrep⟩])) := by
  obtain ⟨hrun, hpre, hnone, -, hexact⟩ := h
  have hf : (opsOf (c0 :: (mid ++
      [⟨.run ["docker", "rm", strings.TrimSpace c0.reply.output], rmrep⟩]))).filter
      Op.isSinkWrite = (opsOf mid).filter Op.isSinkWrite := by
    simp [opsOf, List.filter_cons, hop, Op.isSinkWrite]
  rw [spec.AbortsOnReadError, hf]
  refine ⟨fun he => (hnone he).1, hpre, ?_⟩
  intro err herr hb hrep
  refine hexact err herr hb ?_
  intro c hc
  refine hrep c (by simp [hc]) ?_
  intro id h
  have := hrun c hc
  rw [h] at this
  cases this

theorem failedCreate_aborts (volume : String) (src : TarSource) (e : GoError) (c0 : Call)
    (hop : c0.op = .run ["docker", "create", "-v", volume ++ ":/data", "alpine", "true"])
    (herr : c0.reply.err ≠ none) (hne : e ≠ none) : spec.AbortsOnReadError src e [c0] := by
  refine ⟨fun he => absurd he hne, ?_, ?_⟩
  · simp [opsOf, List.filter_cons, hop, Op.isSinkWrite]
  · intro _ _ _ hrep
    exact absurd (hrep c0 (List.mem_singleton.mpr rfl) (by rw [hop]; intro id h; simp at h)) herr

/-- C12: the transcode loops of `runRestore` and `runBackup`, and with them the part of
either function that runs with the temporary container, end without error only when the tar
source has ended with the end of the stream. When reading a header fails instead, the
result is that error wrapped as "failed to read tar header: ...", and the sink has been
handed the entries read before it and no further header or content. For `runBackup` the
source is the archive in the reply to `cmd.Start()`; a backup without error has started
`docker cp`. -/
theorem C12_header_read_error_ends_the_transcode {W : Type} (env : Env W) (src : TarSource)
    (r : operation.Restore) (b : operation.Backup) (s : St W) :
    spec.AbortsOnReadError src (operation.restoreLoop env src.ending src.entries s).1
      (callsSince s (operation.restoreLoop env src.ending src.entries s).2) ∧
    spec.AbortsOnReadError src (operation.backupLoop env src.ending src.entries s).1
      (callsSince s (operation.backupLoop env src.ending src.entries s).2) ∧
    spec.AbortsOnReadError src (operation.runRestoreInContainer env r src s).1
      (callsSince s (operation.runRestoreInContainer env r src s).2) ∧
    ((operation.runBackupInContainer env b s).1 = none →
      ∃ c ∈ callsSince s (operation.runBackupInContainer env b s).2,
        ∃ argv, c.op = .start argv ∧ c.reply.err = none) ∧
    (∀ c ∈ callsSince s (operation.runBackupInContainer env b s).2, ∀ argv,
      c.op = .start argv → c.reply.err = none →
      spec.AbortsOnReadError (env.tarReader c.reply.content)
        (operation.runBackupInContainer env b s).1
        (callsSince s (operation.runBackupInContainer env b s).2)) := by
  refine ⟨restoreLoop_aborts env src s, ?_, ?_, ?_, ?_⟩
  · rw [backupLoop_eq]
    exact restoreLoop_aborts env src s
  · obtain ⟨c0, rest, hop, hlog, h | h⟩ := runRestoreInContainer_shape env r src s
    · obtain ⟨herr, rfl, hne⟩ := h
      rw [callsSince_of_log _ _ _ hlog]
      exact failedCreate_aborts r.volume src _ c0 hop herr hne
    · obtain ⟨_, mid, rmrep, rfl, ht⟩ := h
      rw [callsSince_of_log _ _ _ hlog]
      exact inContainer_aborts r.volume src _ c0 mid rmrep hop ht
  · intro hnone
    obtain ⟨c0, rest, hop, hlog, h | h⟩ := runBackupInContainer_shape env b s
    · exact absurd hnone h.2.2
    · obtain ⟨_, mid, rmrep, src2, rfl, _, _, hstarted⟩ := h
      rw [callsSince_of_log _ _ _ hlog]
      obtain ⟨c, hc, argv, h1, h2⟩ := hstarted hnone
      exact ⟨c, by simp [hc], argv, h1, h2⟩
  · intro c hc argv hcop hcerr
    obtain ⟨c0, rest, hop, hlog, h | h⟩ := runBackupInContainer_shape env b s
    · obtain ⟨herr, rfl, hne⟩ := h
      rw [callsSince_of_log _ _ _ hlog] at hc ⊢
      exact failedCreate_aborts b.volume _ _ c0 hop herr hne
    · obtain ⟨_, mid, rmrep, src2, rfl, hsrc, ht, _⟩ := h
      rw [callsSince_of_log _ _ _ hlog] at hc ⊢
      have hmem : c ∈ mid := by
        simp only [List.mem_cons, List.mem_append, List.mem_singleton, List.not_mem_nil,
          or_false] at hc
        rcases hc with rfl | h | rfl
        · rw [hop] at hcop
          cases hcop
        · exact h
        · cases hcop
      rw [hsrc c hmem argv hcop hcerr]
      exact inContainer_aborts b.volume src2 _ c0 mid rmrep hop ht

theorem traced_calls {W : Type} {volume : String} {s : St W} {res : GoError × St W}
    (h : TracedRun volume s res) : ContainerTrace volume res.1 (callsSince s res.2) := by
  obtain ⟨cs, hcs, hct⟩ := h
  rw [callsSince_of_log _ _ _ hcs]
  exact hct

/-- Counterexample to C13 as stated: on a host where every closing fails, `runBackup` (tar
writer, compressor and output file) and `runRestore` (tar writer and stdin pipe) return no
error. -/
theorem C13_failed_finalisation_reported_as_success :
    (operation.runBackup
      (demoEnv.withHost (failOn Op.isFinalisation "no space left on device" demoHost))
      ⟨"data", "gz", false⟩ "backup.tar.gz" (demoStart [("data", ["a.txt"])] true)).1 = none ∧
    ((operation.runBackup
      (demoEnv.withHost (failOn Op.isFinalisation "no space left on device" demoHost))
      ⟨"data", "gz", false⟩ "backup.tar.gz"
      (demoStart [("data", ["a.txt"])] true)).2.log.filter (fun c => c.op.isFinalisation)) =
      [⟨.closeTar, { err := some "no space left on device" }⟩,
       ⟨.closeWriter, { err := some "no space left on device" }⟩,
       ⟨.close "backup.tar.gz", { err := some "no space left on device" }⟩] ∧
    (operation.runRestore
      (demoEnv.withHost (failOn Op.isFinalisation "no space left on device" demoHost))
      ⟨"data", false⟩ "backup.tar.gz" (demoStart [("data", ["a.txt"])] true)).1 = none ∧
    ((operation.runRestore
      (demoEnv.withHost (failOn Op.isFinalisation "no space left on device" demoHost))
      ⟨"data", false⟩ "backup.tar.gz"
      (demoStart [("data", ["a.txt"])] true)).2.log.filter (fun c => c.op.isFinalisation)) =
      [⟨.closeTar, { err := some "no space left on device" }⟩,
       ⟨.closePipe, { err := some "no space left on device" }⟩,
       ⟨.close "backup.tar.gz", { err := some "no space left on device" }⟩] := by
  decide

/-- C13, amended: of the steps after the transcode loop only `cmd.Wait()` decides the result
of `runBackup` and `runRestore`. When the run reaches `cmd.Wait()`, the result is the error
of that call wrapped as "docker cp failed: ...", or no error when it has none, whatever the
closing of the tar writer, of the compressor, of the output file or of the stdin pipe
answered; and a run without error has waited for `docker cp` successfully. -/
theorem C13_only_wait_decides_after_the_loop {W : Type} (env : Env W)
    (r : operation.Restore) (b : operation.Backup) (src dest : String) (s : St W) :
    (∀ c ∈ callsSince s (operation.runBackup env b dest s).2, c.op.isWait = true →
      (operation.runBackup env b dest s).1 =
        c.reply.err.map (fun err => "docker cp failed: " ++ err)) ∧
    ((operation.runBackup env b dest s).1 = none →
      ∃ c ∈ callsSince s (operation.runBackup env b dest s).2,
        c.op.isWait = true ∧ c.reply.err = none) ∧
    (∀ c ∈ callsSince s (operation.runRestore env r src s).2, c.op.isWait = true →
      (operation.runRestore env r src s).1 =
        c.reply.err.map (fun err => "docker cp failed: " ++ err)) ∧
    ((operation.runRestore env r src s).1 = none →
      ∃ c ∈ callsSince s (operation.runRestore env r src s).2,
        c.op.isWait = true ∧ c.reply.err = none) :=
  ⟨(traced_calls (runBackup_traced env b dest s)).1,
    (traced_calls (runBackup_traced env b dest s)).2.1,
    (traced_calls (runRestore_traced env r src s)).1,
    (traced_calls (runRestore_traced env r src s)).2.1⟩

theorem isRemoveContainer_iff (op : Op) :
    op.isRemoveContainer = true ↔ ∃ containerID, op = .run ["docker", "rm", containerID] := by
  cases op with
  | run argv =>
    match argv with
    | [] => simp [Op.isRemoveContainer]
    | [_] => simp [Op.isRemoveContainer]
    | [_, _] => simp [Op.isRemoveContainer]
    | [a, b, c] => simp [Op.isRemoveContainer]
    | _ :: _ :: _ :: _ :: _ => simp [Op.isRemoveContainer]
  | _ => simp [Op.isRemoveContainer]

theorem failOn_agree {W : Type} (msg : String) (host : Op → W → Reply × W) :
    AgreeButRemoveContainer host (failOn Op.isRemoveContainer msg host) := by
  intro op w hop
  have h : op.isRemoveContainer = false := by
    cases hb : op.isRemoveContainer with
    | false => rfl
    | true =>
      obtain ⟨id, hid⟩ := (isRemoveContainer_iff op).mp hb
      exact absurd hid (hop id)
  simp [failOn, h]

/-- C14: in `runBackup` and `runRestore`, once `docker create` has succeeded, the log of the
run holds exactly one `docker rm` of the container it named, on every return path; and the
result of either function is the same on any host that differs from the given one only in
what it answers to `docker rm`. -/
theorem C14_container_removed_once {W : Type} (env : Env W) (host : Op → W → Reply × W)
    (r : operation.Restore) (b : operation.Backup) (src dest : String) (s : St W)
    (hagree : AgreeButRemoveContainer env.host host) :
    (∀ c ∈ callsSince s (operation.runBackup env b dest s).2,
      c.op = .run ["docker", "create", "-v", b.volume ++ ":/data", "alpine", "true"] →
      c.reply.err = none →
      (callsSince s (operation.runBackup env b dest s).2).countP
        (fun k => decide (k.op = .run ["docker", "rm", strings.TrimSpace c.reply.output])) = 1) ∧
    (∀ c ∈ callsSince s (operation.runRestore env r src s).2,
      c.op = .run ["docker", "create", "-v", r.volume ++ ":/data", "alpine", "true"] →
      c.reply.err = none →
      (callsSince s (operation.runRestore env r src s).2).countP
        (fun k => decide (k.op = .run ["docker", "rm", strings.TrimSpace c.reply.output])) = 1) ∧
    (operation.runBackup (env.withHost host) b dest s).1 =
      (operation.runBackup env b dest s).1 ∧
    (operation.runRestore (env.withHost host) r src s).1 =
      (operation.runRestore env r src s).1 :=
  ⟨(traced_calls (runBackup_traced env b dest s)).2.2,
    (traced_calls (runRestore_traced env r src s)).2.2,
    runBackup_agree env host hagree b dest s,
    runRestore_agree env host hagree r src s⟩

theorem C14_container_removed_once_witness :
    AgreeButRemoveContainer demoEnv.host (failOn Op.isRemoveContainer "exit status 1" demoHost) ∧
    (callsSince (demoStart [("data", ["a.txt"])] true)
      (operation.runBackup demoEnv ⟨"data", "gz", false⟩ "backup.tar.gz"
        (demoStart [("data", ["a.txt"])] true)).2).countP
      (fun k => decide (k.op = .run ["docker", "rm", "c0ffee"])) = 1 ∧
    (operation.runBackup
      (demoEnv.withHost (failOn Op.isRemoveContainer "exit status 1" demoHost))
      ⟨"data", "gz", false⟩ "backup.tar.gz" (demoStart [("data", ["a.txt"])] true)).1 =
      (operation.runBackup demoEnv ⟨"data", "gz", false⟩ "backup.tar.gz"
        (demoStart [("data", ["a.txt"])] true)).1 ∧
    (operation.runRestore
      (demoEnv.withHost (failOn Op.isRemoveContainer "exit status 1" demoHost))
      ⟨"data", false⟩ "backup.tar.gz" (demoStart [("data", ["a.txt"])] true)).1 =
      (operation.runRestore demoEnv ⟨"data", false⟩ "backup.tar.gz"
        (demoStart [("data", ["a.txt"])] true)).1 :=
  ⟨failOn_agree "exit status 1" demoHost,
    (C14_container_removed_once demoEnv (failOn Op.isRemoveContainer "exit status 1" demoHost)
      ⟨"data", false⟩ ⟨"data", "gz", false⟩ "backup.tar.gz" "backup.tar.gz"
      (demoStart [("data", ["a.txt"])] true) (failOn_agree "exit status 1" demoHost)).1
      ⟨.run ["docker", "create", "-v", "data:/data", "alpine", "true"], { output := "c0ffee\n" }⟩
      (by decide) (by decide) rfl,
    (C14_container_removed_once demoEnv (failOn Op.isRemoveContainer "exit status 1" demoHost)
      ⟨"data", false⟩ ⟨"data", "gz", false⟩ "backup.tar.gz" "backup.tar.gz"
      (demoStart [("data", ["a.txt"])] true) (failOn_agree "exit status 1" demoHost)).2.2.1,
    (C14_container_removed_once demoEnv (failOn Op.isRemoveContainer "exit status 1" demoHost)
      ⟨"data", false⟩ ⟨"data", "gz", false⟩ "backup.tar.gz" "backup.tar.gz"
      (demoStart [("data", ["a.txt"])] true) (failOn_agree "exit status 1" demoHost)).2.2.2⟩

theorem stagingTrace_clean (cs : List Call) (h : ∀ c ∈ cs, c.op.isTempFileOp = false) :
    StagingTrace cs := by
  intro c hc pre suf hop
  have := h c hc
  rw [hop] at this
  cases this

theorem countP_remove_clean (cs : List Call) (path : String)
    (h : ∀ c ∈ cs, c.op.isTempFileOp = false) :
    cs.countP (fun k => decide (k.op = .remove path)) = 0 := by
  rw [List.countP_eq_zero]
  intro c hc hk
  simp only [decide_eq_true_eq] at hk
  have := h c hc
  rw [hk] at this
  cases this

theorem stagingTrace_before (pre cs : List Call) (hpre : ∀ c ∈ pre, c.op.isTempFileOp = false)
    (h : StagingTrace cs) : StagingTrace (pre ++ cs) := by
  intro c hc p suf hop herr
  rcases List.mem_append.mp hc with hc | hc
  · have := hpre c hc
    rw [hop] at this
    cases this
  · rw [List.countP_append, countP_remove_clean pre _ hpre, h c hc p suf hop herr]

theorem stagedRun_clean {W : Type} {s : St W} (res : GoError × St W)
    (h : Extends (fun op => op.isTempFileOp = false) s res.2) : StagedRun s res := by
  obtain ⟨cs, hcs, hclean⟩ := h
  exact ⟨cs, hcs, stagingTrace_clean cs hclean⟩

theorem stagedRun_before {W : Type} {s t : St W} {res : GoError × St W}
    (h0 : Extends (fun op => op.isTempFileOp = false) s t) (h : StagedRun t res) :
    StagedRun s res := by
  obtain ⟨pre, hpre, hclean⟩ := h0
  obtain ⟨cs, hcs, hst⟩ := h
  exact ⟨pre ++ cs, by rw [hcs, hpre, List.append_assoc], stagingTrace_before pre cs hclean hst⟩

/-- The trace of a staged transfer: the temporary file is created and closed, the transfer
`inner` does not create or remove files, and the file is removed at the end. -/
theorem stagingTrace_staged (pre suf : String) (rep1 rep2 rep3 : Reply) (inner : List Call)
    (hinner : ∀ c ∈ inner, c.op.isTempFileOp = false) :
    StagingTrace ([⟨.createTemp pre suf, rep1⟩, ⟨.close (pre ++ rep1.output ++ suf), rep2⟩] ++
      inner ++ [⟨.remove (pre ++ rep1.output ++ suf), rep3⟩]) := by
  intro c hc p q hop herr
  simp only [List.mem_append, List.mem_cons, List.mem_singleton, List.not_mem_nil,
    or_false] at hc
  rcases hc with ((rfl | rfl) | hc) | rfl
  · simp only [Op.createTemp.injEq] at hop
    obtain ⟨rfl, rfl⟩ := hop
    rw [List.countP_append, List.countP_append, countP_remove_clean inner _ hinner]
    simp
  · cases hop
  · have := hinner c hc
    rw [hop] at this
    cases this
  · cases hop

theorem staged_run {W : Type} (env : Env W) (dir pattern : String) (wrap : String → String)
    (body : String → St W → GoError × St W) (s : St W)
    (hbody : ∀ p t, Extends (fun op => op.isTempFileOp = false) t (body p t).2) :
    StagedRun s
      (match os.CreateTemp env dir pattern s with
        | ((_, some err), s1) => (some (wrap err), s1)
        | ((tmp, none), s1) =>
          deferred (fun t => (perform env (.remove tmp) t).2)
            (body tmp (perform env (.close tmp) s1).2)) := by
  unfold os.CreateTemp
  generalize os.prefixAndSuffix pattern = ps
  obtain ⟨pre, suf, perr⟩ := ps
  cases perr with
  | some e => exact ⟨[], by simp, stagingTrace_clean [] (by simp)⟩
  | none =>
    simp only
    generalize (if strings.HasSuffix (if dir = "" then env.tempDir else dir) "/" = true then
      (if dir = "" then env.tempDir else dir) ++ pre
      else (if dir = "" then env.tempDir else dir) ++ "/" ++ pre) = full
    have hlog1 := perform_log env (.createTemp full suf) s
    generalize perform env (.createTemp full suf) s = res1 at hlog1
    obtain ⟨rep1, s1⟩ := res1
    simp only at hlog1
    cases h1 : rep1.err with
    | some e =>
      simp only [h1]
      refine ⟨[⟨.createTemp full suf, rep1⟩], hlog1, ?_⟩
      intro c hc p q _ herr
      rw [List.mem_singleton.mp hc] at herr
      simp [h1] at herr
    | none =>
      simp only [h1, deferred]
      obtain ⟨inner, hinner, hclean⟩ := hbody (full ++ rep1.output ++ suf)
        (perform env (.close (full ++ rep1.output ++ suf)) s1).2
      refine ⟨_, ?_, stagingTrace_staged full suf rep1
        (perform env (.close (full ++ rep1.output ++ suf)) s1).1
        (perform env (.remove (full ++ rep1.output ++ suf))
          (body (full ++ rep1.output ++ suf)
            (perform env (.close (full ++ rep1.output ++ suf)) s1).2).2).1 inner hclean⟩
      rw [perform_log, hinner, perform_log, hlog1]
      simp

theorem clean_of_ofRunRestore (op : Op) (h : op.ofRunRestore = true) :
    op.isTempFileOp = false := by
  cases op <;> first | rfl | cases h

theorem clean_of_ofDownload (op : Op) (h : op.ofDownload = true) :
    op.isTempFileOp = false := by
  cases op <;> first | rfl | cases h

theorem restoreDownloaded_staged {W : Type} (env : Env W) (r : operation.Restore)
    (path : String) (s : St W) : StagedRun s (operation.restoreDownloaded env r path s) := by
  refine staged_run env "" _ (fun err => "failed to create temporary file: " ++ err)
    (fun tmp t =>
      match s3.DownloadFile env path tmp t with
      | (some err, t3) => (some err, t3)
      | (none, t3) =>
        match operation.runRestore env r tmp t3 with
        | (some err, t4) => (some ("failed to restore from downloaded backup: " ++ err), t4)
        | (none, t4) => (none, t4)) s ?_
  intro p t
  simp only
  have h1 := extends_mono clean_of_ofDownload (downloadFile_extends env path p t)
  generalize s3.DownloadFile env path p t = res1 at h1
  obtain ⟨e1, t3⟩ := res1
  cases e1 with
  | some e => exact h1
  | none =>
    simp only
    have h2 := extends_mono clean_of_ofRunRestore (runRestore_extends env r p t3)
    generalize operation.runRestore env r p t3 = res2 at h2
    obtain ⟨e2, t4⟩ := res2
    cases e2 with
    | some e => exact extends_trans h1 h2
    | none => exact extends_trans h1 h2

theorem clean_of_write (op : Op) (h : op.isSinkWrite = true) : op.isTempFileOp = false := by
  cases op <;> first | rfl | cases h

theorem restoreLoop_clean {W : Type} (env : Env W) (ending : GoError)
    (entries : List TarEntry) (s : St W) :
    Extends (fun op => op.isTempFileOp = false) s
      (operation.restoreLoop env ending entries s).2 := by
  obtain ⟨cs, hcs, hpre, -⟩ := restoreLoop_trace env ending entries s
  exact ⟨cs, hcs, fun c hc => clean_of_write c.op (loop_calls_are_writes hpre c hc)⟩

theorem runBackupInContainer_clean {W : Type} (env : Env W) (b : operation.Backup) (s : St W) :
    Extends (fun op => op.isTempFileOp = false) s
      (operation.runBackupInContainer env b s).2 := by
  unfold operation.runBackupInContainer
  have h1 : Extends (fun op => op.isTempFileOp = false) s
      (docker.CreateContainerWithVolume env b.volume s).2 := by
    rw [createContainer_snd]
    exact extends_perform env _ _ _ rfl
  generalize docker.CreateContainerWithVolume env b.volume s = res1 at h1
  obtain ⟨⟨containerID, err1⟩, s1⟩ := res1
  cases err1 with
  | some e => exact h1
  | none =>
    refine extends_deferred _ _ ?_
      (fun t => extends_perform env _ (.run ["docker", "rm", containerID]) t rfl)
    refine extends_trans h1 ?_
    have h2 := extends_perform env (fun op => op.isTempFileOp = false)
      (.stdoutPipe (operation.backupCpArgs containerID)) s1 rfl
    generalize perform env (.stdoutPipe (operation.backupCpArgs containerID)) s1 = res2 at h2
    obtain ⟨rep2, s2⟩ := res2
    cases hrep2 : rep2.err with
    | some e => simpa [hrep2] using h2
    | none =>
      simp only [hrep2]
      refine extends_trans h2 ?_
      have h3 := extends_perform env (fun op => op.isTempFileOp = false)
        (.start (operation.backupCpArgs containerID)) s2 rfl
      generalize perform env (.start (operation.backupCpArgs containerID)) s2 = res3 at h3
      obtain ⟨rep3, s3⟩ := res3
      cases hrep3 : rep3.err with
      | some e => simpa [hrep3] using h3
      | none =>
        simp only [hrep3, backupLoop_eq]
        refine extends_trans h3 ?_
        have h4 := restoreLoop_clean env (env.tarReader rep3.content).ending
          (env.tarReader rep3.content).entries s3
        generalize operation.restoreLoop env (env.tarReader rep3.content).ending
          (env.tarReader rep3.content).entries s3 = res4 at h4
        obtain ⟨err4, s4⟩ := res4
        cases err4 with
        | some e => exact h4
        | none =>
          simp only
          refine extends_trans h4 ?_
          have h5 := extends_perform env (fun op => op.isTempFileOp = false)
            (.wait (operation.backupCpArgs containerID)) s4 rfl
          generalize perform env (.wait (operation.backupCpArgs containerID)) s4 = res5 at h5
          obtain ⟨rep5, s5⟩ := res5
          cases hrep5 : rep5.err with
          | some e => simpa [hrep5] using h5
          | none => simpa [hrep5] using h5

theorem closeWriter_clean {W : Type} (env : Env W) (writer : Option rw.WriteCloser)
    (t : St W) :
    Extends (fun op => op.isTempFileOp = false) t (operation.closeWriter env writer t) := by
  obtain ⟨post, hpost, hops⟩ := closeWriter_log env writer t
  refine ⟨post, hpost, ?_⟩
  intro c hc
  rw [hops c hc]
  rfl

theorem runBackupToFile_clean {W : Type} (env : Env W) (b : operation.Backup)
    (dest : String) (s : St W) :
    Extends (fun op => op.isTempFileOp = false) s
      (operation.runBackupToFile env b dest s).2 := by
  unfold operation.runBackupToFile
  have h1 := extends_perform env (fun op => op.isTempFileOp = false) (.create dest) s rfl
  generalize perform env (.create dest) s = res1 at h1
  obtain ⟨rep1, s1⟩ := res1
  cases hrep1 : rep1.err with
  | some e => simpa [hrep1] using h1
  | none =>
    simp only [hrep1]
    refine extends_deferred _ _ ?_ (fun t => extends_perform env _ (.close dest) t rfl)
    refine extends_trans h1 ?_
    generalize rw.CreateWriter [] b.compression = cw
    obtain ⟨writer, werr, sink⟩ := cw
    cases werr with
    | some e => exact extends_refl _ _
    | none =>
      simp only
      refine extends_deferred _ _ ?_ (closeWriter_clean env writer)
      refine extends_deferred _ _ ?_ (fun t => extends_perform env _ .closeTar t rfl)
      exact runBackupInContainer_clean env b s1

theorem runBackup_clean {W : Type} (env : Env W) (b : operation.Backup) (dest : String)
    (s : St W) :
    Extends (fun op => op.isTempFileOp = false) s (operation.runBackup env b dest s).2 := by
  unfold operation.runBackup
  by_cases hp : b.showProgress = true
  · simp only [hp, if_true]
    refine extends_deferred _ _ ?_ (fun t => extends_perform env _ .finishBar t rfl)
    have h1 : Extends (fun op => op.isTempFileOp = false) s
        (docker.GetVolumeSize env b.volume s).2 := by
      rw [getVolumeSize_snd]
      exact extends_perform env _ _ _ rfl
    exact extends_trans h1 (extends_trans (extends_perform env _ (.newBar _) _ rfl)
      (runBackupToFile_clean env b dest _))
  · simp only [hp]
    exact runBackupToFile_clean env b dest s

theorem uploadFile_clean {W : Type} (env : Env W) (localFile s3Path : String) (s : St W) :
    Extends (fun op => op.isTempFileOp = false) s (s3.UploadFile env localFile s3Path s).2 := by
  unfold s3.UploadFile
  generalize s3.parseS3Path s3Path = parsed
  obtain ⟨bucket, key, perr⟩ := parsed
  cases perr with
  | some e => exact extends_refl _ _
  | none =>
    simp only
    have h1 := extends_perform env (fun op => op.isTempFileOp = false) (.openFile localFile) s
      rfl
    generalize perform env (.openFile localFile) s = res1 at h1
    obtain ⟨rep1, s1⟩ := res1
    cases hrep1 : rep1.err with
    | some e => simpa [hrep1] using h1
    | none =>
      simp only [hrep1]
      refine extends_deferred _ _ ?_ (fun t => extends_perform env _ (.close localFile) t rfl)
      refine extends_trans h1 ?_
      have h2 := extends_perform env (fun op => op.isTempFileOp = false) .s3NewClient s1 rfl
      generalize perform env .s3NewClient s1 = res2 at h2
      obtain ⟨rep2, s2⟩ := res2
      cases hrep2 : rep2.err with
      | some e => simpa [hrep2] using h2
      | none =>
        simp only [hrep2]
        refine extends_trans h2 ?_
        have h3 := extends_perform env (fun op => op.isTempFileOp = false)
          (.s3Upload bucket key localFile) s2 rfl
        generalize perform env (.s3Upload bucket key localFile) s2 = res3 at h3
        obtain ⟨rep3, s3⟩ := res3
        cases hrep3 : rep3.err with
        | some e => simpa [hrep3] using h3
        | none => simpa [hrep3] using h3

theorem backupToS3_staged {W : Type} (env : Env W) (b : operation.Backup) (s3Path : String)
    (s : St W) : StagedRun s (operation.BackupToS3 env b s3Path s) := by
  unfold operation.BackupToS3
  cases s3.ValidatePath s3Path with
  | some e => exact ⟨[], by simp, stagingTrace_clean [] (by simp)⟩
  | none =>
    refine staged_run env "" _ (fun err => "failed to create temporary file: " ++ err)
      (fun tmp t =>
        match operation.runBackup env b tmp t with
        | (some err, t3) => (some ("failed to create temporary backup: " ++ err), t3)
        | (none, t3) =>
          match s3.UploadFile env tmp s3Path t3 with
          | (some err, t4) => (some err, t4)
          | (none, t4) => (none, t4)) s ?_
    intro p t
    simp only
    have h1 := runBackup_clean env b p t
    generalize operation.runBackup env b p t = res1 at h1
    obtain ⟨e1, t3⟩ := res1
    cases e1 with
    | some e => exact h1
    | none =>
      simp only
      have h2 := uploadFile_clean env p s3Path t3
      generalize s3.UploadFile env p s3Path t3 = res2 at h2
      obtain ⟨e2, t4⟩ := res2
      cases e2 with
      | some e => exact extends_trans h1 h2
      | none => exact extends_trans h1 h2

theorem admissionThen_staged {W : Type} (env : Env W) (volume : String) (d : spec.Admission)
    (proceed : St W → GoError × St W) (hcont : ∀ t, StagedRun t (proceed t)) (s : St W) :
    StagedRun s (spec.admissionThen env volume d proceed s) := by
  cases d with
  | abort => exact ⟨[], by simp [spec.admissionThen], stagingTrace_clean [] (by simp)⟩
  | createThenProceed =>
    simp only [spec.admissionThen, createVolume_eq]
    have h1 := extends_perform env (fun op => op.isTempFileOp = false)
      (.run ["docker", "volume", "create", volume]) s rfl
    generalize perform env (.run ["docker", "volume", "create", volume]) s = res at h1
    obtain ⟨rep, t⟩ := res
    cases hrep : rep.err with
    | some e =>
      simp only [hrep, Option.map_some']
      exact stagedRun_clean _ h1
    | none =>
      simp only [hrep, Option.map_none']
      exact stagedRun_before h1 (hcont t)
  | clearThenProceed =>
    simp only [spec.admissionThen, clearVolume_eq]
    have h1 := extends_perform env (fun op => op.isTempFileOp = false)
      (.run (docker.clearVolumeArgs volume)) s rfl
    generalize perform env (.run (docker.clearVolumeArgs volume)) s = res at h1
    obtain ⟨rep, t⟩ := res
    cases hrep : rep.err with
    | some e =>
      simp only [hrep, Option.map_some']
      exact stagedRun_clean _ h1
    | none =>
      simp only [hrep, Option.map_none']
      exact stagedRun_before h1 (hcont t)

theorem restoreFromS3_staged {W : Type} (env : Env W) (r : operation.Restore) (path : String)
    (overwrite : Bool) (s : St W) :
    StagedRun s (operation.RestoreFromS3 env r path overwrite s) := by
  cases hpath : s3.ValidatePath path with
  | some e =>
    unfold operation.RestoreFromS3
    rw [hpath]
    exact ⟨[], by simp, stagingTrace_clean [] (by simp)⟩
  | none =>
    rw [restoreFromS3_table env r path overwrite s hpath]
    have h0 : Extends (fun op => op.isTempFileOp = false) s
        (docker.VolumeExists env r.volume s).2 := by
      rw [volumeExists_eq]
      exact extends_perform env _ _ _ rfl
    exact stagedRun_before h0
      (admissionThen_staged env r.volume _ _ (restoreDownloaded_staged env r path) _)

theorem staged_calls {W : Type} {s : St W} {res : GoError × St W} (h : StagedRun s res) :
    StagingTrace (callsSince s res.2) := by
  obtain ⟨cs, hcs, hst⟩ := h
  rw [callsSince_of_log _ _ _ hcs]
  exact hst

/-- C15: in `BackupToS3` and `RestoreFromS3` every temporary file that `os.CreateTemp` has
created is removed by exactly one `os.Remove` of its name among the calls of the run,
whichever way the run ends; and when the validation of the remote path fails, the function
returns that error without a single call, so that no temporary file is created. -/
theorem C15_staging_file_removed_once {W : Type} (env : Env W) (r : operation.Restore)
    (b : operation.Backup) (path : String) (overwrite : Bool) (s : St W) :
    (∀ c ∈ callsSince s (operation.BackupToS3 env b path s).2, ∀ pre suf,
      c.op = .createTemp pre suf → c.reply.err = none →
      (callsSince s (operation.BackupToS3 env b path s).2).countP
        (fun k => decide (k.op = .remove (pre ++ c.reply.output ++ suf))) = 1) ∧
    (∀ c ∈ callsSince s (operation.RestoreFromS3 env r path overwrite s).2, ∀ pre suf,
      c.op = .createTemp pre suf → c.reply.err = none →
      (callsSince s (operation.RestoreFromS3 env r path overwrite s).2).countP
        (fun k => decide (k.op = .remove (pre ++ c.reply.output ++ suf))) = 1) ∧
    (∀ e, s3.ValidatePath path = some e →
      operation.BackupToS3 env b path s = (some e, s) ∧
      operation.RestoreFromS3 env r path overwrite s = (some e, s)) := by
  refine ⟨staged_calls (backupToS3_staged env b path s),
    staged_calls (restoreFromS3_staged env r path overwrite s), ?_⟩
  intro e he
  unfold operation.BackupToS3 operation.RestoreFromS3
  rw [he]
  exact ⟨rfl, rfl⟩

theorem C15_staging_file_removed_once_witness :
    (callsSince (demoStart [("data", ["a.txt"])] true)
      (operation.BackupToS3 demoEnv ⟨"data", "gz", false⟩ "s3://b/backup.tar.gz"
        (demoStart [("data", ["a.txt"])] true)).2).countP
      (fun k => decide (k.op =
        .remove ("/tmp/docker-volume-backup-data-" ++ "123456" ++ ".tar.gz"))) = 1 ∧
    (callsSince (demoStart [] false)
      (operation.RestoreFromS3 demoEnv ⟨"data", false⟩ "s3://b/backup.tar.gz" false
        (demoStart [] false)).2).countP
      (fun k => decide (k.op =
        .remove ("/tmp/docker-volume-restore-data-" ++ "123456" ++ ".tar.gz"))) = 1 :=
  ⟨(C15_staging_file_removed_once demoEnv ⟨"data", false⟩ ⟨"data", "gz", false⟩
      "s3://b/backup.tar.gz" false (demoStart [("data", ["a.txt"])] true)).1
      ⟨.createTemp "/tmp/docker-volume-backup-data-" ".tar.gz", { output := "123456" }⟩
      (by decide) _ _ rfl rfl,
    (C15_staging_file_removed_once demoEnv ⟨"data", false⟩ ⟨"data", "gz", false⟩
      "s3://b/backup.tar.gz" false (demoStart [] false)).2.1
      ⟨.createTemp "/tmp/docker-volume-restore-data-" ".tar.gz", { output := "123456" }⟩
      (by decide) _ _ rfl rfl⟩

/-! ## Parsing and validating a remote path -/

theorem parseS3Path_cases (p : String) :
    (∃ b k : List Char, p.data = "s3://".data ++ b ++ '/' :: k ∧ b ≠ [] ∧ '/' ∉ b ∧ k ≠ [] ∧
      s3.parseS3Path p = (String.mk b, String.mk k, none) ∧ s3.ValidatePath p = none) ∨
    ((s3.parseS3Path p).2.2 ≠ none ∧ s3.ValidatePath p ≠ none) := by
  unfold s3.parseS3Path s3.ValidatePath
  by_cases hp : strings.HasPrefix p "s3://" = true
  · obtain ⟨rest, hrest⟩ := (hasPrefix_iff p "s3://").mp hp
    simp only [hp, Bool.not_true, Bool.false_eq_true, if_false]
    rw [trimPrefix_append p "s3://" rest hrest, splitN_slash_two]
    cases hcut : strings.cutList ['/'] rest with
    | none =>
      right
      simp
    | some pr =>
      obtain ⟨b, k⟩ := pr
      obtain ⟨h1, h2⟩ := cutList_single_some '/' rest b k hcut
      simp only [List.length_cons, List.length_singleton, List.length_nil, Nat.lt_irrefl,
        false_or, List.getD_cons_zero, List.getD_cons_succ, string_mk_eq_empty]
      by_cases hb : b = []
      · right
        simp [hb]
      · by_cases hk : k = []
        · right
          simp [hk]
        · left
          refine ⟨b, k, by rw [hrest, h1, List.append_assoc], hb, h2, hk, ?_, ?_⟩
          · simp [hb, hk]
          · simp [hb, hk]
  · right
    simp [hp]

theorem uploadFile_head {W : Type} (env : Env W) (localFile p bucket key : String) (s : St W)
    (hparse : s3.parseS3Path p = (bucket, key, none)) :
    ∃ rest, (s3.UploadFile env localFile p s).2.log =
      s.log ++ ⟨.openFile localFile, (perform env (.openFile localFile) s).1⟩ :: rest := by
  unfold s3.UploadFile
  rw [hparse]
  simp only
  cases h1 : (perform env (.openFile localFile) s).1.err with
  | some e => exact ⟨[], by simp [perform_log]⟩
  | none =>
    simp only [deferred]
    cases h2 : (perform env .s3NewClient (perform env (.openFile localFile) s).2).1.err with
    | some e => exact ⟨_, by simp [perform_log]; rfl⟩
    | none =>
      simp only
      cases h3 : (perform env (.s3Upload bucket key localFile)
          (perform env .s3NewClient (perform env (.openFile localFile) s).2).2).1.err with
      | some e => exact ⟨_, by simp [perform_log]; rfl⟩
      | none => exact ⟨_, by simp [perform_log]; rfl⟩

theorem downloadFile_head {W : Type} (env : Env W) (localFile p bucket key : String)
    (s : St W) (hparse : s3.parseS3Path p = (bucket, key, none)) :
    ∃ rest, (s3.DownloadFile env p localFile s).2.log =
      s.log ++ ⟨.create localFile, (perform env (.create localFile) s).1⟩ :: rest := by
  unfold s3.DownloadFile
  rw [hparse]
  simp only
  cases h1 : (perform env (.create localFile) s).1.err with
  | some e => exact ⟨[], by simp [perform_log]⟩
  | none =>
    simp only [deferred]
    cases h2 : (perform env .s3NewClient (perform env (.create localFile) s).2).1.err with
    | some e => exact ⟨_, by simp [perform_log]; rfl⟩
    | none =>
      simp only
      cases h3 : (perform env (.s3Download bucket key localFile)
          (perform env .s3NewClient (perform env (.create localFile) s).2).2).1.err with
      | some e => exact ⟨_, by simp [perform_log]; rfl⟩
      | none => exact ⟨_, by simp [perform_log]; rfl⟩

/-- C27: `s3.ValidatePath` and `parseS3Path` accept the same strings. On success
`parseS3Path` returns a bucket and a key with `p = "s3://" ++ bucket ++ "/" ++ key`, the
bucket non-empty and without `/`, the key non-empty. Hence for a path that passed the
validation `UploadFile` and `DownloadFile` get past the parsing: the first thing either does
is to open, respectively to create, the local file. -/
theorem C27_parse_agrees_with_validation :
    (∀ p : String, s3.ValidatePath p = none ↔ (s3.parseS3Path p).2.2 = none) ∧
    (∀ p : String, (s3.parseS3Path p).2.2 = none →
      p = "s3://" ++ (s3.parseS3Path p).1 ++ "/" ++ (s3.parseS3Path p).2.1 ∧
      (s3.parseS3Path p).1 ≠ "" ∧ '/' ∉ (s3.parseS3Path p).1.data ∧
      (s3.parseS3Path p).2.1 ≠ "") ∧
    (∀ (W : Type) (env : Env W) (localFile p : String) (s : St W),
      s3.ValidatePath p = none →
      (callsSince s (s3.UploadFile env localFile p s).2).head? =
        some ⟨.openFile localFile, (perform env (.openFile localFile) s).1⟩ ∧
      (callsSince s (s3.DownloadFile env p localFile s).2).head? =
        some ⟨.create localFile, (perform env (.create localFile) s).1⟩) := by
  refine ⟨?_, ?_, ?_⟩
  · intro p
    rcases parseS3Path_cases p with ⟨b, k, _, _, _, _, hparse, hval⟩ | ⟨h1, h2⟩
    · simp [hparse, hval]
    · constructor
      · intro h
        exact absurd h h2
      · intro h
        exact absurd h h1
  · intro p hp
    rcases parseS3Path_cases p with ⟨b, k, hdata, hb, hnm, hk, hparse, _⟩ | ⟨h1, _⟩
    · rw [hparse]
      refine ⟨?_, ?_, hnm, ?_⟩
      · apply String.ext
        simp [hdata]
      · simpa [string_mk_eq_empty] using hb
      · simpa [string_mk_eq_empty] using hk
    · exact absurd hp h1
  · intro W env localFile p s hval
    rcases parseS3Path_cases p with ⟨b, k, _, _, _, _, hparse, _⟩ | ⟨_, h2⟩
    · constructor
      · obtain ⟨rest, h⟩ := uploadFile_head env localFile p _ _ s hparse
        rw [callsSince_of_log _ _ _ h]
        rfl
      · obtain ⟨rest, h⟩ := downloadFile_head env localFile p _ _ s hparse
        rw [callsSince_of_log _ _ _ h]
        rfl
    · exact absurd hval h2

/-! ## The existence check never fails -/

/-- C26: `VolumeExists` never returns an error. Its answer is `true` exactly when
`docker volume inspect` succeeds, and its one call is that inspection. So every caller
behaves as the code without the error branch after `VolumeExists`: `NewBackup`,
`EnsureVolumeExists`, `RestoreFromFile` and `RestoreFromS3` are decided by the success of
the inspection alone, and an inspection that fails, for whatever reason, is taken as "the
volume does not exist": `NewBackup` answers "does not exist", and the three others go on to
create the volume. So with the Docker daemon out of reach `NewBackup` reports that the existing
volume `data` does not exist. -/
theorem C26_VolumeExists_never_errs {W : Type} (env : Env W) (r : operation.Restore)
    (volume compression src path : String) (showProgress overwrite : Bool) (s : St W) :
    (docker.VolumeExists env volume s).1.2 = none ∧
    ((docker.VolumeExists env volume s).1.1 = true ↔
      (perform env (.run ["docker", "volume", "inspect", volume]) s).1.err = none) ∧
    callsSince s (docker.VolumeExists env volume s).2 =
      [⟨.run ["docker", "volume", "inspect", volume],
        (perform env (.run ["docker", "volume", "inspect", volume]) s).1⟩] ∧
    (docker.ValidateVolumeName volume = none →
      operation.NewBackup env volume compression showProgress s =
        if (perform env (.run ["docker", "volume", "inspect", volume]) s).1.err = none then
          ((some ⟨volume, compression, showProgress⟩, none),
            (perform env (.run ["docker", "volume", "inspect", volume]) s).2)
        else
          ((none, some ("volume '" ++ volume ++ "' does not exist")),
            (perform env (.run ["docker", "volume", "inspect", volume]) s).2)) ∧
    docker.EnsureVolumeExists env volume s =
      (if (perform env (.run ["docker", "volume", "inspect", volume]) s).1.err = none then
        (none, (perform env (.run ["docker", "volume", "inspect", volume]) s).2)
      else
        docker.CreateVolume env volume
          (perform env (.run ["docker", "volume", "inspect", volume]) s).2) ∧
    (operation.ValidateFilePath src = none →
      operation.RestoreFromFile env r src overwrite s =
        spec.admissionThen env r.volume
          (spec.admissionDecision
            (perform env (.run ["docker", "volume", "inspect", r.volume]) s).1.err.isNone
            overwrite)
          (operation.runRestore env r src)
          (perform env (.run ["docker", "volume", "inspect", r.volume]) s).2) ∧
    (s3.ValidatePath path = none →
      operation.RestoreFromS3 env r path overwrite s =
        spec.admissionThen env r.volume
          (spec.admissionDecision
            (perform env (.run ["docker", "volume", "inspect", r.volume]) s).1.err.isNone
            overwrite)
          (operation.restoreDownloaded env r path)
          (perform env (.run ["docker", "volume", "inspect", r.volume]) s).2) ∧
    (∀ o, spec.admissionDecision false o = .createThenProceed) ∧
    (operation.NewBackup
      (demoEnv.withHost (failOn Op.isRun "Cannot connect to the Docker daemon" demoHost))
      "data" "gz" false (demoStart [("data", ["a.txt"])] true)).1 =
      (none, some "volume 'data' does not exist") := by
  refine ⟨?_, ?_, ?_, ?_, ensureVolumeExists_eq env volume s, ?_, ?_, ?_, by decide⟩
  · rw [volumeExists_eq]
  · rw [volumeExists_eq]
    cases (perform env (.run ["docker", "volume", "inspect", volume]) s).1.err <;> simp
  · rw [volumeExists_eq]
    exact callsSince_perform env _ s
  · exact newBackup_cases env volume compression showProgress s
  · intro h
    rw [restoreFromFile_table env r src overwrite s h, volumeExists_eq]
  · intro h
    rw [restoreFromS3_table env r path overwrite s h, volumeExists_eq]
  · intro o
    cases o <;> rfl

/-! ## The default extension of the temporary file -/

theorem createWriter_unsupported (w : Bytes) (compression : String)
    (hsel : compression ≠ "none" ∧ compression ≠ "gz" ∧ compression ≠ "zstd") :
    rw.CreateWriter w compression =
      (none, some ("unsupported compression type: " ++ compression), w) := by
  unfold rw.CreateWriter
  simp [hsel.1, hsel.2.1, hsel.2.2]

theorem backup_file_error_ne (e m : String) :
    "failed to create backup file: " ++ e ≠ "failed to create compressed writer: " ++ m := by
  intro h
  have := congrArg String.data h
  simp [String.data_append] at this

theorem runBackupToFile_unsupported {W : Type} (env : Env W) (b : operation.Backup)
    (dest : String) (t : St W)
    (hsel : b.compression ≠ "none" ∧ b.compression ≠ "gz" ∧ b.compression ≠ "zstd") :
    operation.runBackupToFile env b dest t =
      match (perform env (.create dest) t).1.err with
      | some e => (some ("failed to create backup file: " ++ e), (perform env (.create dest) t).2)
      | none =>
        (some ("failed to create compressed writer: " ++
            ("unsupported compression type: " ++ b.compression)),
          (perform env (.close dest) (perform env (.create dest) t).2).2) := by
  unfold operation.runBackupToFile
  rw [createWriter_unsupported [] b.compression hsel]
  cases h : (perform env (.create dest) t).1.err <;> simp [h, deferred]

/-- The outcome of `runBackup` with an unsupported compression selector, from the state `t`
in which the output file is created; `pre` are the calls made before and `post` those made
in the end for the progress display. -/
theorem runBackupToFile_unsupported_trace {W : Type} (env : Env W) (b : operation.Backup)
    (dest : String) (t : St W)
    (hsel : b.compression ≠ "none" ∧ b.compression ≠ "gz" ∧ b.compression ≠ "zstd") :
    (operation.runBackupToFile env b dest t).1 ≠ none ∧
    ∃ cs, (operation.runBackupToFile env b dest t).2.log =
        t.log ++ ⟨.create dest, (perform env (.create dest) t).1⟩ :: cs ∧
      (∀ c ∈ cs, c.op = .close dest) ∧
      ((perform env (.create dest) t).1.err = none →
        (operation.runBackupToFile env b dest t).1 =
          some ("failed to create compressed writer: " ++
            ("unsupported compression type: " ++ b.compression))) ∧
      ((operation.runBackupToFile env b dest t).1 =
          some ("failed to create compressed writer: " ++
            ("unsupported compression type: " ++ b.compression)) →
        (perform env (.create dest) t).1.err = none) := by
  rw [runBackupToFile_unsupported env b dest t hsel]
  cases h : (perform env (.create dest) t).1.err with
  | some e =>
    simp only
    refine ⟨by simp, [], by simp [perform_log], by simp, ?_, ?_⟩
    · intro h2
      cases h2
    · intro h2
      simp only [Option.some.injEq] at h2
      exact absurd h2 (backup_file_error_ne e _)
  | none =>
    simp only
    exact ⟨by simp,
      [⟨.close dest, (perform env (.close dest) (perform env (.create dest) t).2).1⟩],
      by simp [perform_log], by simp, fun _ => trivial, fun _ => trivial⟩

/-- Counterexample to C25 as stated: with the progress display on, `runBackup` with the
selector `bzip2` fails with the "unsupported compression type" error after the volume-size
probe `docker run --rm ... alpine` has run a container, before the output file was
created. -/
theorem C25_size_probe_runs_a_container_first :
    (operation.runBackup demoEnv ⟨"data", "bzip2", true⟩ "backup.tar"
      (demoStart [("data", ["a.txt"])] true)).1 =
      some "failed to create compressed writer: unsupported compression type: bzip2" ∧
    opsOf (callsSince (demoStart [("data", ["a.txt"])] true)
      (operation.runBackup demoEnv ⟨"data", "bzip2", true⟩ "backup.tar"
        (demoStart [("data", ["a.txt"])] true)).2) =
      [.run ["docker", "run", "--rm", "-v", "data:/data:ro", "alpine", "sh", "-c",
          "du -sb /data | cut -f1"],
        .newBar (-1), .create "backup.tar", .close "backup.tar", .finishBar] := by
  decide

/-- C25, amended: for a compression selector other than `none`, `gz` and `zstd`, `NewBackup`
succeeds for an existing volume and keeps the selector as it is; `runBackup`, and with it
`BackupToFile` for a valid destination, always fails. It creates the output file, and it
fails with "failed to create compressed writer: unsupported compression type: ..." exactly
when that creation has succeeded. Besides the creation and the closing of the output file
the run makes no call but those of the progress display when it is on, the first of which
is the volume-size probe `docker run --rm ...`: no `docker create` and no `docker cp`. -/
theorem C25_unsupported_compression {W : Type} (env : Env W)
    (volume dest compression : String) (showProgress : Bool) (s : St W)
    (hsel : compression ≠ "none" ∧ compression ≠ "gz" ∧ compression ≠ "zstd") :
    (docker.ValidateVolumeName volume = none →
      (docker.VolumeExists env volume s).1.1 = true →
      (operation.NewBackup env volume compression showProgress s).1 =
        (some ⟨volume, compression, showProgress⟩, none)) ∧
    (operation.runBackup env ⟨volume, compression, showProgress⟩ dest s).1 ≠ none ∧
    (∃ c ∈ callsSince s (operation.runBackup env ⟨volume, compression, showProgress⟩ dest s).2,
      c.op = .create dest) ∧
    (∀ c ∈ callsSince s (operation.runBackup env ⟨volume, compression, showProgress⟩ dest s).2,
      c.op = .create dest →
      (c.reply.err = none ↔
        (operation.runBackup env ⟨volume, compression, showProgress⟩ dest s).1 =
          some ("failed to create compressed writer: " ++
            ("unsupported compression type: " ++ compression)))) ∧
    (∀ c ∈ callsSince s (operation.runBackup env ⟨volume, compression, showProgress⟩ dest s).2,
      c.op = .create dest ∨ c.op = .close dest ∨
      (showProgress = true ∧ (c.op = .run (docker.volumeSizeArgs volume) ∨
        (∃ total, c.op = .newBar total) ∨ c.op = .finishBar))) ∧
    (showProgress = true →
      (opsOf (callsSince s
        (operation.runBackup env ⟨volume, compression, showProgress⟩ dest s).2)).head? =
        some (.run (docker.volumeSizeArgs volume))) ∧
    (operation.ValidateFilePath dest = none →
      operation.BackupToFile env ⟨volume, compression, showProgress⟩ dest s =
        operation.runBackup env ⟨volume, compression, showProgress⟩ dest s) := by
  refine ⟨?_, ?_⟩
  · intro hname hex
    rw [newBackup_cases env volume compression showProgress s hname]
    rw [volumeExists_eq] at hex
    have hI : (perform env (.run ["docker", "volume", "inspect", volume]) s).1.err = none := by
      cases h : (perform env (.run ["docker", "volume", "inspect", volume]) s).1.err with
      | none => rfl
      | some e => simp [h] at hex
    rw [if_pos hI]
  · have hlast : operation.ValidateFilePath dest = none →
        operation.BackupToFile env ⟨volume, compression, showProgress⟩ dest s =
          operation.runBackup env ⟨volume, compression, showProgress⟩ dest s := by
      intro h
      simp only [operation.BackupToFile, h]
    cases showProgress with
    | false =>
      have hrun : operation.runBackup env ⟨volume, compression, false⟩ dest s =
          operation.runBackupToFile env ⟨volume, compression, false⟩ dest s := by
        simp [operation.runBackup]
      obtain ⟨hne, cs, hlog, hcs, h1, h2⟩ :=
        runBackupToFile_unsupported_trace env ⟨volume, compression, false⟩ dest s hsel
      rw [hrun, callsSince_of_log _ _ _ hlog]
      refine ⟨hne, ⟨_, List.mem_cons_self _ _, rfl⟩, ?_, ?_, (fun h => by cases h), ?_⟩
      · intro c hc hop
        simp only [List.mem_cons] at hc
        rcases hc with rfl | hc
        · exact ⟨h1, h2⟩
        · rw [hcs c hc] at hop
          cases hop
      · intro c hc
        simp only [List.mem_cons] at hc
        rcases hc with rfl | hc
        · exact Or.inl rfl
        · exact Or.inr (Or.inl (hcs c hc))
      · rw [← hrun]
        exact hlast
    | true =>
      have hrun : operation.runBackup env ⟨volume, compression, true⟩ dest s =
          deferred (fun t => (perform env .finishBar t).2)
            (operation.runBackupToFile env ⟨volume, compression, true⟩ dest
              (perform env (.newBar (if (docker.GetVolumeSize env volume s).1.1 > 0 then
                (docker.GetVolumeSize env volume s).1.1 else -1))
                (docker.GetVolumeSize env volume s).2).2) := by
        simp [operation.runBackup]
      obtain ⟨hne, cs, hlog, hcs, h1, h2⟩ :=
        runBackupToFile_unsupported_trace env ⟨volume, compression, true⟩ dest
          (perform env (.newBar (if (docker.GetVolumeSize env volume s).1.1 > 0 then
            (docker.GetVolumeSize env volume s).1.1 else -1))
            (docker.GetVolumeSize env volume s).2).2 hsel
      have hfull : (operation.runBackup env ⟨volume, compression, true⟩ dest s).2.log =
          s.log ++ (⟨.run (docker.volumeSizeArgs volume),
              (perform env (.run (docker.volumeSizeArgs volume)) s).1⟩ ::
            ⟨.newBar (if (docker.GetVolumeSize env volume s).1.1 > 0 then
                (docker.GetVolumeSize env volume s).1.1 else -1),
              (perform env (.newBar (if (docker.GetVolumeSize env volume s).1.1 > 0 then
                (docker.GetVolumeSize env volume s).1.1 else -1))
                (docker.GetVolumeSize env volume s).2).1⟩ ::
            ⟨.create dest, (perform env (.create dest)
              (perform env (.newBar (if (docker.GetVolumeSize env volume s).1.1 > 0 then
                (docker.GetVolumeSize env volume s).1.1 else -1))
                (docker.GetVolumeSize env volume s).2).2).1⟩ ::
            (cs ++ [⟨.finishBar, (perform env .finishBar
              (operation.runBackupToFile env ⟨volume, compression, true⟩ dest
                (perform env (.newBar (if (docker.GetVolumeSize env volume s).1.1 > 0 then
                  (docker.GetVolumeSize env volume s).1.1 else -1))
                  (docker.GetVolumeSize env volume s).2).2).2).1⟩])) := by
        rw [hrun]
        simp only [deferred, perform_log, hlog]
        rw [getVolumeSize_snd, perform_log]
        simp
      have hres : (operation.runBackup env ⟨volume, compression, true⟩ dest s).1 =
          (operation.runBackupToFile env ⟨volume, compression, true⟩ dest
            (perform env (.newBar (if (docker.GetVolumeSize env volume s).1.1 > 0 then
              (docker.GetVolumeSize env volume s).1.1 else -1))
              (docker.GetVolumeSize env volume s).2).2).1 := by
        rw [hrun]
        rfl
      rw [callsSince_of_log _ _ _ hfull, hres]
      refine ⟨hne, ⟨_, List.mem_cons_of_mem _ (List.mem_cons_of_mem _ (List.mem_cons_self _ _)),
        rfl⟩, ?_, ?_, (fun _ => rfl), ?_⟩
      · intro c hc hop
        simp only [List.mem_cons, List.mem_append, List.mem_singleton, List.not_mem_nil,
          or_false] at hc
        rcases hc with rfl | rfl | rfl | hc | rfl
        · simp [docker.volumeSizeArgs] at hop
        · cases hop
        · exact ⟨h1, h2⟩
        · rw [hcs c hc] at hop
          cases hop
        · cases hop
      · intro c hc
        simp only [List.mem_cons, List.mem_append, List.mem_singleton, List.not_mem_nil,
          or_false] at hc
        rcases hc with rfl | rfl | rfl | hc | rfl
        · exact Or.inr (Or.inr ⟨rfl, Or.inl rfl⟩)
        · exact Or.inr (Or.inr ⟨rfl, Or.inr (Or.inl ⟨_, rfl⟩)⟩)
        · exact Or.inl rfl
        · exact Or.inr (Or.inl (hcs c hc))
        · exact Or.inr (Or.inr ⟨rfl, Or.inr (Or.inr rfl)⟩)
      · exact hlast

theorem C25_unsupported_compression_witness :
    ("bzip2" ≠ "none" ∧ "bzip2" ≠ "gz" ∧ "bzip2" ≠ "zstd") ∧
    (operation.runBackup demoEnv ⟨"data", "bzip2", false⟩ "backup.tar"
      (demoStart [("data", ["a.txt"])] true)).1 =
      some ("failed to create compressed writer: " ++
        ("unsupported compression type: " ++ "bzip2")) ∧
    (operation.NewBackup demoEnv "data" "bzip2" false
      (demoStart [("data", ["a.txt"])] true)).1 = (some ⟨"data", "bzip2", false⟩, none) :=
  ⟨by decide,
    ((C25_unsupported_compression demoEnv "data" "backup.tar" "bzip2" false
      (demoStart [("data", ["a.txt"])] true) (by decide)).2.2.2.1
      ⟨.create "backup.tar", {}⟩ (by decide) rfl).mp rfl,
    (C25_unsupported_compression demoEnv "data" "backup.tar" "bzip2" false
      (demoStart [("data", ["a.txt"])] true) (by decide)).1 (by decide) (by decide)⟩

/-! ## Progress reports -/

theorem progressWriter_calls {σ : Type} (w : rw.Writer σ)
    (bar : Option progressbar.ProgressBar) (ps : List Bytes) :
    ((rw.NewProgressWriter w bar).writeCalls ps).1 = (w.writeCalls ps).1 ∧
    ((rw.NewProgressWriter w bar).writeCalls ps).2.writer = (w.writeCalls ps).2 ∧
    ((rw.NewProgressWriter w bar).writeCalls ps).2.bar =
      bar.map (fun b => ⟨b.added ++ (w.writeCalls ps).1.map (fun res => res.1)⟩) := by
  induction ps generalizing w bar with
  | nil =>
    refine ⟨rfl, rfl, ?_⟩
    cases bar <;> simp [rw.ProgressWriter.writeCalls, rw.NewProgressWriter, rw.Writer.writeCalls]
  | cons p ps ih =>
    have h := ih (w.Write p).2
      (match bar with
        | some b => some (b.Add (w.Write p).1.1)
        | none => none)
    simp only [rw.NewProgressWriter] at h ⊢
    simp only [rw.ProgressWriter.writeCalls, rw.ProgressWriter.Write, rw.Writer.writeCalls]
    refine ⟨by rw [h.1], h.2.1, ?_⟩
    rw [h.2.2]
    cases bar <;> simp [progressbar.ProgressBar.Add]

theorem progressReader_calls {σ : Type} (r : rw.Reader σ)
    (bar : Option progressbar.ProgressBar) (ps : List Bytes) :
    ((rw.NewProgressReader r bar).readCalls ps).1 = (r.readCalls ps).1 ∧
    ((rw.NewProgressReader r bar).readCalls ps).2.reader = (r.readCalls ps).2 ∧
    ((rw.NewProgressReader r bar).readCalls ps).2.bar =
      bar.map (fun b => ⟨b.added ++ (r.readCalls ps).1.map (fun res => res.1.1)⟩) := by
  induction ps generalizing r bar with
  | nil =>
    refine ⟨rfl, rfl, ?_⟩
    cases bar <;> simp [rw.ProgressReader.readCalls, rw.NewProgressReader, rw.Reader.readCalls]
  | cons p ps ih =>
    have h := ih (r.Read p).2.2
      (match bar with
        | some b => some (b.Add (r.Read p).1.1)
        | none => none)
    simp only [rw.NewProgressReader] at h ⊢
    simp only [rw.ProgressReader.readCalls, rw.ProgressReader.Read, rw.Reader.readCalls]
    refine ⟨by rw [h.1], h.2.1, ?_⟩
    rw [h.2.2]
    cases bar <;> simp [progressbar.ProgressBar.Add]

/-- C21: for every sequence of `Write` calls on a `ProgressWriter`, and of `Read` calls on a
`ProgressReader`, that has a progress bar, whatever the writer or reader underneath returns
(short counts and errors included): the calls return what the writer or reader underneath
returns, the bar is handed one increment per call, the count `n` that call returned, in the
order of the calls, and so the total reported grows by the sum of the counts returned, the
bytes transferred. A wrapper without a bar reports nothing and returns the same. -/
theorem C21_reported_increments_sum {σ : Type} (w : rw.Writer σ) (r : rw.Reader σ)
    (bar : progressbar.ProgressBar) (ps : List Bytes) :
    ((rw.NewProgressWriter w (some bar)).writeCalls ps).1 = (w.writeCalls ps).1 ∧
    ((rw.NewProgressWriter w (some bar)).writeCalls ps).2.bar =
      some ⟨bar.added ++
        ((rw.NewProgressWriter w (some bar)).writeCalls ps).1.map (fun res => res.1)⟩ ∧
    ((rw.NewProgressWriter w (some bar)).writeCalls ps).2.bar.map progressbar.ProgressBar.total =
      some (bar.total +
        (((rw.NewProgressWriter w (some bar)).writeCalls ps).1.map (fun res => res.1)).sum) ∧
    ((rw.NewProgressReader r (some bar)).readCalls ps).1 = (r.readCalls ps).1 ∧
    ((rw.NewProgressReader r (some bar)).readCalls ps).2.bar =
      some ⟨bar.added ++
        ((rw.NewProgressReader r (some bar)).readCalls ps).1.map (fun res => res.1.1)⟩ ∧
    ((rw.NewProgressReader r (some bar)).readCalls ps).2.bar.map progressbar.ProgressBar.total =
      some (bar.total +
        (((rw.NewProgressReader r (some bar)).readCalls ps).1.map (fun res => res.1.1)).sum) ∧
    ((rw.NewProgressWriter w none).writeCalls ps).1 = (w.writeCalls ps).1 ∧
    ((rw.NewProgressWriter w none).writeCalls ps).2.bar = none ∧
    ((rw.NewProgressReader r none).readCalls ps).1 = (r.readCalls ps).1 ∧
    ((rw.NewProgressReader r none).readCalls ps).2.bar = none := by
  obtain ⟨w1, _, w3⟩ := progressWriter_calls w (some bar) ps
  obtain ⟨r1, _, r3⟩ := progressReader_calls r (some bar) ps
  obtain ⟨w4, _, w6⟩ := progressWriter_calls w none ps
  obtain ⟨r4, _, r6⟩ := progressReader_calls r none ps
  refine ⟨w1, ?_, ?_, r1, ?_, ?_, w4, by simpa using w6, r4, by simpa using r6⟩
  · rw [w3, w1]
    rfl
  · rw [w3, w1]
    simp [progressbar.ProgressBar.total]
  · rw [r3, r1]
    rfl
  · rw [r3, r1]
    simp [progressbar.ProgressBar.total]

/-- Counterexample to C24 as stated: a `Write`, and a `Read`, that returns an error and the
count 0 still has `Add` called on the bar, with the argument 0. -/
theorem C24_zero_byte_error_is_reported :
    ((rw.NewProgressWriter ⟨(), fun st _ => ((0, some "broken pipe"), st)⟩
      (some ⟨[]⟩)).Write [104, 105]).1 = (0, some "broken pipe") ∧
    ((rw.NewProgressWriter ⟨(), fun st _ => ((0, some "broken pipe"), st)⟩
      (some ⟨[]⟩)).Write [104, 105]).2.bar = some ⟨[0]⟩ ∧
    ((rw.NewProgressReader ⟨(), fun st p => ((0, some "unexpected EOF"), p, st)⟩
      (some ⟨[]⟩)).Read [0, 0]).1 = (0, some "unexpected EOF") ∧
    ((rw.NewProgressReader ⟨(), fun st p => ((0, some "unexpected EOF"), p, st)⟩
      (some ⟨[]⟩)).Read [0, 0]).2.2.bar = some ⟨[0]⟩ := by
  decide

/-- C24, amended: a `Read` through a `ProgressReader` and a `Write` through a
`ProgressWriter` that has a progress bar calls `Add` on the bar exactly once, with the count
`n` it returns, whatever the error it returns. So a call that returns an error with zero
bytes transferred calls `Add(0)`: the bar is invoked, and the total it has been told stays
what it was. Only a wrapper without a bar makes no report. -/
theorem C24_every_call_reports_its_count {σ : Type} (w : rw.Writer σ) (r : rw.Reader σ)
    (bar : progressbar.ProgressBar) (p : Bytes) :
    ((rw.NewProgressWriter w (some bar)).Write p).1 = (w.Write p).1 ∧
    ((rw.NewProgressWriter w (some bar)).Write p).2.bar = some (bar.Add (w.Write p).1.1) ∧
    ((w.Write p).1.1 = 0 →
      ((rw.NewProgressWriter w (some bar)).Write p).2.bar = some ⟨bar.added ++ [0]⟩ ∧
      ((rw.NewProgressWriter w (some bar)).Write p).2.bar.map progressbar.ProgressBar.total =
        some bar.total) ∧
    ((rw.NewProgressReader r (some bar)).Read p).1 = (r.Read p).1 ∧
    ((rw.NewProgressReader r (some bar)).Read p).2.2.bar = some (bar.Add (r.Read p).1.1) ∧
    ((r.Read p).1.1 = 0 →
      ((rw.NewProgressReader r (some bar)).Read p).2.2.bar = some ⟨bar.added ++ [0]⟩ ∧
      ((rw.NewProgressReader r (some bar)).Read p).2.2.bar.map progressbar.ProgressBar.total =
        some bar.total) ∧
    ((rw.NewProgressWriter w none).Write p).2.bar = none ∧
    ((rw.NewProgressReader r none).Read p).2.2.bar = none := by
  refine ⟨rfl, rfl, ?_, rfl, rfl, ?_, rfl, rfl⟩
  · intro h
    simp [rw.NewProgressWriter, rw.ProgressWriter.Write, progressbar.ProgressBar.Add,
      progressbar.ProgressBar.total, h]
  · intro h
    simp [rw.NewProgressReader, rw.ProgressReader.Read, progressbar.ProgressBar.Add,
      progressbar.ProgressBar.total, h]

/-! ## Stream errors come before the exit of `docker cp` -/

/-- The failures of the loop: a failed call gives the result, and when every call succeeds
the result is the first failure of the source. -/
theorem restoreLoop_failure {W : Type} (env : Env W) (ending : GoError)
    (entries : List TarEntry) (s : St W) :
    ∃ cs, (operation.restoreLoop env ending entries s).2.log = s.log ++ cs ∧
      (∀ c ∈ cs, ∀ header err, c.op = .writeHeader header → c.reply.err = some err →
        (operation.restoreLoop env ending entries s).1 =
          some ("failed to write tar header: " ++ err)) ∧
      (∀ c ∈ cs, ∀ data err, c.op = .write data → c.reply.err = some err →
        (operation.restoreLoop env ending entries s).1 =
          some ("failed to write file data: " ++ err)) ∧
      ((∀ c ∈ cs, c.reply.err = none) →
        (operation.restoreLoop env ending entries s).1 =
          spec.firstSourceError entries ending) := by
  induction entries generalizing s with
  | nil =>
    refine ⟨[], by cases ending <;> simp [operation.restoreLoop], by simp, by simp, ?_⟩
    intro _
    cases ending <;> simp [operation.restoreLoop, spec.firstSourceError]
  | cons entry rest ih =>
    unfold operation.restoreLoop
    have hlog1 := perform_log env (.writeHeader entry.header) s
    generalize perform env (.writeHeader entry.header) s = res1 at hlog1
    obtain ⟨rep1, s1⟩ := res1
    simp only at hlog1
    cases hrep1 : rep1.err with
    | some e1 =>
      simp only [hrep1]
      refine ⟨[⟨.writeHeader entry.header, rep1⟩], hlog1, ?_, ?_, ?_⟩
      · intro c hc header err _ herr
        rw [List.mem_singleton.mp hc] at herr
        simp only [hrep1, Option.some.injEq] at herr
        rw [herr]
      · intro c hc data err hop
        rw [List.mem_singleton.mp hc] at hop
        cases hop
      · intro hall
        have := hall ⟨.writeHeader entry.header, rep1⟩ (List.mem_singleton.mpr rfl)
        simp [hrep1] at this
    | none =>
      simp only [hrep1]
      by_cases hreg : entry.header.typeflag = tar.TypeReg
      · simp only [hreg, if_true, spec.firstSourceError]
        have hc := copyEntry_trace env entry.body s1
        generalize operation.copyEntry env entry.body s1 = res2 at hc
        obtain ⟨e2, s2⟩ := res2
        obtain ⟨rep2, hlog2, he2⟩ := hc
        simp only at hlog2 he2
        cases e2 with
        | some e =>
          simp only
          refine ⟨[⟨.writeHeader entry.header, rep1⟩, ⟨.write entry.body.data, rep2⟩],
            by rw [hlog2, hlog1]; simp, ?_, ?_, ?_⟩
          · intro c hc header err hop herr
            simp only [List.mem_cons, List.mem_singleton, List.not_mem_nil, or_false] at hc
            rcases hc with rfl | rfl
            · simp [hrep1] at herr
            · cases hop
          · intro c hc data err hop herr
            simp only [List.mem_cons, List.mem_singleton, List.not_mem_nil, or_false] at hc
            rcases hc with rfl | rfl
            · cases hop
            · simp only at herr
              rw [herr] at he2
              simp only [Option.some.injEq] at he2
              rw [he2]
          · intro hall
            have h2 := hall ⟨.write entry.body.data, rep2⟩ (by simp)
            simp only at h2
            rw [h2] at he2
            simp only at he2
            rw [← he2]
        | none =>
          simp only
          have hrep2 : rep2.err = none := by
            cases h : rep2.err with
            | none => rfl
            | some x => rw [h] at he2; cases he2
          have hbody : entry.body.err = none := by
            rw [hrep2] at he2
            exact he2.symm
          obtain ⟨cs, hcs, hh, hw, hall⟩ := ih s2
          refine ⟨⟨.writeHeader entry.header, rep1⟩ :: ⟨.write entry.body.data, rep2⟩ :: cs,
            by rw [hcs, hlog2, hlog1]; simp, ?_, ?_, ?_⟩
          · intro c hc header err hop herr
            simp only [List.mem_cons] at hc
            rcases hc with rfl | rfl | hc
            · simp [hrep1] at herr
            · cases hop
            · exact hh c hc header err hop herr
          · intro c hc data err hop herr
            simp only [List.mem_cons] at hc
            rcases hc with rfl | rfl | hc
            · cases hop
            · simp [hrep2] at herr
            · exact hw c hc data err hop herr
          · intro hrep
            rw [hbody]
            exact hall (fun c hc => hrep c (by simp [hc]))
      · simp only [hreg, if_false, spec.firstSourceError]
        obtain ⟨cs, hcs, hh, hw, hall⟩ := ih s1
        refine ⟨⟨.writeHeader entry.header, rep1⟩ :: cs, by rw [hcs, hlog1]; simp, ?_, ?_, ?_⟩
        · intro c hc header err hop herr
          simp only [List.mem_cons] at hc
          rcases hc with rfl | hc
          · simp [hrep1] at herr
          · exact hh c hc header err hop herr
        · intro c hc data err hop herr
          simp only [List.mem_cons] at hc
          rcases hc with rfl | hc
          · cases hop
          · exact hw c hc data err hop herr
        · intro hrep
          exact hall (fun c hc => hrep c (by simp [hc]))

theorem streamTrace_early (src : TarSource) (e : String) (mid : List Call)
    (hops : ∀ c ∈ mid, c.op.isRun = false ∧ c.op.isSinkWrite = false ∧ c.op.isWait = false)
    (hbad : ∃ c ∈ mid, c.reply.err ≠ none) : StreamTrace src (some e) mid := by
  refine ⟨fun c hc => (hops c hc).1, ?_, ?_, ?_, ?_⟩
  · intro c hc header err hop
    have := (hops c hc).2.1
    rw [hop] at this
    cases this
  · intro c hc data err hop
    have := (hops c hc).2.1
    rw [hop] at this
    cases this
  · intro c hc hw
    rw [(hops c hc).2.2] at hw
    cases hw
  · intro hall
    obtain ⟨c, hc, hne⟩ := hbad
    exact absurd (hall c hc (hops c hc).2.2) hne

theorem streamTrace_of_loop {W : Type} (env : Env W) (src : TarSource) (t : St W)
    (before closing : List Call) (waitCall : Call) (cs : List Call)
    (hlog : (operation.restoreLoop env src.ending src.entries t).2.log = t.log ++ cs)
    (hbefore : ∀ c ∈ before, c.op.isRun = false ∧ c.op.isSinkWrite = false ∧ c.op.isWait = false)
    (hclosing : ∀ c ∈ closing, c.op.isRun = false ∧ c.op.isSinkWrite = false ∧
      c.op.isWait = false)
    (hwait : waitCall.op.isWait = true ∧ waitCall.op.isRun = false ∧
      waitCall.op.isSinkWrite = false) :
    (∀ err, (operation.restoreLoop env src.ending src.entries t).1 = some err →
      StreamTrace src (some err) (before ++ cs)) ∧
    ((operation.restoreLoop env src.ending src.entries t).1 = none →
      StreamTrace src (waitCall.reply.err.map (fun err => "docker cp failed: " ++ err))
        (before ++ cs ++ closing ++ [waitCall])) := by
  obtain ⟨cs1, hcs1, hpre, hok, -⟩ := restoreLoop_trace env src.ending src.entries t
  obtain ⟨cs2, hcs2, hh, hw, hall⟩ := restoreLoop_failure env src.ending src.entries t
  have e1 : cs = cs1 := List.append_cancel_left (hlog.symm.trans hcs1)
  have e2 : cs = cs2 := List.append_cancel_left (hlog.symm.trans hcs2)
  subst e1
  subst e2
  have hwr := loop_calls_are_writes hpre
  have hnw : ∀ c ∈ cs, c.op.isWait = false := fun c hc => isWait_of_write (hwr c hc)
  have hbw : ∀ c ∈ before, ∀ op, c.op = op → op.isSinkWrite = true → False := by
    intro c hc op hop h
    rw [← hop, (hbefore c hc).2.1] at h
    cases h
  have hcw : ∀ c ∈ closing, ∀ op, c.op = op → op.isSinkWrite = true → False := by
    intro c hc op hop h
    rw [← hop, (hclosing c hc).2.1] at h
    cases h
  constructor
  · intro err herr
    refine ⟨?_, ?_, ?_, ?_, ?_⟩
    · intro c hc
      rcases List.mem_append.mp hc with h | h
      · exact (hbefore c h).1
      · exact isRun_of_write (hwr c h)
    · intro c hc header e hop he
      rcases List.mem_append.mp hc with h | h
      · exact (hbw c h _ hop rfl).elim
      · rw [← herr]
        exact hh c h header e hop he
    · intro c hc data e hop he
      rcases List.mem_append.mp hc with h | h
      · exact (hbw c h _ hop rfl).elim
      · rw [← herr]
        exact hw c h data e hop he
    · intro c hc hwc
      rcases List.mem_append.mp hc with h | h
      · rw [(hbefore c h).2.2] at hwc
        cases hwc
      · rw [hnw c h] at hwc
        cases hwc
    · intro hrep
      have hsrc := hall (fun c hc => hrep c (List.mem_append_right _ hc) (hnw c hc))
      rw [herr] at hsrc
      constructor
      · intro m hm
        refine ⟨by rw [hsrc, hm], ?_⟩
        intro c hc
        rcases List.mem_append.mp hc with h | h
        · exact (hbefore c h).2.2
        · exact hnw c h
      · intro hnone
        rw [hnone] at hsrc
        cases hsrc
  · intro hnone
    obtain ⟨_, _, hallok⟩ := hok hnone
    have hsrc := hall hallok
    rw [hnone] at hsrc
    refine ⟨?_, ?_, ?_, ?_, ?_⟩
    · intro c hc
      simp only [List.mem_append, List.mem_singleton] at hc
      rcases hc with ((h | h) | h) | h
      · exact (hbefore c h).1
      · exact isRun_of_write (hwr c h)
      · exact (hclosing c h).1
      · subst h
        exact hwait.2.1
    · intro c hc header e hop he
      simp only [List.mem_append, List.mem_singleton] at hc
      rcases hc with ((h | h) | h) | h
      · exact (hbw c h _ hop rfl).elim
      · rw [hallok c h] at he
        cases he
      · exact (hcw c h _ hop rfl).elim
      · subst h
        have := hwait.2.2
        rw [hop] at this
        cases this
    · intro c hc data e hop he
      simp only [List.mem_append, List.mem_singleton] at hc
      rcases hc with ((h | h) | h) | h
      · exact (hbw c h _ hop rfl).elim
      · rw [hallok c h] at he
        cases he
      · exact (hcw c h _ hop rfl).elim
      · subst h
        have := hwait.2.2
        rw [hop] at this
        cases this
    · intro c hc hwc
      simp only [List.mem_append, List.mem_singleton] at hc
      have hcw2 : c = waitCall := by
        rcases hc with ((h | h) | h) | h
        · rw [(hbefore c h).2.2] at hwc
          cases hwc
        · rw [hnw c h] at hwc
          cases hwc
        · rw [(hclosing c h).2.2] at hwc
          cases hwc
        · exact h
      subst hcw2
      refine ⟨?_, hsrc.symm, rfl⟩
      intro k hk hkw
      simp only [List.mem_append, List.mem_singleton] at hk
      rcases hk with ((h | h) | h) | h
      · exact (hbw k h _ rfl hkw).elim
      · exact hallok k h
      · exact (hcw k h _ rfl hkw).elim
      · subst h
        rw [hwait.2.2] at hkw
        cases hkw
    · intro _
      constructor
      · intro m hm
        rw [← hsrc] at hm
        cases hm
      · intro _
        exact ⟨waitCall, by simp, hwait.1⟩

theorem runRestoreInContainer_stream {W : Type} (env : Env W) (r : operation.Restore)
    (src : TarSource) (s : St W) :
    ∃ c0 rest, c0.op = .run ["docker", "create", "-v", r.volume ++ ":/data", "alpine", "true"] ∧
      (operation.runRestoreInContainer env r src s).2.log = s.log ++ c0 :: rest ∧
      ((c0.reply.err ≠ none ∧ rest = [] ∧ (operation.runRestoreInContainer env r src s).1 ≠ none) ∨
       (c0.reply.err = none ∧ ∃ mid rmrep,
          rest = mid ++ [⟨.run ["docker", "rm", strings.TrimSpace c0.reply.output], rmrep⟩] ∧
          StreamTrace src (operation.runRestoreInContainer env r src s).1 mid)) := by
  unfold operation.runRestoreInContainer docker.CreateContainerWithVolume
  have hlog0 := perform_log env
    (.run ["docker", "create", "-v", r.volume ++ ":/data", "alpine", "true"]) s
  generalize perform env
    (.run ["docker", "create", "-v", r.volume ++ ":/data", "alpine", "true"]) s = res0 at hlog0
  obtain ⟨rep0, s0⟩ := res0
  simp only at hlog0
  cases h0 : rep0.err with
  | some e0 =>
    simp only [h0]
    exact ⟨⟨_, rep0⟩, [], rfl, hlog0, Or.inl ⟨by simp [h0], rfl, by simp⟩⟩
  | none =>
    simp only [h0, deferred, docker.RemoveContainer]
    have hlog2 := perform_log env (.stdinPipe (operation.restoreCpArgs
        (strings.TrimSpace rep0.output))) s0
    generalize perform env (.stdinPipe (operation.restoreCpArgs
        (strings.TrimSpace rep0.output))) s0 = res2 at hlog2
    obtain ⟨rep2, s2⟩ := res2
    simp only at hlog2
    cases h2 : rep2.err with
    | some e2 =>
      simp only [h2]
      refine ⟨⟨_, rep0⟩, _, rfl, ?_, Or.inr ⟨h0, [⟨.stdinPipe (operation.restoreCpArgs
          (strings.TrimSpace rep0.output)), rep2⟩],
        (perform env (.run ["docker", "rm", strings.TrimSpace rep0.output]) s2).1, rfl, ?_⟩⟩
      · simp [perform_log, hlog2, hlog0]
      · apply streamTrace_early
        · simp [Op.isRun, Op.isSinkWrite, Op.isWait]
        · exact ⟨_, List.mem_singleton.mpr rfl, by simp [h2]⟩
    | none =>
      simp only [h2]
      have hlog3 := perform_log env (.start (operation.restoreCpArgs
          (strings.TrimSpace rep0.output))) s2
      generalize perform env (.start (operation.restoreCpArgs
          (strings.TrimSpace rep0.output))) s2 = res3 at hlog3
      obtain ⟨rep3, s3⟩ := res3
      simp only at hlog3
      cases h3 : rep3.err with
      | some e3 =>
        simp only [h3]
        refine ⟨⟨_, rep0⟩, _, rfl, ?_, Or.inr ⟨h0,
          [⟨.stdinPipe (operation.restoreCpArgs (strings.TrimSpace rep0.output)), rep2⟩, ⟨.start
              (operation.restoreCpArgs (strings.TrimSpace rep0.output)), rep3⟩], (perform env (.run
              ["docker", "rm", strings.TrimSpace rep0.output]) s3).1, rfl, ?_⟩⟩
        · simp [perform_log, hlog3, hlog2, hlog0]
        · apply streamTrace_early
          · simp [Op.isRun, Op.isSinkWrite, Op.isWait]
          · exact ⟨⟨.start (operation.restoreCpArgs (strings.TrimSpace rep0.output)), rep3⟩,
              by simp, by simp [h3]⟩
      | none =>
        simp only [h3]
        obtain ⟨cs, hcs, -⟩ := restoreLoop_trace env src.ending src.entries s3
        have hT := streamTrace_of_loop env src s3
          [⟨.stdinPipe (operation.restoreCpArgs (strings.TrimSpace rep0.output)), rep2⟩, ⟨.start
              (operation.restoreCpArgs (strings.TrimSpace rep0.output)), rep3⟩]
          [⟨.closeTar, (perform env .closeTar
              (operation.restoreLoop env src.ending src.entries s3).2).1⟩,
            ⟨.closePipe, (perform env .closePipe (perform env .closeTar
              (operation.restoreLoop env src.ending src.entries s3).2).2).1⟩]
          ⟨.wait (operation.restoreCpArgs (strings.TrimSpace rep0.output)),
            (perform env (.wait (operation.restoreCpArgs (strings.TrimSpace rep0.output)))
              (perform env .closePipe (perform env .closeTar
                (operation.restoreLoop env src.ending src.entries s3).2).2).2).1⟩
          cs hcs (by simp [Op.isRun, Op.isSinkWrite, Op.isWait])
          (by simp [Op.isRun, Op.isSinkWrite, Op.isWait])
          (by simp [Op.isRun, Op.isSinkWrite, Op.isWait])
        generalize operation.restoreLoop env src.ending src.entries s3 = resL at hcs hT
        obtain ⟨eL, s4⟩ := resL
        simp only at hcs hT
        cases eL with
        | some e4 =>
          simp only
          refine ⟨⟨_, rep0⟩, _, rfl, ?_, Or.inr ⟨h0, _, (perform env (.run ["docker", "rm",
              strings.TrimSpace rep0.output]) s4).1, rfl,
            hT.1 e4 rfl⟩⟩
          simp [perform_log, hcs, hlog3, hlog2, hlog0]
        | none =>
          simp only
          have hT2 := hT.2 rfl
          cases hw : (perform env (.wait (operation.restoreCpArgs (strings.TrimSpace rep0.output)))
              (perform env .closePipe (perform env .closeTar s4).2).2).1.err with
          | some e5 =>
            simp only [hw, Option.map_some'] at hT2 ⊢
            refine ⟨⟨_, rep0⟩, _, rfl, ?_, Or.inr ⟨h0, _,
              (perform env (.run ["docker", "rm", strings.TrimSpace rep0.output]) (perform env
                  (.wait (operation.restoreCpArgs (strings.TrimSpace rep0.output)))
                (perform env .closePipe (perform env .closeTar s4).2).2).2).1, rfl, hT2⟩⟩
            simp [perform_log, hcs, hlog3, hlog2, hlog0]
          | none =>
            simp only [hw, Option.map_none'] at hT2 ⊢
            refine ⟨⟨_, rep0⟩, _, rfl, ?_, Or.inr ⟨h0, _,
              (perform env (.run ["docker", "rm", strings.TrimSpace rep0.output]) (perform env
                  (.wait (operation.restoreCpArgs (strings.TrimSpace rep0.output)))
                (perform env .closePipe (perform env .closeTar s4).2).2).2).1, rfl, hT2⟩⟩
            simp [perform_log, hcs, hlog3, hlog2, hlog0]

theorem runBackupInContainer_stream {W : Type} (env : Env W) (b : operation.Backup) (s : St W) :
    ∃ c0 rest, c0.op = .run ["docker", "create", "-v", b.volume ++ ":/data", "alpine", "true"] ∧
      (operation.runBackupInContainer env b s).2.log = s.log ++ c0 :: rest ∧
      ((c0.reply.err ≠ none ∧ rest = [] ∧ (operation.runBackupInContainer env b s).1 ≠ none) ∨
       (c0.reply.err = none ∧ ∃ mid rmrep src,
          rest = mid ++ [⟨.run ["docker", "rm", strings.TrimSpace c0.reply.output], rmrep⟩] ∧
          (∀ c ∈ mid, ∀ argv, c.op = .start argv → c.reply.err = none →
            env.tarReader c.reply.content = src) ∧
          StreamTrace src (operation.runBackupInContainer env b s).1 mid ∧
          ((operation.runBackupInContainer env b s).1 = none →
            ∃ c ∈ mid, ∃ argv, c.op = .start argv ∧ c.reply.err = none))) := by
  unfold operation.runBackupInContainer docker.CreateContainerWithVolume
  have hlog0 := perform_log env
    (.run ["docker", "create", "-v", b.volume ++ ":/data", "alpine", "true"]) s
  generalize perform env
    (.run ["docker", "create", "-v", b.volume ++ ":/data", "alpine", "true"]) s = res0 at hlog0
  obtain ⟨rep0, s0⟩ := res0
  simp only at hlog0
  cases h0 : rep0.err with
  | some e0 =>
    simp only [h0]
    exact ⟨⟨_, rep0⟩, [], rfl, hlog0, Or.inl ⟨by simp [h0], rfl, by simp⟩⟩
  | none =>
    simp only [h0, deferred, docker.RemoveContainer, backupLoop_eq]
    have hlog2 := perform_log env (.stdoutPipe (operation.backupCpArgs
        (strings.TrimSpace rep0.output))) s0
    generalize perform env (.stdoutPipe (operation.backupCpArgs
        (strings.TrimSpace rep0.output))) s0 = res2 at hlog2
    obtain ⟨rep2, s2⟩ := res2
    simp only at hlog2
    cases h2 : rep2.err with
    | some e2 =>
      simp only [h2]
      refine ⟨⟨_, rep0⟩, _, rfl, ?_, Or.inr ⟨h0, [⟨.stdoutPipe (operation.backupCpArgs
          (strings.TrimSpace rep0.output)), rep2⟩],
        (perform env (.run ["docker", "rm", strings.TrimSpace rep0.output]) s2).1, ⟨[], none⟩, rfl,
            ?_, ?_, fun h => absurd h (by simp)⟩⟩
      · simp [perform_log, hlog2, hlog0]
      · simp
      · apply streamTrace_early
        · simp [Op.isRun, Op.isSinkWrite, Op.isWait]
        · exact ⟨_, List.mem_singleton.mpr rfl, by simp [h2]⟩
    | none =>
      simp only [h2]
      have hlog3 := perform_log env (.start (operation.backupCpArgs
          (strings.TrimSpace rep0.output))) s2
      generalize perform env (.start (operation.backupCpArgs (strings.TrimSpace rep0.output))) s2 =
          res3 at hlog3
      obtain ⟨rep3, s3⟩ := res3
      simp only at hlog3
      cases h3 : rep3.err with
      | some e3 =>
        simp only [h3]
        refine ⟨⟨_, rep0⟩, _, rfl, ?_, Or.inr ⟨h0,
          [⟨.stdoutPipe (operation.backupCpArgs (strings.TrimSpace rep0.output)), rep2⟩, ⟨.start
              (operation.backupCpArgs (strings.TrimSpace rep0.output)), rep3⟩], (perform env (.run
              ["docker", "rm", strings.TrimSpace rep0.output]) s3).1, ⟨[], none⟩,
          rfl, ?_, ?_, fun h => absurd h (by simp)⟩⟩
        · simp [perform_log, hlog3, hlog2, hlog0]
        · simp [h3]
        · apply streamTrace_early
          · simp [Op.isRun, Op.isSinkWrite, Op.isWait]
          · exact ⟨⟨.start (operation.backupCpArgs (strings.TrimSpace rep0.output)), rep3⟩,
              by simp, by simp [h3]⟩
      | none =>
        simp only [h3]
        obtain ⟨cs, hcs, hpre, -⟩ := restoreLoop_trace env (env.tarReader rep3.content).ending
          (env.tarReader rep3.content).entries s3
        have hwr := loop_calls_are_writes hpre
        have hT := streamTrace_of_loop env (env.tarReader rep3.content) s3
          [⟨.stdoutPipe (operation.backupCpArgs (strings.TrimSpace rep0.output)), rep2⟩, ⟨.start
              (operation.backupCpArgs (strings.TrimSpace rep0.output)), rep3⟩] []
          ⟨.wait (operation.backupCpArgs (strings.TrimSpace rep0.output)),
            (perform env (.wait (operation.backupCpArgs (strings.TrimSpace rep0.output)))
              (operation.restoreLoop env (env.tarReader rep3.content).ending
                (env.tarReader rep3.content).entries s3).2).1⟩
          cs hcs (by simp [Op.isRun, Op.isSinkWrite, Op.isWait])
          (by simp)
          (by simp [Op.isRun, Op.isSinkWrite, Op.isWait])
        generalize operation.restoreLoop env (env.tarReader rep3.content).ending
          (env.tarReader rep3.content).entries s3 = resL at hcs hT
        obtain ⟨eL, s4⟩ := resL
        simp only [List.append_nil] at hcs hT
        have hstart : ∀ c ∈ cs, ∀ argv, c.op = .start argv → c.reply.err = none →
            env.tarReader c.reply.content = env.tarReader rep3.content := by
          intro c hc argv hop
          have := hwr c hc
          rw [hop] at this
          cases this
        cases eL with
        | some e4 =>
          simp only
          refine ⟨⟨_, rep0⟩, _, rfl, ?_, Or.inr ⟨h0, _, (perform env (.run ["docker", "rm",
              strings.TrimSpace rep0.output]) s4).1,
            env.tarReader rep3.content, rfl, ?_, hT.1 e4 rfl, fun h => absurd h (by simp)⟩⟩
          · simp [perform_log, hcs, hlog3, hlog2, hlog0]
          · intro c hc argv hop herr
            simp only [List.mem_append, List.mem_cons, List.mem_singleton,
              List.not_mem_nil, or_false] at hc
            rcases hc with (rfl | rfl) | hc
            · cases hop
            · rfl
            · exact hstart c hc argv hop herr
        | none =>
          simp only
          have hT2 := hT.2 rfl
          have hmid : ∀ c ∈ [⟨.stdoutPipe (operation.backupCpArgs (strings.TrimSpace rep0.output)),
              rep2⟩, ⟨.start (operation.backupCpArgs (strings.TrimSpace rep0.output)), rep3⟩] ++ cs
              ++
              [(⟨.wait (operation.backupCpArgs (strings.TrimSpace rep0.output)), (perform env
                  (.wait (operation.backupCpArgs (strings.TrimSpace rep0.output))) s4).1⟩ : Call)],
                  ∀ argv,
              c.op = .start argv → c.reply.err = none →
              env.tarReader c.reply.content = env.tarReader rep3.content := by
            intro c hc argv hop herr
            simp only [List.mem_append, List.mem_cons, List.mem_singleton,
              List.not_mem_nil, or_false] at hc
            rcases hc with ((rfl | rfl) | hc) | rfl
            · cases hop
            · rfl
            · exact hstart c hc argv hop herr
            · cases hop
          cases hw : (perform env (.wait (operation.backupCpArgs
              (strings.TrimSpace rep0.output))) s4).1.err with
          | some e5 =>
            simp only [hw, Option.map_some'] at hT2 ⊢
            refine ⟨⟨_, rep0⟩, _, rfl, ?_, Or.inr ⟨h0, _,
              (perform env (.run ["docker", "rm", strings.TrimSpace rep0.output]) (perform env
                  (.wait (operation.backupCpArgs (strings.TrimSpace rep0.output))) s4).2).1,
              env.tarReader rep3.content, rfl, hmid, hT2, fun h => absurd h (by simp)⟩⟩
            simp [perform_log, hcs, hlog3, hlog2, hlog0]
          | none =>
            simp only [hw, Option.map_none'] at hT2 ⊢
            refine ⟨⟨_, rep0⟩, _, rfl, ?_, Or.inr ⟨h0, _,
              (perform env (.run ["docker", "rm", strings.TrimSpace rep0.output]) (perform env
                  (.wait (operation.backupCpArgs (strings.TrimSpace rep0.output))) s4).2).1,
              env.tarReader rep3.content, rfl, hmid, hT2,
              fun _ => ⟨⟨.start (operation.backupCpArgs (strings.TrimSpace rep0.output)), rep3⟩,
                  by simp, _, rfl, h3⟩⟩⟩
            simp [perform_log, hcs, hlog3, hlog2, hlog0]

/-! ## The run with the temporary container -/

theorem runWith_before {W : Type} {Φ : GoError → List Call → Prop} {B : Op → Prop}
    (F : Framing Φ B) {s t : St W} {res : GoError × St W} (h0 : Extends B s t)
    (h : RunWith Φ t res) : RunWith Φ s res := by
  obtain ⟨pre, hpre, hB⟩ := h0
  obtain ⟨cs, hcs, hΦ⟩ := h
  exact ⟨pre ++ cs ++ [], by rw [hcs, hpre]; simp, F.frame _ pre cs [] hB (by simp) hΦ⟩

theorem runWith_after {W : Type} {Φ : GoError → List Call → Prop} {B : Op → Prop}
    (F : Framing Φ B) {s : St W} {res : GoError × St W} (u : St W)
    (h1 : Extends B res.2 u) (h : RunWith Φ s res) : RunWith Φ s (res.1, u) := by
  obtain ⟨post, hpost, hB⟩ := h1
  obtain ⟨cs, hcs, hΦ⟩ := h
  exact ⟨[] ++ cs ++ post, by simp only [hpost, hcs]; simp,
    F.frame _ [] cs post (by simp) hB hΦ⟩

theorem runWith_failed {W : Type} {Φ : GoError → List Call → Prop} {B : Op → Prop}
    (F : Framing Φ B) {s t : St W} (e : String) (h : Extends B s t) :
    RunWith Φ s (some e, t) := by
  obtain ⟨cs, hcs, hB⟩ := h
  exact ⟨cs, hcs, F.failed e cs hB⟩

theorem runWith_deferred {W : Type} {Φ : GoError → List Call → Prop} {B : Op → Prop}
    (F : Framing Φ B) (env : Env W) (op : Op) {s : St W} {res : GoError × St W}
    (hop : B op) (h : RunWith Φ s res) :
    RunWith Φ s (deferred (fun t => (perform env op t).2) res) :=
  runWith_after F _ (extends_perform env B op res.2 hop) h

theorem runRestore_runWith {W : Type} {Φ : GoError → List Call → Prop} {B : Op → Prop}
    (F : Framing Φ B) (env : Env W) (r : operation.Restore) (src : String) (s : St W)
    (hB : ∀ op : Op, op.isRun = false → op.isSinkWrite = false → op.isWait = false → B op)
    (hin : ∀ tr t, RunWith Φ t (operation.runRestoreInContainer env r tr t)) :
    RunWith Φ s (operation.runRestore env r src s) := by
  have hfile : ∀ t, RunWith Φ t (operation.runRestoreFromFile env r src t) := by
    intro t
    unfold operation.runRestoreFromFile
    have h1 := extends_perform env B (.openFile src) t (hB _ rfl rfl rfl)
    generalize perform env (.openFile src) t = res1 at h1
    obtain ⟨rep1, s1⟩ := res1
    cases hrep1 : rep1.err with
    | some e =>
      simp only [hrep1]
      exact runWith_failed F _ h1
    | none =>
      simp only [hrep1]
      refine runWith_deferred F env (.close src) (hB _ rfl rfl rfl) ?_
      cases rw.CreateReader env.lib rep1.content src with
      | error e => exact runWith_failed F _ h1
      | ok reader => exact runWith_before F h1 (hin _ s1)
  unfold operation.runRestore
  by_cases hp : r.showProgress = true
  · simp only [hp, if_true]
    refine runWith_deferred F env .finishBar (hB _ rfl rfl rfl) ?_
    have h1 : Extends B s (operation.GetFileSize env src s).2 := by
      rw [getFileSize_snd]
      exact extends_perform env _ _ _ (hB _ rfl rfl rfl)
    exact runWith_before F (extends_trans h1
      (extends_perform env _ (.newBar _) _ (hB _ rfl rfl rfl))) (hfile _)
  · simp only [hp]
    exact hfile s

theorem runBackup_runWith {W : Type} {Φ : GoError → List Call → Prop} {B : Op → Prop}
    (F : Framing Φ B) (env : Env W) (b : operation.Backup) (dest : String) (s : St W)
    (hB : ∀ op : Op, op.isRun = false → op.isSinkWrite = false → op.isWait = false → B op)
    (hsize : B (.run (docker.volumeSizeArgs b.volume)))
    (hin : ∀ t, RunWith Φ t (operation.runBackupInContainer env b t)) :
    RunWith Φ s (operation.runBackup env b dest s) := by
  have hfile : ∀ t, RunWith Φ t (operation.runBackupToFile env b dest t) := by
    intro t
    unfold operation.runBackupToFile
    have h1 := extends_perform env B (.create dest) t (hB _ rfl rfl rfl)
    generalize perform env (.create dest) t = res1 at h1
    obtain ⟨rep1, s1⟩ := res1
    cases hrep1 : rep1.err with
    | some e =>
      simp only [hrep1]
      exact runWith_failed F _ h1
    | none =>
      simp only [hrep1]
      refine runWith_deferred F env (.close dest) (hB _ rfl rfl rfl) ?_
      generalize rw.CreateWriter [] b.compression = cw
      obtain ⟨writer, werr, sink⟩ := cw
      cases werr with
      | some e => exact runWith_failed F _ h1
      | none =>
        simp only
        obtain ⟨post, hpost, hops⟩ := closeWriter_log env writer
          (deferred (fun t => (perform env .closeTar t).2)
            (operation.runBackupInContainer env b s1)).2
        refine runWith_after F _ ⟨post, hpost, ?_⟩ ?_
        · intro c hc
          rw [hops c hc]
          exact hB _ rfl rfl rfl
        · refine runWith_deferred F env .closeTar (hB _ rfl rfl rfl) ?_
          exact runWith_before F h1 (hin s1)
  unfold operation.runBackup
  by_cases hp : b.showProgress = true
  · simp only [hp, if_true]
    refine runWith_deferred F env .finishBar (hB _ rfl rfl rfl) ?_
    have h1 : Extends B s (docker.GetVolumeSize env b.volume s).2 := by
      rw [getVolumeSize_snd]
      exact extends_perform env _ _ _ hsize
    exact runWith_before F (extends_trans h1
      (extends_perform env _ (.newBar _) _ (hB _ rfl rfl rfl))) (hfile _)
  · simp only [hp]
    exact hfile s

theorem streamErrorFirst_framing :
    Framing spec.StreamErrorFirst (fun op => op.isSinkWrite = false ∧ op.isWait = false) := by
  constructor
  · intro e pre cs post hpre hpost ⟨h1, h2, h3⟩
    have hnw : ∀ c ∈ pre ++ cs ++ post, c.op.isSinkWrite = true → c ∈ cs := by
      intro c hc hw
      simp only [List.mem_append] at hc
      rcases hc with (h | h) | h
      · rw [(hpre c h).1] at hw
        cases hw
      · exact h
      · rw [(hpost c h).1] at hw
        cases hw
    refine ⟨?_, ?_, ?_⟩
    · intro c hc header err hop herr
      exact h1 c (hnw c hc (by rw [hop]; rfl)) header err hop herr
    · intro c hc data err hop herr
      exact h2 c (hnw c hc (by rw [hop]; rfl)) data err hop herr
    · intro c hc hwc
      have hcs : c ∈ cs := by
        simp only [List.mem_append] at hc
        rcases hc with (h | h) | h
        · rw [(hpre c h).2] at hwc
          cases hwc
        · exact h
        · rw [(hpost c h).2] at hwc
          cases hwc
      obtain ⟨ha, hb⟩ := h3 c hcs hwc
      exact ⟨fun k hk hkw => ha k (hnw k hk hkw) hkw, hb⟩
  · intro e cs hB
    refine ⟨?_, ?_, ?_⟩
    · intro c hc header err hop
      have := (hB c hc).1
      rw [hop] at this
      cases this
    · intro c hc data err hop
      have := (hB c hc).1
      rw [hop] at this
      cases this
    · intro c hc hwc
      rw [(hB c hc).2] at hwc
      cases hwc

theorem inContainer_streamErrorFirst (volume : String) (src : TarSource) (e : GoError)
    (c0 : Call) (mid : List Call) (rmrep : Reply)
    (hop : c0.op = .run ["docker", "create", "-v", volume ++ ":/data", "alpine", "true"])
    (h : StreamTrace src e mid) :
    spec.StreamErrorFirst e
      (c0 :: (mid ++ [⟨.run ["docker", "rm", strings.TrimSpace c0.reply.output], rmrep⟩])) ∧
    spec.SourceErrorFirst src e
      (c0 :: (mid ++ [⟨.run ["docker", "rm", strings.TrimSpace c0.reply.output], rmrep⟩])) := by
  obtain ⟨hrun, h1, h2, h3, h4⟩ := h
  have hmem : ∀ c ∈ c0 :: (mid ++
      [(⟨.run ["docker", "rm", strings.TrimSpace c0.reply.output], rmrep⟩ : Call)]),
      (c.op.isSinkWrite = true ∨ c.op.isWait = true) → c ∈ mid := by
    intro c hc hw
    simp only [List.mem_cons, List.mem_append, List.mem_singleton, List.not_mem_nil,
      or_false] at hc
    rcases hc with rfl | hc | rfl
    · rw [hop] at hw
      rcases hw with hw | hw <;> cases hw
    · exact hc
    · rcases hw with hw | hw <;> cases hw
  constructor
  · refine ⟨?_, ?_, ?_⟩
    · intro c hc header err hop2 herr
      exact h1 c (hmem c hc (Or.inl (by rw [hop2]; rfl))) header err hop2 herr
    · intro c hc data err hop2 herr
      exact h2 c (hmem c hc (Or.inl (by rw [hop2]; rfl))) data err hop2 herr
    · intro c hc hwc
      obtain ⟨ha, _, hb⟩ := h3 c (hmem c hc (Or.inr hwc)) hwc
      exact ⟨fun k hk hkw => ha k (hmem k hk (Or.inl hkw)) hkw, hb⟩
  · refine ⟨?_, ?_⟩
    · intro c hc hwc
      exact (h3 c (hmem c hc (Or.inr hwc)) hwc).2.1
    · intro hall
      have hmid : ∀ c ∈ mid, c.op.isWait = false → c.reply.err = none := by
        intro c hc hw
        refine hall c (by simp [hc]) hw (fun id hid => ?_)
        have := hrun c hc
        rw [hid] at this
        cases this
      obtain ⟨ha, hb⟩ := h4 hmid
      constructor
      · intro m hm
        obtain ⟨he, hnw⟩ := ha m hm
        refine ⟨he, ?_⟩
        intro c hc
        simp only [List.mem_cons, List.mem_append, List.mem_singleton, List.not_mem_nil,
          or_false] at hc
        rcases hc with rfl | hc | rfl
        · rw [hop]
          rfl
        · exact hnw c hc
        · rfl
      · intro hnone
        obtain ⟨c, hc, hw⟩ := hb hnone
        exact ⟨c, by simp [hc], hw⟩

theorem failedCreate_streamErrorFirst (volume : String) (src : TarSource) (e : GoError)
    (c0 : Call)
    (hop : c0.op = .run ["docker", "create", "-v", volume ++ ":/data", "alpine", "true"])
    (herr : c0.reply.err ≠ none) :
    spec.StreamErrorFirst e [c0] ∧ spec.SourceErrorFirst src e [c0] := by
  refine ⟨⟨?_, ?_, ?_⟩, ?_, ?_⟩
  · intro c hc header err hop2
    rw [List.mem_singleton.mp hc, hop] at hop2
    cases hop2
  · intro c hc data err hop2
    rw [List.mem_singleton.mp hc, hop] at hop2
    cases hop2
  · intro c hc hwc
    rw [List.mem_singleton.mp hc, hop] at hwc
    cases hwc
  · intro c hc hwc
    rw [List.mem_singleton.mp hc, hop] at hwc
    cases hwc
  · intro hall
    exact absurd (hall c0 (List.mem_singleton.mpr rfl) (by rw [hop]; rfl)
      (by rw [hop]; intro id h; simp at h)) herr

theorem runRestoreInContainer_streamFirst {W : Type} (env : Env W) (r : operation.Restore)
    (src : TarSource) (s : St W) :
    RunWith spec.StreamErrorFirst s (operation.runRestoreInContainer env r src s) ∧
    spec.SourceErrorFirst src (operation.runRestoreInContainer env r src s).1
      (callsSince s (operation.runRestoreInContainer env r src s).2) := by
  obtain ⟨c0, rest, hop, hlog, h | h⟩ := runRestoreInContainer_stream env r src s
  · obtain ⟨herr, rfl, _⟩ := h
    rw [callsSince_of_log _ _ _ hlog]
    exact ⟨⟨_, hlog, (failedCreate_streamErrorFirst r.volume src _ c0 hop herr).1⟩,
      (failedCreate_streamErrorFirst r.volume src _ c0 hop herr).2⟩
  · obtain ⟨_, mid, rmrep, rfl, ht⟩ := h
    rw [callsSince_of_log _ _ _ hlog]
    exact ⟨⟨_, hlog, (inContainer_streamErrorFirst r.volume src _ c0 mid rmrep hop ht).1⟩,
      (inContainer_streamErrorFirst r.volume src _ c0 mid rmrep hop ht).2⟩

theorem runBackupInContainer_streamFirst {W : Type} (env : Env W) (b : operation.Backup)
    (s : St W) :
    RunWith spec.StreamErrorFirst s (operation.runBackupInContainer env b s) ∧
    ∀ c ∈ callsSince s (operation.runBackupInContainer env b s).2, ∀ argv,
      c.op = .start argv → c.reply.err = none →
      spec.SourceErrorFirst (env.tarReader c.reply.content)
        (operation.runBackupInContainer env b s).1
        (callsSince s (operation.runBackupInContainer env b s).2) := by
  obtain ⟨c0, rest, hop, hlog, h | h⟩ := runBackupInContainer_stream env b s
  · obtain ⟨herr, rfl, _⟩ := h
    rw [callsSince_of_log _ _ _ hlog]
    exact ⟨⟨_, hlog, (failedCreate_streamErrorFirst b.volume ⟨[], none⟩ _ c0 hop herr).1⟩,
      fun c _ argv _ _ => (failedCreate_streamErrorFirst b.volume _ _ c0 hop herr).2⟩
  · obtain ⟨_, mid, rmrep, src, rfl, hsrc, ht, _⟩ := h
    rw [callsSince_of_log _ _ _ hlog]
    refine ⟨⟨_, hlog, (inContainer_streamErrorFirst b.volume src _ c0 mid rmrep hop ht).1⟩, ?_⟩
    intro c hc argv hcop hcerr
    have hmem : c ∈ mid := by
      simp only [List.mem_cons, List.mem_append, List.mem_singleton, List.not_mem_nil,
        or_false] at hc
      rcases hc with rfl | h | rfl
      · rw [hop] at hcop
        cases hcop
      · exact h
      · cases hcop
    rw [hsrc c hmem argv hcop hcerr]
    exact (inContainer_streamErrorFirst b.volume src _ c0 mid rmrep hop ht).2

theorem runWith_calls {W : Type} {Φ : GoError → List Call → Prop} {s : St W}
    {res : GoError × St W} (h : RunWith Φ s res) : Φ res.1 (callsSince s res.2) := by
  obtain ⟨cs, hcs, hΦ⟩ := h
  rw [callsSince_of_log _ _ _ hcs]
  exact hΦ

/-- C22: in `runBackup` and `runRestore` a stream error comes before the exit status of
`docker cp`. Whenever the writing of a header or of a content to the sink fails, the result
is that error, wrapped, whatever the host would answer to `cmd.Wait()`: `cmd.Wait()` is
called only when every header and content was accepted and the source has had no failure,
and only then is its error, wrapped as "docker cp failed: ...", the result. When nothing
else fails, a failure of the source (the reading of a content or of the next header) is the
result and `cmd.Wait()` is not called. The statements on the source are made for the part
of either function that runs with the temporary container; for `runBackup` the source is the
archive in the reply to `cmd.Start()`. -/
theorem C22_stream_errors_come_first {W : Type} (env : Env W) (src : TarSource)
    (r : operation.Restore) (b : operation.Backup) (file dest : String) (s : St W) :
    spec.StreamErrorFirst (operation.runRestore env r file s).1
      (callsSince s (operation.runRestore env r file s).2) ∧
    spec.StreamErrorFirst (operation.runBackup env b dest s).1
      (callsSince s (operation.runBackup env b dest s).2) ∧
    spec.SourceErrorFirst src (operation.runRestoreInContainer env r src s).1
      (callsSince s (operation.runRestoreInContainer env r src s).2) ∧
    (∀ c ∈ callsSince s (operation.runBackupInContainer env b s).2, ∀ argv,
      c.op = .start argv → c.reply.err = none →
      spec.SourceErrorFirst (env.tarReader c.reply.content)
        (operation.runBackupInContainer env b s).1
        (callsSince s (operation.runBackupInContainer env b s).2)) ∧
    ((∀ c ∈ callsSince s (operation.restoreLoop env src.ending src.entries s).2,
        c.reply.err = none) →
      (operation.restoreLoop env src.ending src.entries s).1 =
        spec.firstSourceError src.entries src.ending) ∧
    ((∀ c ∈ callsSince s (operation.backupLoop env src.ending src.entries s).2,
        c.reply.err = none) →
      (operation.backupLoop env src.ending src.entries s).1 =
        spec.firstSourceError src.entries src.ending) := by
  have hloop : (∀ c ∈ callsSince s (operation.restoreLoop env src.ending src.entries s).2,
      c.reply.err = none) →
      (operation.restoreLoop env src.ending src.entries s).1 =
        spec.firstSourceError src.entries src.ending := by
    obtain ⟨cs, hcs, _, _, hall⟩ := restoreLoop_failure env src.ending src.entries s
    rw [callsSince_of_log _ _ _ hcs]
    exact hall
  refine ⟨?_, ?_, (runRestoreInContainer_streamFirst env r src s).2,
    (runBackupInContainer_streamFirst env b s).2, hloop, ?_⟩
  · exact runWith_calls (runRestore_runWith streamErrorFirst_framing env r file s
      (fun op _ h1 h2 => ⟨h1, h2⟩)
      (fun tr t => (runRestoreInContainer_streamFirst env r tr t).1))
  · exact runWith_calls (runBackup_runWith streamErrorFirst_framing env b dest s
      (fun op _ h1 h2 => ⟨h1, h2⟩) ⟨rfl, rfl⟩
      (fun t => (runBackupInContainer_streamFirst env b t).1))
  · rw [backupLoop_eq]
    exact hloop

theorem C22_stream_errors_come_first_witness :
    (operation.runRestore
      (demoEnv.withHost (failOn (fun op => op.isWait || op.isSinkWrite) "broken pipe" demoHost))
      ⟨"data", false⟩ "backup.tar.gz" (demoStart [("data", [])] true)).1 =
      some ("failed to write tar header: " ++ "broken pipe") :=
  (C22_stream_errors_come_first
    (demoEnv.withHost (failOn (fun op => op.isWait || op.isSinkWrite) "broken pipe" demoHost))
    ⟨[], none⟩ ⟨"data", false⟩ ⟨"data", "gz", false⟩ "backup.tar.gz" "backup.tar.gz"
    (demoStart [("data", [])] true)).1.1
    ⟨.writeHeader ⟨"hello.txt", tar.TypeReg, 2, 420, ""⟩, { err := some "broken pipe" }⟩
    (by decide) _ _ rfl rfl
